import Mathlib

/-! Planejador: route planner (A* over a map of points and routes).

Shallow embedding of `planejador.h` / `planejador.cpp`.

* `std::string` is a list of characters (`Texto`).
* `double` is `ℚ`, with exact arithmetic, in the first model of the search and in the loader;
  the statements about the structure of the search (paths, counts, exceptions, termination) are
  made there. The statements about the value and the order of `f` are made on a second model
  of the search, in the namespace `IEEE`, where `double` is the type `Dbl` of the values of
  IEEE 754 binary64: sums are rounded, and there are infinities and NaN.
* `sin`, `cos`, `acos` of the C math library are the fields of a `Libm` value that the
  functions using them take as an argument.
* `std::list` is `List`; `push_back` appends at the end, `push_front` conses.
* A `while` loop is a function with a fuel argument; `none` means the fuel ran out.
-/

set_option autoImplicit false

/-! ## Identifiers -/

/-- A `std::string`. -/
abbrev Texto := List Char

/-- Identifier of a point (class `IDPonto`, private member `t`). -/
structure IDPonto where
  t : Texto
deriving DecidableEq

/-- Identifier of a route (class `IDRota`, private member `t`). -/
structure IDRota where
  t : Texto
deriving DecidableEq

/-- Default constructor `IDPonto() : t("")`. -/
def IDPonto.vazio : IDPonto := ⟨[]⟩

/-- Default constructor `IDRota() : t("")`. -/
def IDRota.vazio : IDRota := ⟨[]⟩

/-- Method `IDPonto::valid`: `t.size() >= 2 && t[0] == '#'`. -/
def IDPonto.valid (I : IDPonto) : Bool :=
  decide (2 ≤ I.t.length) && decide (I.t.head? = some '#')

/-- Method `IDRota::valid`: `t.size() >= 2 && t[0] == '&'`. -/
def IDRota.valid (I : IDRota) : Bool :=
  decide (2 ≤ I.t.length) && decide (I.t.head? = some '&')

/-- Method `IDPonto::set` of `planejador.cpp`: store the string, clear it when not valid. (The
class body in `planejador.h` also has an inline `set` that only stores the string.) -/
def IDPonto.set (S : Texto) : IDPonto :=
  if (IDPonto.mk S).valid then ⟨S⟩ else ⟨[]⟩

/-- Method `IDRota::set` of `planejador.cpp`: store the string, clear it when not valid. (The
class body in `planejador.h` also has an inline `set` that only stores the string.) -/
def IDRota.set (S : Texto) : IDRota :=
  if (IDRota.mk S).valid then ⟨S⟩ else ⟨[]⟩

/-! ## Points, routes, the map -/

/-- A point of the map (struct `Ponto`). -/
structure Ponto where
  id : IDPonto
  nome : Texto
  latitude : ℚ
  longitude : ℚ
deriving DecidableEq

/-- Default constructor `Ponto()`. -/
def Ponto.vazio : Ponto := ⟨IDPonto.vazio, [], 0, 0⟩

/-- Method `Ponto::valid`. -/
def Ponto.valid (P : Ponto) : Bool := P.id.valid

/-- A route of the map (struct `Rota`); `extremidade[0]`, `extremidade[1]` are two fields. -/
structure Rota where
  id : IDRota
  nome : Texto
  extremidade0 : IDPonto
  extremidade1 : IDPonto
  comprimento : ℚ
deriving DecidableEq

/-- Default constructor `Rota()`. -/
def Rota.vazia : Rota := ⟨IDRota.vazio, [], IDPonto.vazio, IDPonto.vazio, 0⟩

/-- Method `Rota::valid`. -/
def Rota.valid (R : Rota) : Bool := R.id.valid

/-- Type `Caminho`: a list of pairs `<IDRota, IDPonto>`. -/
abbrev Caminho := List (IDRota × IDPonto)

/-- Class `Planejador`: the points and the routes of the map. -/
structure Planejador where
  pontos : List Ponto
  rotas : List Rota
deriving DecidableEq

namespace Planejador

/-- Method `Planejador::clear`. -/
def clear (_M : Planejador) : Planejador := ⟨[], []⟩

/-- Method `Planejador::empty`. -/
def empty (M : Planejador) : Bool := M.pontos.isEmpty

/-- Method `Planejador::getPonto`: first point whose id equals `Id`, else `Ponto()`. The
`std::find` of a `Ponto` equal to an `IDPonto` is the search of the point with that id. -/
def getPonto (M : Planejador) (Id : IDPonto) : Ponto :=
  match M.pontos.find? (fun P => decide (P.id = Id)) with
  | some P => P
  | none => Ponto.vazio

/-- Method `Planejador::getRota`: first route whose id equals `Id`, else `Rota()`. The
`std::find` of a `Rota` equal to an `IDRota` is the search of the route with that id. -/
def getRota (M : Planejador) (Id : IDRota) : Rota :=
  match M.rotas.find? (fun R => decide (R.id = Id)) with
  | some R => R
  | none => Rota.vazia

end Planejador

/-! ## Distance -/

/-- The functions of `<cmath>` that `haversine` calls. -/
structure Libm where
  sin : ℚ → ℚ
  cos : ℚ → ℚ
  acos : ℚ → ℚ

/-- Constant `MY_PI` of `haversine`. -/
def MY_PI : ℚ := 3.14159265358979323846

/-- Constant `R_EARTH` of `haversine`. -/
def R_EARTH : ℚ := 6371

/-- Function `haversine` of `planejador.cpp`, the one with the test of equal ids. -/
def haversine (m : Libm) (P1 P2 : Ponto) : ℚ :=
  if P1.id = P2.id then 0
  else
    let lat1 := MY_PI * P1.latitude / 180
    let lat2 := MY_PI * P2.latitude / 180
    let lon1 := MY_PI * P1.longitude / 180
    let lon2 := MY_PI * P2.longitude / 180
    let cosseno := m.sin lat1 * m.sin lat2 + m.cos lat1 * m.cos lat2 * m.cos (lon1 - lon2)
    let cosseno := if cosseno > 1 then 1 else cosseno
    let cosseno := if cosseno < -1 then -1 else cosseno
    R_EARTH * m.acos cosseno

/-! ## A* search -/

/-- Class `Noh`: a search node. -/
structure Noh where
  id_pt : IDPonto
  id_rt : IDRota
  g : ℚ
  h : ℚ
deriving DecidableEq

/-- Method `Noh::f`. -/
def Noh.f (n : Noh) : ℚ := n.g + n.h

/-- Insertion of `x` before the first node of `l` whose `f` is not less than that of `x`. -/
def insereOrd (x : Noh) : List Noh → List Noh
  | [] => [x]
  | y :: ys => if y.f < x.f then y :: insereOrd x ys else x :: y :: ys

/-- The call `Aberto.sort` with the comparator `a.f() < b.f()`: `std::list::sort` is a stable sort, and
the result of a stable sort is fixed by the list and the comparator; here by insertion. -/
def ordena : List Noh → List Noh
  | [] => []
  | x :: xs => insereOrd x (ordena xs)

namespace Planejador

/-- End of the body of the `for` loop of `calculaCaminho`, once the successor `suc` is built:
nothing when the point of `suc` is in `Fechado`, nothing when it is in `Aberto` with
`f() <= suc.f()`; otherwise the node of `Aberto` for that point is erased, if any, and `suc` is
pushed at the back. The result is the new content of `Aberto`. -/
def insereSuc (Fechado Aberto : List Noh) (suc : Noh) : List Noh :=
  match Fechado.find? (fun n => decide (n.id_pt = suc.id_pt)) with
  | some _ => Aberto
  | none =>
    match Aberto.find? (fun n => decide (n.id_pt = suc.id_pt)) with
    | some n =>
      if n.f ≤ suc.f then Aberto
      else Aberto.eraseP (fun n => decide (n.id_pt = suc.id_pt)) ++ [suc]
    | none => Aberto ++ [suc]

/-- Body of the `for (const Rota &rota : rotas)` loop of `calculaCaminho`, which generates the
successor of `atual` along `rota`; the result is the new content of `Aberto`. -/
def visita (M : Planejador) (m : Libm) (pt_dest : Ponto) (atual : Noh) (Fechado : List Noh)
    (Aberto : List Noh) (rota : Rota) : List Noh :=
  if rota.extremidade0 = atual.id_pt ∨ rota.extremidade1 = atual.id_pt then
    let id_suc := if rota.extremidade0 = atual.id_pt then rota.extremidade1
                  else rota.extremidade0
    let pt_suc := M.getPonto id_suc
    if !pt_suc.valid then Aberto
    else
      let g_suc := atual.g + rota.comprimento
      let h_suc := haversine m pt_suc pt_dest
      insereSuc Fechado Aberto ⟨id_suc, rota.id, g_suc, h_suc⟩
  else Aberto

/-- The `for (const Rota &rota : rotas)` loop of `calculaCaminho` over the list `rotas`. -/
def expande (M : Planejador) (m : Libm) (pt_dest : Ponto) (atual : Noh) (Fechado : List Noh)
    (rotas : List Rota) (Aberto : List Noh) : List Noh :=
  rotas.foldl (visita M m pt_dest atual Fechado) Aberto

/-- The `while (atual.id_rt.valid())` loop that rebuilds the path. `Except.error C` is `throw 6`
with the path as it is at that moment, `Except.ok C` is the normal exit of the loop. -/
def reconstroi (M : Planejador) (Fechado : List Noh) :
    Nat → Noh → Caminho → Option (Except Caminho Caminho)
  | fuel, atual, C =>
    if atual.id_rt.valid then
      match fuel with
      | 0 => none
      | fuel + 1 =>
        let C1 := (atual.id_rt, atual.id_pt) :: C
        match Fechado.find? (fun noh =>
            decide (noh.id_pt = (M.getRota atual.id_rt).extremidade0) ||
            decide (noh.id_pt = (M.getRota atual.id_rt).extremidade1)) with
        | none => some (Except.error C1)
        | some noh => reconstroi M Fechado fuel noh C1
    else some (Except.ok C)

/-- What the `try` block of `calculaCaminho` ends with. -/
inductive Fim where
  | retorno (comprimento : ℚ) (C : Caminho) (NA NF : Int)
  | excecao (i : Nat) (C : Caminho)
deriving DecidableEq

/-- The block of `calculaCaminho` run when `atual` is the destination: the path is rebuilt from
`atual` through `Fechado`, the origin is pushed in front, and `NA`, `NF` and the length are
returned; `throw 6` when a predecessor is not found. The fuel of `reconstroi` is the number of
nodes of `Fechado`: the node a step moves to is fixed by the current node, so a run of more
steps than there are nodes comes back to a node and does not end. -/
def chegada (M : Planejador) (id_origem : IDPonto) (atual : Noh) (Aberto Fechado : List Noh) :
    Option Fim :=
  match reconstroi M Fechado Fechado.length atual [] with
  | none => none
  | some (Except.error C) => some (Fim.excecao 6 C)
  | some (Except.ok C) =>
    some (Fim.retorno atual.g ((IDRota.vazio, id_origem) :: C) Aberto.length Fechado.length)

/-- The `while (!Aberto.empty())` loop of `calculaCaminho`, followed by `throw 7`; `none` when
the fuel runs out. -/
def laco (M : Planejador) (m : Libm) (id_origem id_destino : IDPonto) (pt_dest : Ponto) :
    Nat → List Noh → List Noh → Option Fim
  | 0, _, _ => none
  | fuel + 1, Aberto, Fechado =>
    match ordena Aberto with
    | [] => some (Fim.excecao 7 [])
    | atual :: Aberto1 =>
      let Fechado1 := Fechado ++ [atual]
      if atual.id_pt = id_destino then chegada M id_origem atual Aberto1 Fechado1
      else
        laco M m id_origem id_destino pt_dest fuel
          (expande M m pt_dest atual Fechado1 M.rotas Aberto1) Fechado1

/-- What `calculaCaminho` leaves to its caller: the returned value, the output parameters `C`, `NA`
and `NF`, and the number written to `cerr` when an exception was caught. -/
structure Saida where
  comprimento : ℚ
  C : Caminho
  NA : Int
  NF : Int
  erro : Option Nat
deriving DecidableEq

/-- The `try` block of `calculaCaminho`. The main loop gets one unit of fuel per point of the
map and one more, which `laco_regra` and `InvLaco.length_le` show to be enough. -/
def tenta (M : Planejador) (m : Libm) (id_origem id_destino : IDPonto) : Option Fim :=
  if M.empty then some (Fim.excecao 1 [])
  else
    let pt_orig := M.getPonto id_origem
    if !pt_orig.valid then some (Fim.excecao 4 [])
    else
      let pt_dest := M.getPonto id_destino
      if !pt_dest.valid then some (Fim.excecao 5 [])
      else
        let no_inicial : Noh := ⟨id_origem, IDRota.vazio, 0, haversine m pt_orig pt_dest⟩
        laco M m id_origem id_destino pt_dest (M.pontos.length + 1) [no_inicial] []

/-- Method `Planejador::calculaCaminho`. The path `C` of the caller is cleared first, so its prior content
`_C0` is not read. After a caught exception `NA = NF = -1` and `-1.0` is returned. -/
def calculaCaminho (M : Planejador) (m : Libm) (id_origem id_destino : IDPonto)
    (_C0 : Caminho) : Option Saida :=
  match tenta M m id_origem id_destino with
  | none => none
  | some (Fim.retorno comprimento C NA NF) => some ⟨comprimento, C, NA, NF, none⟩
  | some (Fim.excecao i C) => some ⟨-1, C, -1, -1, some i⟩

end Planejador

/-! ## Input streams

An `ifstream` is the text not yet read together with its `failbit` and `eofbit`. The conversion
of characters to a `double` done by `operator>>` is an argument `numGet` of the functions that
read: applied to the text that follows the skipped white space it gives the value read, or `none`
when the conversion fails, and the number of characters it consumed. -/

/-- State of an `ifstream`. -/
structure Fluxo where
  buf : Texto
  failbit : Bool
  eofbit : Bool
deriving DecidableEq

/-- The conversion used by `operator>>(double&)`. -/
abbrev NumGet := Texto → Option ℚ × Nat

/-- A stream just opened on a file with the content `t`. -/
def Fluxo.abre (t : Texto) : Fluxo := ⟨t, false, false⟩

/-- Method `good()`. -/
def Fluxo.good (s : Fluxo) : Bool := !s.failbit && !s.eofbit

/-- Method `fail()`. -/
def Fluxo.fail (s : Fluxo) : Bool := s.failbit

/-- Method `eof()`. -/
def Fluxo.eof (s : Fluxo) : Bool := s.eofbit

/-- White space of the C locale. -/
def isspace (c : Char) : Bool :=
  c = ' ' || c = '\t' || c = '\n' || c = '\x0b' || c = '\x0c' || c = '\r'

/-- The text before the first `delim` and the text after it; `none` when there is no `delim`. -/
def separa (delim : Char) : Texto → Option (Texto × Texto)
  | [] => none
  | c :: r =>
    if c = delim then some ([], r)
    else
      match separa delim r with
      | none => none
      | some (a, b) => some (c :: a, b)

/-- The call `getline(arq, prov, delim)`: on a stream that is not good, `failbit`; otherwise the
characters up to `delim` are extracted and `delim` is discarded; when the end of the file comes
first, `eofbit`, and also `failbit` if nothing was extracted. The second component is `prov`
(meaningful when `failbit` is not set). -/
def Fluxo.getline (s : Fluxo) (delim : Char) : Fluxo × Texto :=
  if !s.good then ({ s with failbit := true }, [])
  else
    match separa delim s.buf with
    | some (str, resto) => ({ s with buf := resto }, str)
    | none => (⟨[], s.buf.isEmpty, true⟩, s.buf)

/-- The extraction `arq >> x` for a `double x`: on a stream that is not good, `failbit`; otherwise white space
is skipped; at the end of the file `eofbit` and `failbit`; otherwise `numGet` converts, `failbit`
when it fails and `eofbit` when it consumed the text up to the end. The second component is the
value read (0 after a failure). -/
def Fluxo.lerDouble (numGet : NumGet) (s : Fluxo) : Fluxo × ℚ :=
  if !s.good then ({ s with failbit := true }, 0)
  else
    let b := s.buf.dropWhile isspace
    if b.isEmpty then (⟨[], true, true⟩, 0)
    else
      let resto := b.drop (numGet b).2
      match (numGet b).1 with
      | some v => (⟨resto, false, resto.isEmpty⟩, v)
      | none => (⟨resto, true, resto.isEmpty⟩, 0)

/-- The call `arq.ignore(1, ';')`: one character is extracted and discarded, if there is one. -/
def Fluxo.ignore1 (s : Fluxo) : Fluxo :=
  if !s.good then { s with failbit := true }
  else
    match s.buf with
    | [] => { s with eofbit := true }
    | _ :: r => { s with buf := r }

/-- The extraction `arq >> ws`: white space is skipped, `eofbit` when the end of the file is reached. -/
def Fluxo.ws (s : Fluxo) : Fluxo :=
  if !s.good then { s with failbit := true }
  else ⟨s.buf.dropWhile isspace, false, (s.buf.dropWhile isspace).isEmpty⟩

/-! ## Loading the map -/

/-- Header of the file of points. -/
def cabecalhoPontos : Texto := "ID;Nome;Latitude;Longitude".toList

/-- Header of the file of routes. -/
def cabecalhoRotas : Texto := "ID;Nome;Extremidade 1;Extremidade 2;Comprimento".toList

namespace Planejador

/-- Body of the `do` loop that reads the points, up to `arq >> ws`: one point is read from the
stream. `Except.error i` is `throw i`. -/
def lerPonto (numGet : NumGet) (s : Fluxo) : Except Nat (Ponto × Fluxo) :=
  let r1 := s.getline ';'
  if r1.1.fail then Except.error 3
  else
    let id := IDPonto.set r1.2
    if !id.valid then Except.error 4
    else
      let r2 := r1.1.getline ';'
      if r2.1.fail || decide (r2.2.length < 2) then Except.error 5
      else
        let r3 := r2.1.lerDouble numGet
        if r3.1.fail then Except.error 6
        else
          let r4 := r3.1.ignore1.lerDouble numGet
          if r4.1.fail then Except.error 7
          else Except.ok (⟨id, r2.2, r3.2, r4.2⟩, r4.1.ws)

/-- The `do ... while (!arq.eof())` loop that reads the points into `listP`. -/
def lerPontosLaco (numGet : NumGet) : Nat → Fluxo → List Ponto → Option (Except Nat (List Ponto))
  | 0, _, _ => none
  | fuel + 1, s, listP =>
    match lerPonto numGet s with
    | Except.error i => some (Except.error i)
    | Except.ok (P, s1) =>
      match listP.find? (fun Q => decide (Q.id = P.id)) with
      | some _ => some (Except.error 8)
      | none =>
        if s1.eof then some (Except.ok (listP ++ [P]))
        else lerPontosLaco numGet fuel s1 (listP ++ [P])

/-- First `try` block of `ler`: the file of points, `none` when it cannot be opened. -/
def lerPontos (numGet : NumGet) (arq_pontos : Option Texto) :
    Option (Except Nat (List Ponto)) :=
  match arq_pontos with
  | none => some (Except.error 1)
  | some t =>
    let r := (Fluxo.abre t).getline '\n'
    if r.1.fail || decide (r.2 ≠ cabecalhoPontos) then some (Except.error 2)
    else lerPontosLaco numGet (r.1.buf.length + 1) r.1 []

/-- Body of the `do` loop that reads the routes, up to `arq >> ws`: one route is read from the
stream, its endpoints being looked up in `listP`. `Except.error i` is `throw i`. -/
def lerRota (numGet : NumGet) (listP : List Ponto) (s : Fluxo) : Except Nat (Rota × Fluxo) :=
  let r1 := s.getline ';'
  if r1.1.fail then Except.error 3
  else
    let id := IDRota.set r1.2
    if !id.valid then Except.error 4
    else
      let r2 := r1.1.getline ';'
      if r2.1.fail || decide (r2.2.length < 2) then Except.error 4
      else
        let r3 := r2.1.getline ';'
        if r3.1.fail then Except.error 6
        else
          let e0 := IDPonto.set r3.2
          if !e0.valid then Except.error 7
          else
            match listP.find? (fun Q => decide (Q.id = e0)) with
            | none => Except.error 8
            | some _ =>
              let r4 := r3.1.getline ';'
              if r4.1.fail then Except.error 9
              else
                let e1 := IDPonto.set r4.2
                if !e1.valid then Except.error 10
                else
                  match listP.find? (fun Q => decide (Q.id = e1)) with
                  | none => Except.error 11
                  | some _ =>
                    let r5 := r4.1.lerDouble numGet
                    if r5.1.fail then Except.error 12
                    else Except.ok (⟨id, r2.2, e0, e1, r5.2⟩, r5.1.ws)

/-- The `do ... while (!arq.eof())` loop that reads the routes into `listR`. -/
def lerRotasLaco (numGet : NumGet) (listP : List Ponto) :
    Nat → Fluxo → List Rota → Option (Except Nat (List Rota))
  | 0, _, _ => none
  | fuel + 1, s, listR =>
    match lerRota numGet listP s with
    | Except.error i => some (Except.error i)
    | Except.ok (R, s1) =>
      match listR.find? (fun Q => decide (Q.id = R.id)) with
      | some _ => some (Except.error 13)
      | none =>
        if s1.eof then some (Except.ok (listR ++ [R]))
        else lerRotasLaco numGet listP fuel s1 (listR ++ [R])

/-- Second `try` block of `ler`: the file of routes, `none` when it cannot be opened. -/
def lerRotas (numGet : NumGet) (listP : List Ponto) (arq_rotas : Option Texto) :
    Option (Except Nat (List Rota)) :=
  match arq_rotas with
  | none => some (Except.error 1)
  | some t =>
    let r := (Fluxo.abre t).getline '\n'
    if r.1.fail || decide (r.2 ≠ cabecalhoRotas) then some (Except.error 2)
    else lerRotasLaco numGet listP (r.1.buf.length + 1) r.1 []

/-- Method `Planejador::ler`: the returned `bool` and the map after the call. The arguments are the
contents of the two files, `none` for a file that cannot be opened. -/
def ler (M : Planejador) (numGet : NumGet) (arq_pontos arq_rotas : Option Texto) :
    Option (Bool × Planejador) :=
  match lerPontos numGet arq_pontos with
  | none => none
  | some (Except.error _) => some (false, M)
  | some (Except.ok listP) =>
    match lerRotas numGet listP arq_rotas with
    | none => none
    | some (Except.error _) => some (false, M)
    | some (Except.ok listR) => some (true, ⟨listP, listR⟩)

end Planejador

/-- A reader of decimal numbers (sign, digits, optional fraction) to run `ler` on examples. -/
def numGetDec (b : Texto) : Option ℚ × Nat :=
  let sinal : ℚ := if b.head? = some '-' then -1 else 1
  let k := if b.head? = some '-' ∨ b.head? = some '+' then 1 else 0
  let ip := (b.drop k).takeWhile Char.isDigit
  let valor (ds : Texto) : ℚ := ds.foldl (fun acc c => 10 * acc + ((c.toNat - 48 : Nat) : ℚ)) 0
  match (b.drop k).drop ip.length with
  | '.' :: r =>
    let fp := r.takeWhile Char.isDigit
    if ip.isEmpty && fp.isEmpty then (none, k)
    else (some (sinal * (valor ip + valor fp / 10 ^ fp.length)), k + ip.length + 1 + fp.length)
  | _ => if ip.isEmpty then (none, k) else (some (sinal * valor ip), k + ip.length)

/-! ## Walks in the map -/

/-- Sum of the lengths of a sequence of routes. -/
def somaRotas (rs : List Rota) : ℚ := (rs.map Rota.comprimento).sum

/-- The sequence of routes `rs` of the map leads from point `p` to point `d`: each route has the
current point as one endpoint and the walk goes on from the other endpoint. -/
def liga (M : Planejador) : IDPonto → IDPonto → List Rota → Prop
  | p, d, [] => p = d
  | p, d, r :: rs =>
    r ∈ M.rotas ∧ ((r.extremidade0 = p ∧ liga M r.extremidade1 d rs) ∨
                   (r.extremidade1 = p ∧ liga M r.extremidade0 d rs))

/-- Map invariants: point ids pairwise distinct, route ids valid and pairwise distinct, both
endpoints of every route resolve through `getPonto` to a point of the map. -/
structure MapaOk (M : Planejador) : Prop where
  pontos_distintos : (M.pontos.map Ponto.id).Nodup
  rotas_validas : ∀ r ∈ M.rotas, r.id.valid = true
  rotas_distintas : (M.rotas.map Rota.id).Nodup
  extremidade0_ok : ∀ r ∈ M.rotas, (M.getPonto r.extremidade0).valid = true
  extremidade1_ok : ∀ r ∈ M.rotas, (M.getPonto r.extremidade1).valid = true

/-! ## Invariants of the search -/

/-- The node `calculaCaminho` starts from. -/
def noInicial (M : Planejador) (m : Libm) (id_origem id_destino : IDPonto) : Noh :=
  ⟨id_origem, IDRota.vazio, 0, haversine m (M.getPonto id_origem) (M.getPonto id_destino)⟩

/-- Route `r` has the points `p` and `q` as its two endpoints. -/
def Extremos (r : Rota) (p q : IDPonto) : Prop :=
  (r.extremidade0 = p ∧ r.extremidade1 = q) ∨ (r.extremidade1 = p ∧ r.extremidade0 = q)

/-- Node `n` was generated from a node of `prev` along a route of the map. -/
def Gerado (M : Planejador) (prev : List Noh) (n : Noh) : Prop :=
  ∃ r ∈ M.rotas, ∃ u ∈ prev, r.id = n.id_rt ∧ Extremos r u.id_pt n.id_pt ∧
    n.g = u.g + r.comprimento

/-- Node `n` stands for a walk of the map from the origin, of length `n.g`. -/
def Alcanca (M : Planejador) (id_origem : IDPonto) (n : Noh) : Prop :=
  ∃ rs, liga M id_origem n.id_pt rs ∧ somaRotas rs = n.g

/-- Invariant of the main loop of `calculaCaminho` on the lists `A` (Aberto) and `F` (Fechado). -/
structure InvLaco (M : Planejador) (m : Libm) (id_origem id_destino : IDPonto)
    (A F : List Noh) : Prop where
  nodupF : (F.map Noh.id_pt).Nodup
  nodupA : (A.map Noh.id_pt).Nodup
  disj : ∀ a ∈ A, ∀ c ∈ F, a.id_pt ≠ c.id_pt
  resolveA : ∀ n ∈ A, (M.getPonto n.id_pt).valid = true
  resolveF : ∀ n ∈ F, (M.getPonto n.id_pt).valid = true
  inicio : (F = [] ∧ A = [noInicial M m id_origem id_destino]) ∨
    ∃ F1, F = noInicial M m id_origem id_destino :: F1
  geradoA : ∀ n ∈ A, n = noInicial M m id_origem id_destino ∨ Gerado M F n
  geradoF : ∀ l1 n l2, F = l1 ++ n :: l2 →
    n = noInicial M m id_origem id_destino ∨ Gerado M l1 n
  hA : ∀ n ∈ A, n.h = haversine m (M.getPonto n.id_pt) (M.getPonto id_destino)
  hF : ∀ n ∈ F, n.h = haversine m (M.getPonto n.id_pt) (M.getPonto id_destino)
  alcancaA : ∀ n ∈ A, Alcanca M id_origem n
  alcancaF : ∀ n ∈ F, Alcanca M id_origem n

/-- The node `suc` is the successor that `visita` builds from `atual` along `rota`. -/
def EhSucessorBase (M : Planejador) (m : Libm) (pt_dest : Ponto) (atual : Noh)
    (rota : Rota) (suc : Noh) : Prop :=
  Extremos rota atual.id_pt suc.id_pt ∧ suc.id_rt = rota.id ∧
    suc.g = atual.g + rota.comprimento ∧
    suc.h = haversine m (M.getPonto suc.id_pt) pt_dest ∧
    (M.getPonto suc.id_pt).valid = true

/-- Two consecutive elements `(_, p)`, `(r, q)` of a path: `r` is the id of a route of the map
whose two endpoints are `p` and `q`. -/
def PassoOk (M : Planejador) (a b : IDRota × IDPonto) : Prop :=
  ∃ r ∈ M.rotas, r.id = b.1 ∧ Extremos r a.2 b.2

/-- Sum, over every element of the path after the first, of the length of the route that the
element names. -/
def comprimentoCaminho (M : Planejador) (C : Caminho) : ℚ :=
  (C.tail.map (fun e => (M.getRota e.1).comprimento)).sum

/-- The heuristic is consistent for the destination: along every route of the map, in either
direction, it decreases by at most the length of the route. -/
def Consistente (M : Planejador) (m : Libm) (id_destino : IDPonto) : Prop :=
  ∀ r ∈ M.rotas,
    haversine m (M.getPonto r.extremidade0) (M.getPonto id_destino) ≤
      r.comprimento + haversine m (M.getPonto r.extremidade1) (M.getPonto id_destino) ∧
    haversine m (M.getPonto r.extremidade1) (M.getPonto id_destino) ≤
      r.comprimento + haversine m (M.getPonto r.extremidade0) (M.getPonto id_destino)

/-- Invariant of the main loop under a consistent heuristic: the `g` of a node of `Fechado` is
at most the length of every walk from the origin to its point, and every neighbour of a node
of `Fechado` is in `Fechado` or in `Aberto` with a `g` no more than through that node. -/
structure InvOtimo (M : Planejador) (id_origem : IDPonto) (A F : List Noh) : Prop where
  minimo : ∀ c ∈ F, ∀ rs, liga M id_origem c.id_pt rs → c.g ≤ somaRotas rs
  relaxado : ∀ u ∈ F, ∀ r ∈ M.rotas, ∀ v, Extremos r u.id_pt v →
    (∃ c ∈ F, c.id_pt = v) ∨ (∃ a ∈ A, a.id_pt = v ∧ a.g ≤ u.g + r.comprimento)

/-! ## A small map for concrete runs -/

/-- A stand-in for the C math library on rationals, exact at the arguments used below:
`sin 0 = 0`, `cos 0 = 1`, `cos (±MY_PI) = -1`, `acos (-1) = MY_PI`, `acos 1 = 0`. -/
def libmQ : Libm where
  sin := fun _ => 0
  cos := fun x => if x = MY_PI ∨ x = -MY_PI then -1 else 1
  acos := fun x => if x = -1 then MY_PI else 0

def idA : IDPonto := ⟨['#', 'A']⟩
def idB : IDPonto := ⟨['#', 'B']⟩
def idC : IDPonto := ⟨['#', 'C']⟩

def rota1 : Rota := ⟨⟨['&', '1']⟩, ['r', '1'], idA, idC, 10⟩
def rota2 : Rota := ⟨⟨['&', '2']⟩, ['r', '2'], idA, idB, 1⟩
def rota3 : Rota := ⟨⟨['&', '3']⟩, ['r', '3'], idB, idC, 1⟩

/-- Points `#A` and `#C` at latitude 0, longitude 0 and `#B` at latitude 0, longitude 180; a
route of 10 km between `#A` and `#C` and routes of 1 km between `#A` and `#B` and between `#B`
and `#C`. -/
def mapaTeste : Planejador where
  pontos := [⟨idA, ['A', 'a'], 0, 0⟩, ⟨idB, ['B', 'b'], 0, 180⟩, ⟨idC, ['C', 'c'], 0, 0⟩]
  rotas := [rota1, rota2, rota3]

def rota4 : Rota := ⟨⟨['&', '4']⟩, ['r', '4'], idA, idB, 20016⟩
def rota5 : Rota := ⟨⟨['&', '5']⟩, ['r', '5'], idB, idC, 20016⟩

/-- The points of `mapaTeste` with routes to `#B` that are longer than the distance. -/
def mapaLongo : Planejador where
  pontos := [⟨idA, ['A', 'a'], 0, 0⟩, ⟨idB, ['B', 'b'], 0, 180⟩, ⟨idC, ['C', 'c'], 0, 0⟩]
  rotas := [rota1, rota4, rota5]

/-- Two points and no route. -/
def mapaSemRotas : Planejador where
  pontos := [⟨idA, ['A', 'a'], 0, 0⟩, ⟨idB, ['B', 'b'], 0, 180⟩]
  rotas := []

def arquivoPontos : Texto :=
  "ID;Nome;Latitude;Longitude\n#A;Aa;0;0\n#B;Bb;0;180\n#C;Cc;-1.5;+20.25\n".toList

def arquivoRotas : Texto :=
  "ID;Nome;Extremidade 1;Extremidade 2;Comprimento\n&1;r1;#A;#C;10\n&2;r2;#A;#B;1.5\n".toList

/-! ## Records as text -/

/-- The number field `tok`, followed in the file by the character `c`, is one that `numGet`
reads whole or refuses: it is not empty, does not start with white space, and on the text
`tok ++ c :: resto` the conversion fails or consumes exactly `tok`. -/
def CampoNumerico (numGet : NumGet) (tok : Texto) (c : Char) : Prop :=
  tok ≠ [] ∧ (∀ x ∈ tok.head?, isspace x = false) ∧
    ∀ resto, (numGet (tok ++ c :: resto)).1 = none ∨ (numGet (tok ++ c :: resto)).2 = tok.length

/-- The four fields of a line of the file of points. -/
structure RegPonto where
  id : Texto
  nome : Texto
  lat : Texto
  lon : Texto

/-- The line `id;nome;lat;lon` with its line end, in front of the text `resto`. -/
def RegPonto.texto (r : RegPonto) (resto : Texto) : Texto :=
  r.id ++ ';' :: (r.nome ++ ';' :: (r.lat ++ ';' :: (r.lon ++ '\n' :: resto)))

/-- The lines of the records `rs`, in front of the text `resto`. -/
def textoPontos (rs : List RegPonto) (resto : Texto) : Texto :=
  rs.foldr RegPonto.texto resto

/-- A well-formed line of the file of points: a valid id, no `;` inside the id and the name,
and two number fields. -/
structure RegPonto.BemFormado (numGet : NumGet) (r : RegPonto) : Prop where
  id_valido : (IDPonto.mk r.id).valid = true
  id_sem_sep : ';' ∉ r.id
  nome_sem_sep : ';' ∉ r.nome
  lat_ok : CampoNumerico numGet r.lat ';'
  lon_ok : CampoNumerico numGet r.lon '\n'

/-- The five fields of a line of the file of routes. -/
structure RegRota where
  id : Texto
  nome : Texto
  ext0 : Texto
  ext1 : Texto
  comp : Texto

/-- The line `id;nome;ext0;ext1;comp` with its line end, in front of the text `resto`. -/
def RegRota.texto (r : RegRota) (resto : Texto) : Texto :=
  r.id ++ ';' :: (r.nome ++ ';' :: (r.ext0 ++ ';' :: (r.ext1 ++ ';' :: (r.comp ++ '\n' :: resto))))

/-- The lines of the records `rs`, in front of the text `resto`. -/
def textoRotas (rs : List RegRota) (resto : Texto) : Texto :=
  rs.foldr RegRota.texto resto

/-- A well-formed line of the file of routes: a valid id, no `;` inside the id, the name and
the two endpoint fields, and a number field. -/
structure RegRota.BemFormado (numGet : NumGet) (r : RegRota) : Prop where
  id_valido : (IDRota.mk r.id).valid = true
  id_sem_sep : ';' ∉ r.id
  nome_sem_sep : ';' ∉ r.nome
  ext0_sem_sep : ';' ∉ r.ext0
  ext1_sem_sep : ';' ∉ r.ext1
  comp_ok : CampoNumerico numGet r.comp '\n'

/-- The text is not empty and does not start with white space. -/
def SemEspaco (t : Texto) : Prop := t ≠ [] ∧ ∀ x ∈ t.head?, isspace x = false

/-- What holds of every route that the loop of routes accepts. -/
def RotaAceita (listP : List Ponto) (R : Rota) : Prop :=
  R.id.valid = true ∧ R.extremidade0.valid = true ∧ R.extremidade0 ∈ listP.map Ponto.id ∧
    R.extremidade1.valid = true ∧ R.extremidade1 ∈ listP.map Ponto.id

/-- The map that `ler` builds from `arquivoPontos` and `arquivoRotas`. -/
def mapaLido : Planejador where
  pontos := [⟨idA, ['A', 'a'], 0, 0⟩, ⟨idB, ['B', 'b'], 0, 180⟩, ⟨idC, ['C', 'c'], -3/2, 81/4⟩]
  rotas := [⟨⟨['&', '1']⟩, ['r', '1'], idA, idC, 10⟩, ⟨⟨['&', '2']⟩, ['r', '2'], idA, idB, 3/2⟩]

def regPontoA : RegPonto := ⟨['#', 'A'], ['A', 'a'], ['0'], ['0']⟩

def regRota1 : RegRota := ⟨['&', '1'], ['r', '1'], ['#', 'A'], ['#', 'C'], ['1', '0']⟩

/-- The route that a line of the file of routes stands for, with `v` the value of its length
field. -/
def RegRota.rota (r : RegRota) (v : ℚ) : Rota :=
  ⟨⟨r.id⟩, r.nome, ⟨r.ext0⟩, ⟨r.ext1⟩, v⟩

/-- A line of the file of routes that passes every test of `lerRota` for the points `listP`:
a valid id, a name of two characters or more, no `;` inside the fields, two valid endpoint ids
of points of `listP`, and a length field that `numGet` reads whole with the value `v`. -/
structure RegRota.Aceito (numGet : NumGet) (listP : List Ponto) (r : RegRota) (v : ℚ) :
    Prop where
  id_valido : (IDRota.mk r.id).valid = true
  id_sem_sep : ';' ∉ r.id
  nome_sem_sep : ';' ∉ r.nome
  nome_longo : 2 ≤ r.nome.length
  ext0_sem_sep : ';' ∉ r.ext0
  ext0_valido : (IDPonto.mk r.ext0).valid = true
  ext0_lido : (⟨r.ext0⟩ : IDPonto) ∈ listP.map Ponto.id
  ext1_sem_sep : ';' ∉ r.ext1
  ext1_valido : (IDPonto.mk r.ext1).valid = true
  ext1_lido : (⟨r.ext1⟩ : IDPonto) ∈ listP.map Ponto.id
  comp_inicio : SemEspaco r.comp
  comp_lido : ∀ resto, numGet (r.comp ++ '\n' :: resto) = (some v, r.comp.length)

/-- A file of routes whose only line has the length field `-5`. -/
def arquivoRotasNeg : Texto :=
  "ID;Nome;Extremidade 1;Extremidade 2;Comprimento\n&1;r1;#A;#C;-5\n".toList

/-- The line of `arquivoRotasNeg`. -/
def regRotaNeg : RegRota := ⟨['&', '1'], ['r', '1'], ['#', 'A'], ['#', 'C'], ['-', '5']⟩

/-- The map that `ler` builds from `arquivoPontos` and `arquivoRotasNeg`. -/
def mapaNeg : Planejador where
  pontos := mapaLido.pontos
  rotas := [⟨⟨['&', '1']⟩, ['r', '1'], idA, idC, -5⟩]

/-! ## The definitions of `planejador.h` that `planejador.cpp` defines again -/

/-- Inline `IDPonto::set` of the class body in `planejador.h`: the string is stored and not
tested. -/
def IDPonto.setCabecalho (S : Texto) : IDPonto := ⟨S⟩

/-- Inline `IDRota::set` of the class body in `planejador.h`: the string is stored and not
tested. -/
def IDRota.setCabecalho (S : Texto) : IDRota := ⟨S⟩

/-- The functions of `<cmath>` that the `haversine` of `planejador.h` calls. -/
structure LibmCabecalho where
  sin : ℚ → ℚ
  cos : ℚ → ℚ
  sqrt : ℚ → ℚ
  atan2 : ℚ → ℚ → ℚ

/-- Constant `PI` of `planejador.h`. -/
def PI : ℚ := 3.14159265358979323846

/-- Constant `EARTH_RADIUS_KM` of `planejador.h`. -/
def EARTH_RADIUS_KM : ℚ := 6371

/-- Function `haversine` as `planejador.h` defines it, without the test of equal ids. -/
def haversineCabecalho (m : LibmCabecalho) (P1 P2 : Ponto) : ℚ :=
  let lat1 := P1.latitude * PI / 180
  let lon1 := P1.longitude * PI / 180
  let lat2 := P2.latitude * PI / 180
  let lon2 := P2.longitude * PI / 180
  let dlat := lat2 - lat1
  let dlon := lon2 - lon1
  let a := m.sin (dlat / 2) * m.sin (dlat / 2) +
    m.cos lat1 * m.cos lat2 * m.sin (dlon / 2) * m.sin (dlon / 2)
  let c := 2 * m.atan2 (m.sqrt a) (m.sqrt (1 - a))
  EARTH_RADIUS_KM * c

/-- A stand-in for the C math library on rationals, exact at the arguments used below:
`sin 0 = 0`, `sin (PI / 2) = 1`, `cos 0 = 1`, `sqrt 0 = 0`, `sqrt 1 = 1`, `atan2 1 0 = PI / 2`,
`atan2 0 1 = 0`. -/
def libmCabecalhoQ : LibmCabecalho where
  sin := fun x => if x = PI / 2 then 1 else 0
  cos := fun _ => 1
  sqrt := fun x => if x = 1 then 1 else 0
  atan2 := fun y x => if y = 1 ∧ x = 0 then PI / 2 else 0

/-- Two points with the id `#A`, at longitude 0 and at longitude 180. -/
def pontoA0 : Ponto := ⟨idA, ['A', 'a'], 0, 0⟩

def pontoA180 : Ponto := ⟨idA, ['A', 'a'], 0, 180⟩

/-! ## The states of the main loop -/

/-- The pairs `(Aberto, Fechado)` that the main loop of `calculaCaminho` holds at the start of
an iteration: the pair made before the loop, and the pair left by an iteration that takes
`atual` from the front of the sorted `Aberto`, finds that it is not the destination and
generates its successors. -/
inductive Itera (M : Planejador) (m : Libm) (id_origem id_destino : IDPonto) :
    List Noh → List Noh → Prop where
  | inicio : M.empty = false → (M.getPonto id_origem).valid = true →
      (M.getPonto id_destino).valid = true →
      Itera M m id_origem id_destino [noInicial M m id_origem id_destino] []
  | passo {A F : List Noh} {atual : Noh} {A1 : List Noh} :
      Itera M m id_origem id_destino A F → ordena A = atual :: A1 →
      atual.id_pt ≠ id_destino →
      Itera M m id_origem id_destino
        (Planejador.expande M m (M.getPonto id_destino) atual (F ++ [atual]) M.rotas A1)
        (F ++ [atual])

/-- The states of the main loop together with the list `G` of the nodes of `Aberto` in the
order in which they were pushed: `G` goes through the `push_back` and `erase` of the loop as
`Aberto` does, but it is never sorted, and the node taken from the front of the sorted `Aberto`
is erased from it where it stands. -/
inductive IteraOrdem (M : Planejador) (m : Libm) (id_origem id_destino : IDPonto) :
    List Noh → List Noh → List Noh → Prop where
  | inicio : M.empty = false → (M.getPonto id_origem).valid = true →
      (M.getPonto id_destino).valid = true →
      IteraOrdem M m id_origem id_destino [noInicial M m id_origem id_destino]
        [noInicial M m id_origem id_destino] []
  | passo {A G F : List Noh} {atual : Noh} {A1 : List Noh} :
      IteraOrdem M m id_origem id_destino A G F → ordena A = atual :: A1 →
      atual.id_pt ≠ id_destino →
      IteraOrdem M m id_origem id_destino
        (Planejador.expande M m (M.getPonto id_destino) atual (F ++ [atual]) M.rotas A1)
        (Planejador.expande M m (M.getPonto id_destino) atual (F ++ [atual]) M.rotas
          (G.erase atual))
        (F ++ [atual])

/-- The lists `A` and `G` hold the same nodes and, for every value of `f`, hold the nodes with
that `f` in the same order. -/
def MesmaOrdem (A G : List Noh) : Prop :=
  ∀ k : ℚ, A.filter (fun n => decide (n.f = k)) = G.filter (fun n => decide (n.f = k))

/-- Invariant of the main loop for completeness: no node of `Fechado` is at the destination,
and every neighbour of a node of `Fechado` has a node in `Fechado` or in `Aberto`. -/
structure InvCompleto (M : Planejador) (id_destino : IDPonto) (A F : List Noh) : Prop where
  naoDestino : ∀ c ∈ F, c.id_pt ≠ id_destino
  vizinhos : ∀ u ∈ F, ∀ r ∈ M.rotas, ∀ v, Extremos r u.id_pt v →
    (∃ c ∈ F, c.id_pt = v) ∨ (∃ a ∈ A, a.id_pt = v)

/-! ## A map that is loaded and is not connected -/

/-- A file of points: `#A` and `#C` at latitude 0, longitude 0 and `#B` at latitude 0, longitude 180. -/
def arquivoPontosABC : Texto :=
  "ID;Nome;Latitude;Longitude\n#A;Aa;0;0\n#B;Bb;0;180\n#C;Cc;0;0\n".toList

/-- A file of routes with the one route `&2` between `#A` and `#B`. -/
def arquivoRotasAB : Texto :=
  "ID;Nome;Extremidade 1;Extremidade 2;Comprimento\n&2;r2;#A;#B;1\n".toList

/-- The map that `ler` builds from `arquivoPontosABC` and `arquivoRotasAB`: no route leads to
`#C`. -/
def mapaDesligado : Planejador where
  pontos := [⟨idA, ['A', 'a'], 0, 0⟩, ⟨idB, ['B', 'b'], 0, 180⟩, ⟨idC, ['C', 'c'], 0, 0⟩]
  rotas := [rota2]

/-! ## Arithmetic of `double`

The type `double` is IEEE 754 binary64. A value is a finite number, an infinity or a NaN; the
two zeros are taken as one value (they compare equal, and the code divides by the constant
`180.0` only). The result of an operation on finite values is the exact result rounded to the
nearest value of the format, ties to the even significand; every operation is rounded on its
own (no fused multiply-add, no extended precision). -/

/-- A value of type `double`. -/
inductive Dbl where
  | fin (q : ℚ)
  | inf
  | ninf
  | nan
deriving DecidableEq

/-- The power `2 ^ e` for an integer `e`. -/
def pot2 (e : Int) : ℚ :=
  if 0 ≤ e then ((2 ^ e.toNat : Nat) : ℚ) else 1 / ((2 ^ (-e).toNat : Nat) : ℚ)

/-- Halving `n` until it is below 2, at most `fuel` times: the number of halvings. -/
def log2Aux : Nat → Nat → Nat
  | 0, _ => 0
  | fuel + 1, n => if 2 ≤ n then log2Aux fuel (n / 2) + 1 else 0

/-- The natural number `k` with `2 ^ k ≤ n < 2 ^ (k + 1)`, for `n > 0`. -/
def log2Nat (n : Nat) : Nat := log2Aux n n

/-- The integer `e` with `2 ^ e ≤ a < 2 ^ (e + 1)`, for a rational `a > 0`. -/
def expoente (a : ℚ) : Int :=
  let e0 : Int := (log2Nat a.num.natAbs : Int) - (log2Nat a.den : Int)
  if pot2 e0 ≤ a then e0 else e0 - 1

/-- The natural number nearest to the rational `m ≥ 0`, the even one of the two when `m` is half
way between them. -/
def arredPar (m : ℚ) : Nat :=
  let fl := m.num.natAbs / m.den
  let r := m - (fl : ℚ)
  if r < 1 / 2 then fl else if 1 / 2 < r then fl + 1 else if fl % 2 = 0 then fl else fl + 1

/-- Rounding of a rational `a > 0` to binary64: a significand of 53 bits, the spacing `2 ^ (-1074)`
below `2 ^ (-1022)`; `none` is the overflow, when the rounded value reaches `2 ^ 1024`. -/
def arredPos (a : ℚ) : Option ℚ :=
  let s := max (expoente a) (-1022) - 52
  let v := (arredPar (a / pot2 s) : ℚ) * pot2 s
  if pot2 1024 ≤ v then none else some v

/-- Rounding of an exact result to `double`, to nearest, ties to even. -/
def arred64 (q : ℚ) : Dbl :=
  if q = 0 then Dbl.fin 0
  else if 0 < q then
    match arredPos q with
    | some v => Dbl.fin v
    | none => Dbl.inf
  else
    match arredPos (-q) with
    | some v => Dbl.fin (-v)
    | none => Dbl.ninf

namespace Dbl

/-- Unary minus. -/
def neg : Dbl → Dbl
  | fin q => fin (-q)
  | inf => ninf
  | ninf => inf
  | nan => nan

/-- The operator `+` of `double`. -/
def soma : Dbl → Dbl → Dbl
  | nan, _ => nan
  | _, nan => nan
  | inf, ninf => nan
  | ninf, inf => nan
  | inf, _ => inf
  | _, inf => inf
  | ninf, _ => ninf
  | _, ninf => ninf
  | fin x, fin y => arred64 (x + y)

/-- The operator `-` of `double`. -/
def subt (a b : Dbl) : Dbl := soma a (neg b)

/-- The operator `*` of `double`. -/
def mult : Dbl → Dbl → Dbl
  | nan, _ => nan
  | _, nan => nan
  | fin x, fin y => arred64 (x * y)
  | fin x, inf => if x = 0 then nan else if 0 < x then inf else ninf
  | fin x, ninf => if x = 0 then nan else if 0 < x then ninf else inf
  | inf, fin y => if y = 0 then nan else if 0 < y then inf else ninf
  | ninf, fin y => if y = 0 then nan else if 0 < y then ninf else inf
  | inf, inf => inf
  | ninf, ninf => inf
  | inf, ninf => ninf
  | ninf, inf => ninf

/-- The operator `/` of `double`; a zero divisor is taken as `+0.0`. -/
def divi : Dbl → Dbl → Dbl
  | nan, _ => nan
  | _, nan => nan
  | fin x, fin y =>
    if y = 0 then (if x = 0 then nan else if 0 < x then inf else ninf)
    else arred64 (x / y)
  | fin _, inf => fin 0
  | fin _, ninf => fin 0
  | inf, fin y => if 0 ≤ y then inf else ninf
  | ninf, fin y => if 0 ≤ y then ninf else inf
  | inf, inf => nan
  | inf, ninf => nan
  | ninf, inf => nan
  | ninf, ninf => nan

/-- The operator `<` of `double`: false when an operand is a NaN. -/
def lt : Dbl → Dbl → Bool
  | nan, _ => false
  | _, nan => false
  | fin x, fin y => decide (x < y)
  | ninf, ninf => false
  | ninf, _ => true
  | _, ninf => false
  | inf, _ => false
  | fin _, inf => true

/-- The operator `>` of `double`. -/
def gt (a b : Dbl) : Bool := lt b a

/-- The operator `<=` of `double`: false when an operand is a NaN. -/
def le (a b : Dbl) : Bool := lt a b || (decide (a = b) && decide (a ≠ nan))

end Dbl

/-! ## The search with the arithmetic of `double`

The functions `haversine` and `calculaCaminho` of `planejador.cpp` once more, statement by
statement as in the first model, with `g`, `h` and `f` of type `Dbl`: `g_suc = atual.g +
rota.comprimento` and `f() = g + h` are rounded sums, and `a.f() < b.f()`,
`it_aberto->f() <= suc.f()`, `cosseno > 1.0` and `cosseno < -1.0` are the comparisons of
`double`, false when an operand is a NaN. The coordinates and the lengths of a map are finite
values, as `operator>>` reads them. -/

namespace IEEE

/-- The functions of `<cmath>` that `haversine` calls, on `double`. -/
structure Libm where
  sin : Dbl → Dbl
  cos : Dbl → Dbl
  acos : Dbl → Dbl

/-- Constant `MY_PI` of `haversine`: the `double` nearest to the literal. -/
def MY_PI : Dbl := arred64 3.14159265358979323846

/-- Constant `R_EARTH` of `haversine`. -/
def R_EARTH : Dbl := Dbl.fin 6371

/-- Function `haversine` of `planejador.cpp`, with the operations of `double`. -/
def haversine (m : Libm) (P1 P2 : Ponto) : Dbl :=
  if P1.id = P2.id then Dbl.fin 0
  else
    let lat1 := Dbl.divi (Dbl.mult MY_PI (Dbl.fin P1.latitude)) (Dbl.fin 180)
    let lat2 := Dbl.divi (Dbl.mult MY_PI (Dbl.fin P2.latitude)) (Dbl.fin 180)
    let lon1 := Dbl.divi (Dbl.mult MY_PI (Dbl.fin P1.longitude)) (Dbl.fin 180)
    let lon2 := Dbl.divi (Dbl.mult MY_PI (Dbl.fin P2.longitude)) (Dbl.fin 180)
    let cosseno := Dbl.soma (Dbl.mult (m.sin lat1) (m.sin lat2))
      (Dbl.mult (Dbl.mult (m.cos lat1) (m.cos lat2)) (m.cos (Dbl.subt lon1 lon2)))
    let cosseno := if Dbl.gt cosseno (Dbl.fin 1) then Dbl.fin 1 else cosseno
    let cosseno := if Dbl.lt cosseno (Dbl.fin (-1)) then Dbl.fin (-1) else cosseno
    Dbl.mult R_EARTH (m.acos cosseno)

/-- Class `Noh`: a search node. -/
structure Noh where
  id_pt : IDPonto
  id_rt : IDRota
  g : Dbl
  h : Dbl
deriving DecidableEq

/-- Method `Noh::f`. -/
def Noh.f (n : Noh) : Dbl := Dbl.soma n.g n.h

/-- Insertion of `x` before the first node of `l` whose `f` is not less than that of `x`. -/
def insereOrd (x : Noh) : List Noh → List Noh
  | [] => [x]
  | y :: ys => if Dbl.lt y.f x.f then y :: insereOrd x ys else x :: y :: ys

/-- The call `Aberto.sort` with the comparator `a.f() < b.f()`, by insertion. When no `f` is a
NaN the comparator is a strict weak ordering and the result is that of every stable sort; with
a NaN the standard does not say what `std::list::sort` gives. For a list of two nodes a stable
sort keeps the order unless the second is less than the first. -/
def ordena : List Noh → List Noh
  | [] => []
  | x :: xs => insereOrd x (ordena xs)

/-- End of the body of the `for` loop of `calculaCaminho`, once the successor `suc` is built. -/
def insereSuc (Fechado Aberto : List Noh) (suc : Noh) : List Noh :=
  match Fechado.find? (fun n => decide (n.id_pt = suc.id_pt)) with
  | some _ => Aberto
  | none =>
    match Aberto.find? (fun n => decide (n.id_pt = suc.id_pt)) with
    | some n =>
      if Dbl.le n.f suc.f then Aberto
      else Aberto.eraseP (fun n => decide (n.id_pt = suc.id_pt)) ++ [suc]
    | none => Aberto ++ [suc]

/-- Body of the `for (const Rota &rota : rotas)` loop of `calculaCaminho`. -/
def visita (M : Planejador) (m : Libm) (pt_dest : Ponto) (atual : Noh) (Fechado : List Noh)
    (Aberto : List Noh) (rota : Rota) : List Noh :=
  if rota.extremidade0 = atual.id_pt ∨ rota.extremidade1 = atual.id_pt then
    let id_suc := if rota.extremidade0 = atual.id_pt then rota.extremidade1
                  else rota.extremidade0
    let pt_suc := M.getPonto id_suc
    if !pt_suc.valid then Aberto
    else
      let g_suc := Dbl.soma atual.g (Dbl.fin rota.comprimento)
      let h_suc := haversine m pt_suc pt_dest
      insereSuc Fechado Aberto ⟨id_suc, rota.id, g_suc, h_suc⟩
  else Aberto

/-- The `for (const Rota &rota : rotas)` loop of `calculaCaminho` over the list `rotas`. -/
def expande (M : Planejador) (m : Libm) (pt_dest : Ponto) (atual : Noh) (Fechado : List Noh)
    (rotas : List Rota) (Aberto : List Noh) : List Noh :=
  rotas.foldl (visita M m pt_dest atual Fechado) Aberto

/-- The `while (atual.id_rt.valid())` loop that rebuilds the path. -/
def reconstroi (M : Planejador) (Fechado : List Noh) :
    Nat → Noh → Caminho → Option (Except Caminho Caminho)
  | fuel, atual, C =>
    if atual.id_rt.valid then
      match fuel with
      | 0 => none
      | fuel + 1 =>
        let C1 := (atual.id_rt, atual.id_pt) :: C
        match Fechado.find? (fun noh =>
            decide (noh.id_pt = (M.getRota atual.id_rt).extremidade0) ||
            decide (noh.id_pt = (M.getRota atual.id_rt).extremidade1)) with
        | none => some (Except.error C1)
        | some noh => reconstroi M Fechado fuel noh C1
    else some (Except.ok C)

/-- What the `try` block of `calculaCaminho` ends with. -/
inductive Fim where
  | retorno (comprimento : Dbl) (C : Caminho) (NA NF : Int)
  | excecao (i : Nat) (C : Caminho)
deriving DecidableEq

/-- The block of `calculaCaminho` run when `atual` is the destination. -/
def chegada (M : Planejador) (id_origem : IDPonto) (atual : Noh) (Aberto Fechado : List Noh) :
    Option Fim :=
  match reconstroi M Fechado Fechado.length atual [] with
  | none => none
  | some (Except.error C) => some (Fim.excecao 6 C)
  | some (Except.ok C) =>
    some (Fim.retorno atual.g ((IDRota.vazio, id_origem) :: C) Aberto.length Fechado.length)

/-- The `while (!Aberto.empty())` loop of `calculaCaminho`, followed by `throw 7`. -/
def laco (M : Planejador) (m : Libm) (id_origem id_destino : IDPonto) (pt_dest : Ponto) :
    Nat → List Noh → List Noh → Option Fim
  | 0, _, _ => none
  | fuel + 1, Aberto, Fechado =>
    match ordena Aberto with
    | [] => some (Fim.excecao 7 [])
    | atual :: Aberto1 =>
      let Fechado1 := Fechado ++ [atual]
      if atual.id_pt = id_destino then chegada M id_origem atual Aberto1 Fechado1
      else
        laco M m id_origem id_destino pt_dest fuel
          (expande M m pt_dest atual Fechado1 M.rotas Aberto1) Fechado1

/-- What `calculaCaminho` leaves to its caller. -/
structure Saida where
  comprimento : Dbl
  C : Caminho
  NA : Int
  NF : Int
  erro : Option Nat
deriving DecidableEq

/-- The node `calculaCaminho` starts from. -/
def noInicial (M : Planejador) (m : Libm) (id_origem id_destino : IDPonto) : Noh :=
  ⟨id_origem, IDRota.vazio, Dbl.fin 0, haversine m (M.getPonto id_origem) (M.getPonto id_destino)⟩

/-- The `try` block of `calculaCaminho`. -/
def tenta (M : Planejador) (m : Libm) (id_origem id_destino : IDPonto) : Option Fim :=
  if M.empty then some (Fim.excecao 1 [])
  else
    let pt_orig := M.getPonto id_origem
    if !pt_orig.valid then some (Fim.excecao 4 [])
    else
      let pt_dest := M.getPonto id_destino
      if !pt_dest.valid then some (Fim.excecao 5 [])
      else
        let no_inicial : Noh := ⟨id_origem, IDRota.vazio, Dbl.fin 0, haversine m pt_orig pt_dest⟩
        laco M m id_origem id_destino pt_dest (M.pontos.length + 1) [no_inicial] []

/-- Method `Planejador::calculaCaminho`. -/
def calculaCaminho (M : Planejador) (m : Libm) (id_origem id_destino : IDPonto)
    (_C0 : Caminho) : Option Saida :=
  match tenta M m id_origem id_destino with
  | none => none
  | some (Fim.retorno comprimento C NA NF) => some ⟨comprimento, C, NA, NF, none⟩
  | some (Fim.excecao i C) => some ⟨Dbl.fin (-1), C, -1, -1, some i⟩

/-- The pairs `(Aberto, Fechado)` that the main loop holds at the start of an iteration. -/
inductive Itera (M : Planejador) (m : Libm) (id_origem id_destino : IDPonto) :
    List Noh → List Noh → Prop where
  | inicio : M.empty = false → (M.getPonto id_origem).valid = true →
      (M.getPonto id_destino).valid = true →
      Itera M m id_origem id_destino [noInicial M m id_origem id_destino] []
  | passo {A F : List Noh} {atual : Noh} {A1 : List Noh} :
      Itera M m id_origem id_destino A F → ordena A = atual :: A1 →
      atual.id_pt ≠ id_destino →
      Itera M m id_origem id_destino
        (expande M m (M.getPonto id_destino) atual (F ++ [atual]) M.rotas A1)
        (F ++ [atual])

/-- The states of the main loop together with the list `G` of the nodes of `Aberto` in the
order in which they were pushed. -/
inductive IteraOrdem (M : Planejador) (m : Libm) (id_origem id_destino : IDPonto) :
    List Noh → List Noh → List Noh → Prop where
  | inicio : M.empty = false → (M.getPonto id_origem).valid = true →
      (M.getPonto id_destino).valid = true →
      IteraOrdem M m id_origem id_destino [noInicial M m id_origem id_destino]
        [noInicial M m id_origem id_destino] []
  | passo {A G F : List Noh} {atual : Noh} {A1 : List Noh} :
      IteraOrdem M m id_origem id_destino A G F → ordena A = atual :: A1 →
      atual.id_pt ≠ id_destino →
      IteraOrdem M m id_origem id_destino
        (expande M m (M.getPonto id_destino) atual (F ++ [atual]) M.rotas A1)
        (expande M m (M.getPonto id_destino) atual (F ++ [atual]) M.rotas (G.erase atual))
        (F ++ [atual])

end IEEE

/-- A stand-in for the C math library on `double`, exact at the arguments used below:
`sin 0 = 0`, `cos 0 = 1`, `cos (±MY_PI) = -1`, `acos (-1) = MY_PI`, `acos 1 = 0`, and a NaN for
an argument that is infinite or a NaN. -/
def libmD : IEEE.Libm where
  sin := fun x =>
    match x with
    | Dbl.fin _ => Dbl.fin 0
    | _ => Dbl.nan
  cos := fun x =>
    match x with
    | Dbl.fin q => if Dbl.fin q = IEEE.MY_PI ∨ Dbl.fin (-q) = IEEE.MY_PI then Dbl.fin (-1)
                   else Dbl.fin 1
    | _ => Dbl.nan
  acos := fun x =>
    match x with
    | Dbl.fin q => if q = -1 then IEEE.MY_PI else Dbl.fin 0
    | _ => Dbl.nan

/-- The `double` nearest to `1e308`. -/
def lat1e308 : ℚ := 100000000000000001097906362944045541740492309677311846336810682903157585404911491537163328978494688899061249669721172515611590283743140088328307009198146046031271664502933027185697489699588559043338384466165001178426897626212945177628091195786707458122783970171784415105291802893207873272974885715430223118336

/-- Points `#A` and `#C` at latitude 0, longitude 0 and `#B` at latitude `1e308`; routes of 1 km
from `#A` to `#B` and from `#A` to `#C`. -/
def mapaNaN : Planejador where
  pontos := [⟨idA, ['A', 'a'], 0, 0⟩, ⟨idB, ['B', 'b'], lat1e308, 0⟩, ⟨idC, ['C', 'c'], 0, 0⟩]
  rotas := [⟨⟨['&', '1']⟩, ['r', '1'], idA, idB, 1⟩, ⟨⟨['&', '2']⟩, ['r', '2'], idA, idC, 1⟩]

namespace IEEE

/-- The lists `A` and `G` hold the same nodes and, for every value of `f`, hold the nodes with
that `f` in the same order. -/
def MesmaOrdem (A G : List Noh) : Prop :=
  ∀ k : Dbl, A.filter (fun n => decide (n.f = k)) = G.filter (fun n => decide (n.f = k))

/-- Invariant of the main loop on the lists `A` (Aberto) and `F` (Fechado): no point twice, the
points resolve, no `g` is a NaN, and `h` is the distance to the destination. -/
structure InvLaco (M : Planejador) (m : Libm) (id_destino : IDPonto) (A F : List Noh) :
    Prop where
  nodupF : (F.map Noh.id_pt).Nodup
  nodupA : (A.map Noh.id_pt).Nodup
  disj : ∀ a ∈ A, ∀ c ∈ F, a.id_pt ≠ c.id_pt
  resolveA : ∀ n ∈ A, (M.getPonto n.id_pt).valid = true
  resolveF : ∀ n ∈ F, (M.getPonto n.id_pt).valid = true
  gA : ∀ n ∈ A, n.g ≠ Dbl.nan
  gF : ∀ n ∈ F, n.g ≠ Dbl.nan
  hA : ∀ n ∈ A, n.h = haversine m (M.getPonto n.id_pt) (M.getPonto id_destino)
  hF : ∀ n ∈ F, n.h = haversine m (M.getPonto n.id_pt) (M.getPonto id_destino)

end IEEE

/-- A file of points with `#B` at latitude `1e308`, written with all its digits. -/
def arquivoPontosNaN : Texto :=
  "ID;Nome;Latitude;Longitude\n#A;Aa;0;0\n#B;Bb;100000000000000001097906362944045541740492309677311846336810682903157585404911491537163328978494688899061249669721172515611590283743140088328307009198146046031271664502933027185697489699588559043338384466165001178426897626212945177628091195786707458122783970171784415105291802893207873272974885715430223118336;0\n#C;Cc;0;0\n".toList

/-- A file of routes: `&1` from `#A` to `#B` and `&2` from `#A` to `#C`, of 1 km each. -/
def arquivoRotasNaN : Texto :=
  "ID;Nome;Extremidade 1;Extremidade 2;Comprimento\n&1;r1;#A;#B;1\n&2;r2;#A;#C;1\n".toList

/-- The node of `#B` in the search on `mapaNaN`: its `h` is a NaN. -/
def nohNaN : IEEE.Noh := ⟨idB, ⟨['&', '1']⟩, Dbl.fin 1, Dbl.nan⟩

/-- The node of `#C` in the search on `mapaNaN`. -/
def nohUm : IEEE.Noh := ⟨idC, ⟨['&', '2']⟩, Dbl.fin 1, Dbl.fin 0⟩

/-- The distance from `#A` or `#C` of `mapaTeste` to `#B`, as a `double`: `6371 * MY_PI`
rounded. -/
def distLonga : ℚ := 2750852582896313 / 137438953472

/-- The number that a finite `double` stands for; 0 for an infinity or a NaN. -/
def Dbl.val : Dbl → ℚ
  | Dbl.fin q => q
  | _ => 0

namespace IEEE

/-- The distance from the point with id `p` to the destination, as `haversine` computes it. -/
def heur (M : Planejador) (m : Libm) (id_destino p : IDPonto) : ℚ :=
  (haversine m (M.getPonto p) (M.getPonto id_destino)).val

/-- The heuristic is finite and consistent for the destination: the distance to the destination
is a finite number for every point of the map and, along every route of the map, in either
direction, it decreases by at most the length of the route. -/
def Consistente (M : Planejador) (m : Libm) (id_destino : IDPonto) : Prop :=
  (∀ P ∈ M.pontos, ∃ q, haversine m P (M.getPonto id_destino) = Dbl.fin q) ∧
  ∀ r ∈ M.rotas,
    heur M m id_destino r.extremidade0 ≤ r.comprimento + heur M m id_destino r.extremidade1 ∧
    heur M m id_destino r.extremidade1 ≤ r.comprimento + heur M m id_destino r.extremidade0

/-- Invariant of the main loop when no sum is rounded and the heuristic is consistent: the `g`
of a node is the length of a sequence of routes from the origin to its point, of at most as
many routes as `Fechado` has nodes; the `g` of a node of `Fechado` is at most the length of
every such sequence; and every neighbour of a node of `Fechado` is in `Fechado` or in `Aberto`
with a `g` no more than through that node. -/
structure InvOtimo (M : Planejador) (m : Libm) (id_origem id_destino : IDPonto)
    (A F : List Noh) : Prop where
  inicio : (F = [] ∧ A = [noInicial M m id_origem id_destino]) ∨
    ∃ F1, F = noInicial M m id_origem id_destino :: F1
  exatoA : ∀ n ∈ A, ∃ rs, liga M id_origem n.id_pt rs ∧ rs.length ≤ F.length ∧
    n.g = Dbl.fin (somaRotas rs)
  exatoF : ∀ c ∈ F, ∃ rs, liga M id_origem c.id_pt rs ∧ rs.length < F.length ∧
    c.g = Dbl.fin (somaRotas rs)
  minimo : ∀ c ∈ F, ∀ rs, liga M id_origem c.id_pt rs → c.g.val ≤ somaRotas rs
  relaxado : ∀ u ∈ F, ∀ r ∈ M.rotas, ∀ v, Extremos r u.id_pt v →
    (∃ c ∈ F, c.id_pt = v) ∨ (∃ a ∈ A, a.id_pt = v ∧ a.g.val ≤ u.g.val + r.comprimento)

end IEEE

theorem insereOrd_perm (x : Noh) (l : List Noh) : (insereOrd x l).Perm (x :: l) := by
  induction l with
  | nil => simp [insereOrd]
  | cons y ys ih =>
    unfold insereOrd
    split
    · exact (List.Perm.cons y ih).trans (List.Perm.swap x y ys)
    · exact List.Perm.refl _

theorem ordena_perm (l : List Noh) : (ordena l).Perm l := by
  induction l with
  | nil => simp [ordena]
  | cons x xs ih =>
    unfold ordena
    exact (insereOrd_perm x (ordena xs)).trans (List.Perm.cons x ih)

theorem insereOrd_sorted (x : Noh) (l : List Noh)
    (h : l.Pairwise (fun a b => a.f ≤ b.f)) :
    (insereOrd x l).Pairwise (fun a b => a.f ≤ b.f) := by
  induction l with
  | nil => simp [insereOrd]
  | cons y ys ih =>
    unfold insereOrd
    rw [List.pairwise_cons] at h
    split
    · rename_i hlt
      rw [List.pairwise_cons]
      refine ⟨?_, ih h.2⟩
      intro b hb
      rcases List.mem_cons.mp ((insereOrd_perm x ys).mem_iff.mp hb) with rfl | hb
      · exact le_of_lt hlt
      · exact h.1 b hb
    · rename_i hnlt
      have hxy : x.f ≤ y.f := not_lt.mp hnlt
      rw [List.pairwise_cons]
      refine ⟨?_, List.pairwise_cons.mpr h⟩
      intro b hb
      rcases List.mem_cons.mp hb with rfl | hb
      · exact hxy
      · exact le_trans hxy (h.1 b hb)

theorem ordena_sorted (l : List Noh) : (ordena l).Pairwise (fun a b => a.f ≤ b.f) := by
  induction l with
  | nil => simp [ordena]
  | cons x xs ih =>
    unfold ordena
    exact insereOrd_sorted x _ ih

/-- The front of the sorted list has the least `f` of the list. -/
theorem ordena_head_min (l : List Noh) (a : Noh) (r : List Noh) (h : ordena l = a :: r) :
    ∀ n ∈ l, a.f ≤ n.f := by
  intro n hn
  have hs := ordena_sorted l
  rw [h] at hs
  have hn2 : n ∈ a :: r := by rw [← h]; exact (ordena_perm l).mem_iff.mpr hn
  rcases List.mem_cons.mp hn2 with rfl | hn2
  · exact le_refl _
  · exact (List.pairwise_cons.mp hs).1 n hn2

theorem ordena_singleton (x : Noh) : ordena [x] = [x] := rfl

/-! ## Trivial query and failed preconditions -/

/-- C4: on a non-empty map, for an origin that resolves to a point of the map,
`calculaCaminho(origin, origin)` returns length 0, the path `[(IDRota(), origin)]`, `NA = 0`
and `NF = 1`, without any exception. -/
theorem calculaCaminho_origem_destino_iguais (M : Planejador) (m : Libm) (id_origem : IDPonto)
    (C0 : Caminho) (hne : M.empty = false) (ho : (M.getPonto id_origem).valid = true) :
    M.calculaCaminho m id_origem id_origem C0 =
      some ⟨0, [(IDRota.vazio, id_origem)], 0, 1, none⟩ := by
  have hv : IDRota.vazio.valid = false := by decide
  simp [Planejador.calculaCaminho, Planejador.tenta, hne, ho, Planejador.laco, ordena,
    insereOrd, Planejador.chegada, Planejador.reconstroi, hv]

theorem calculaCaminho_origem_destino_iguais_witness :
    mapaTeste.empty = false ∧ (mapaTeste.getPonto idA).valid = true ∧
    mapaTeste.calculaCaminho libmQ idA idA [(IDRota.vazio, idB)] =
      some ⟨0, [(IDRota.vazio, idA)], 0, 1, none⟩ :=
  ⟨by decide, by decide,
    calculaCaminho_origem_destino_iguais mapaTeste libmQ idA [(IDRota.vazio, idB)]
      (by decide) (by decide)⟩

/-- C6: if the map is empty, or the origin does not resolve to a valid point, or the destination
does not resolve to a valid point, then whatever the path `C` held before the call,
`calculaCaminho` returns -1 with `C` empty and `NA = NF = -1` (exception 1, 4 or 5). -/
theorem calculaCaminho_parametros_invalidos (M : Planejador) (m : Libm)
    (id_origem id_destino : IDPonto) (C0 : Caminho)
    (h : M.empty = true ∨ (M.getPonto id_origem).valid = false ∨
      (M.getPonto id_destino).valid = false) :
    ∃ i, (i = 1 ∨ i = 4 ∨ i = 5) ∧
      M.calculaCaminho m id_origem id_destino C0 = some ⟨-1, [], -1, -1, some i⟩ := by
  unfold Planejador.calculaCaminho Planejador.tenta
  by_cases h1 : M.empty = true
  · exact ⟨1, Or.inl rfl, by simp [h1]⟩
  · by_cases h4 : (M.getPonto id_origem).valid = true
    · have h5 : (M.getPonto id_destino).valid = false := by
        rcases h with h | h | h
        · exact absurd h h1
        · rw [h4] at h; exact absurd h (by decide)
        · exact h
      exact ⟨5, Or.inr (Or.inr rfl), by simp [h1, h4, h5]⟩
    · exact ⟨4, Or.inr (Or.inl rfl), by simp [h1, h4]⟩

theorem calculaCaminho_parametros_invalidos_witness :
    (mapaTeste.getPonto ⟨['#', 'Z']⟩).valid = false ∧
    ∃ i, (i = 1 ∨ i = 4 ∨ i = 5) ∧
      mapaTeste.calculaCaminho libmQ idA ⟨['#', 'Z']⟩ [(IDRota.vazio, idB)] =
        some ⟨-1, [], -1, -1, some i⟩ :=
  ⟨by decide,
    calculaCaminho_parametros_invalidos mapaTeste libmQ idA ⟨['#', 'Z']⟩ [(IDRota.vazio, idB)]
      (Or.inr (Or.inr (by decide)))⟩

/-! ## Walks -/

theorem liga_snoc (M : Planejador) (r : Rota) (hr : r ∈ M.rotas) :
    ∀ (rs : List Rota) (o u v : IDPonto), liga M o u rs → Extremos r u v →
      liga M o v (rs ++ [r]) := by
  intro rs
  induction rs with
  | nil =>
    intro o u v h he
    simp only [liga] at h
    subst h
    simp only [List.nil_append, liga]
    refine ⟨hr, ?_⟩
    rcases he with ⟨h0, h1⟩ | ⟨h1, h0⟩
    · exact Or.inl ⟨h0, h1⟩
    · exact Or.inr ⟨h1, h0⟩
  | cons x xs ih =>
    intro o u v h he
    simp only [liga] at h
    simp only [List.cons_append, liga]
    refine ⟨h.1, ?_⟩
    rcases h.2 with ⟨h0, h1⟩ | ⟨h0, h1⟩
    · exact Or.inl ⟨h0, ih _ _ _ h1 he⟩
    · exact Or.inr ⟨h0, ih _ _ _ h1 he⟩

theorem somaRotas_snoc (rs : List Rota) (r : Rota) :
    somaRotas (rs ++ [r]) = somaRotas rs + r.comprimento := by
  simp [somaRotas]

theorem somaRotas_cons (rs : List Rota) (r : Rota) :
    somaRotas (r :: rs) = r.comprimento + somaRotas rs := by
  simp [somaRotas]

/-! ## Successor generation -/

section Visita

variable (M : Planejador) (m : Libm) (pt_dest : Ponto) (atual : Noh) (Fechado : List Noh)

theorem find_none_pt (L : List Noh) (p : IDPonto)
    (h : L.find? (fun n => decide (n.id_pt = p)) = none) : ∀ c ∈ L, c.id_pt ≠ p := by
  intro c hc
  have := List.find?_eq_none.mp h c hc
  simpa using this

theorem find_some_pt (L : List Noh) (p : IDPonto) (n : Noh)
    (h : L.find? (fun n => decide (n.id_pt = p)) = some n) : n ∈ L ∧ n.id_pt = p := by
  refine ⟨List.mem_of_find?_eq_some h, ?_⟩
  have := List.find?_some h
  simpa using this

/-- A node of the list after `insereSuc` is a node of the list before, or it is `suc` and the
point of `suc` is not in `Fechado`. -/
theorem insereSuc_mem (A : List Noh) (suc n : Noh)
    (hn : n ∈ Planejador.insereSuc Fechado A suc) :
    n ∈ A ∨ (n = suc ∧ ∀ c ∈ Fechado, c.id_pt ≠ suc.id_pt) := by
  unfold Planejador.insereSuc at hn
  split at hn
  · exact Or.inl hn
  · rename_i hF
    have hF2 := find_none_pt Fechado _ hF
    split at hn
    · split at hn
      · exact Or.inl hn
      · rcases List.mem_append.mp hn with h | h
        · exact Or.inl (List.mem_of_mem_eraseP h)
        · exact Or.inr ⟨by simpa using h, hF2⟩
    · rcases List.mem_append.mp hn with h | h
      · exact Or.inl h
      · exact Or.inr ⟨by simpa using h, hF2⟩

/-- What `visita` does, with the successor node named. -/
theorem visita_eq (A : List Noh) (rota : Rota) :
    Planejador.visita M m pt_dest atual Fechado A rota = A ∨
    ∃ suc, EhSucessorBase M m pt_dest atual rota suc ∧
      Planejador.visita M m pt_dest atual Fechado A rota = Planejador.insereSuc Fechado A suc := by
  unfold Planejador.visita
  by_cases hext : rota.extremidade0 = atual.id_pt ∨ rota.extremidade1 = atual.id_pt
  · rw [if_pos hext]
    have hE : Extremos rota atual.id_pt
        (if rota.extremidade0 = atual.id_pt then rota.extremidade1 else rota.extremidade0) := by
      by_cases h0 : rota.extremidade0 = atual.id_pt
      · rw [if_pos h0]; exact Or.inl ⟨h0, rfl⟩
      · rw [if_neg h0]
        rcases hext with h | h
        · exact absurd h h0
        · exact Or.inr ⟨h, rfl⟩
    generalize (if rota.extremidade0 = atual.id_pt then rota.extremidade1
      else rota.extremidade0) = id_suc at hE ⊢
    by_cases hval : (M.getPonto id_suc).valid = true
    · right
      refine ⟨⟨id_suc, rota.id, atual.g + rota.comprimento,
        haversine m (M.getPonto id_suc) pt_dest⟩, ⟨hE, rfl, rfl, rfl, hval⟩, ?_⟩
      simp [hval]
    · left
      simp [hval]
  · rw [if_neg hext]
    exact Or.inl rfl

end Visita

/-! ## The loop invariant is kept -/

section Invariante

variable (M : Planejador) (m : Libm) (id_origem id_destino : IDPonto)

theorem eraseP_pt_ne (p : IDPonto) : ∀ (A : List Noh), (A.map Noh.id_pt).Nodup →
    ∀ y ∈ A.eraseP (fun n => decide (n.id_pt = p)), y.id_pt ≠ p := by
  intro A
  induction A with
  | nil => intro _ y hy; simp at hy
  | cons x xs ih =>
    intro hnd y hy
    rw [List.map_cons, List.nodup_cons] at hnd
    by_cases hx : x.id_pt = p
    · rw [List.eraseP_cons_of_pos (by simpa using hx)] at hy
      intro hyp
      exact hnd.1 (List.mem_map.mpr ⟨y, hy, by rw [hyp, hx]⟩)
    · rw [List.eraseP_cons_of_neg (by simpa using hx)] at hy
      rcases List.mem_cons.mp hy with rfl | hy
      · exact hx
      · exact ih hnd.2 y hy

theorem insereSuc_nodup (F A : List Noh) (suc : Noh) (h : (A.map Noh.id_pt).Nodup) :
    ((Planejador.insereSuc F A suc).map Noh.id_pt).Nodup := by
  unfold Planejador.insereSuc
  split
  · exact h
  · split
    · split
      · exact h
      · rw [List.map_append, List.nodup_append]
        refine ⟨(List.eraseP_sublist A).map Noh.id_pt |>.nodup h, by simp, ?_⟩
        intro a ha hb
        simp only [List.map_cons, List.map_nil, List.mem_singleton] at hb
        subst hb
        obtain ⟨y, hy, hyp⟩ := List.mem_map.mp ha
        exact eraseP_pt_ne suc.id_pt A h y hy hyp
    · rename_i hA
      rw [List.map_append, List.nodup_append]
      refine ⟨h, by simp, ?_⟩
      intro a ha hb
      simp only [List.map_cons, List.map_nil, List.mem_singleton] at hb
      subst hb
      obtain ⟨y, hy, hyp⟩ := List.mem_map.mp ha
      exact find_none_pt A _ hA y hy hyp

theorem insereSuc_forall (P : Noh → Prop) (F A : List Noh) (suc : Noh)
    (hA : ∀ n ∈ A, P n) (hs : (∀ c ∈ F, c.id_pt ≠ suc.id_pt) → P suc) :
    ∀ n ∈ Planejador.insereSuc F A suc, P n := by
  intro n hn
  rcases insereSuc_mem F A suc n hn with h | ⟨rfl, h⟩
  · exact hA n h
  · exact hs h

theorem Gerado.mono {prev prev2 : List Noh} {n : Noh} (h : Gerado M prev n)
    (hsub : ∀ u ∈ prev, u ∈ prev2) : Gerado M prev2 n := by
  obtain ⟨r, hr, u, hu, h1, h2, h3⟩ := h
  exact ⟨r, hr, u, hsub u hu, h1, h2, h3⟩

theorem insereSuc_inv (A F : List Noh) (atual : Noh) (rota : Rota) (suc : Noh)
    (hI : InvLaco M m id_origem id_destino A F) (hat : atual ∈ F) (hr : rota ∈ M.rotas)
    (hs : EhSucessorBase M m (M.getPonto id_destino) atual rota suc) :
    InvLaco M m id_origem id_destino (Planejador.insereSuc F A suc) F := by
  obtain ⟨hE, hrt, hg, hh, hval⟩ := hs
  refine ⟨hI.nodupF, insereSuc_nodup F A suc hI.nodupA, ?_, ?_, hI.resolveF, ?_, ?_, hI.geradoF,
    ?_, hI.hF, ?_, hI.alcancaF⟩
  · exact insereSuc_forall (fun a => ∀ c ∈ F, a.id_pt ≠ c.id_pt) F A suc hI.disj
      (fun h c hc => (h c hc).symm)
  · exact insereSuc_forall _ F A suc hI.resolveA (fun _ => hval)
  · rcases hI.inicio with ⟨hF, _⟩ | h
    · subst hF; simp at hat
    · exact Or.inr h
  · exact insereSuc_forall _ F A suc hI.geradoA
      (fun _ => Or.inr ⟨rota, hr, atual, hat, hrt.symm, hE, hg⟩)
  · exact insereSuc_forall _ F A suc hI.hA (fun _ => hh)
  · refine insereSuc_forall _ F A suc hI.alcancaA (fun _ => ?_)
    obtain ⟨rs, hl, hsum⟩ := hI.alcancaF atual hat
    exact ⟨rs ++ [rota], liga_snoc M rota hr rs _ _ _ hl hE, by
      rw [somaRotas_snoc, hsum, hg]⟩

theorem visita_inv (A F : List Noh) (atual : Noh) (rota : Rota)
    (hI : InvLaco M m id_origem id_destino A F) (hat : atual ∈ F) (hr : rota ∈ M.rotas) :
    InvLaco M m id_origem id_destino
      (Planejador.visita M m (M.getPonto id_destino) atual F A rota) F := by
  rcases visita_eq M m (M.getPonto id_destino) atual F A rota with h | ⟨suc, hs, h⟩
  · rw [h]; exact hI
  · rw [h]; exact insereSuc_inv M m id_origem id_destino A F atual rota suc hI hat hr hs

theorem expande_inv (F : List Noh) (atual : Noh) (hat : atual ∈ F) :
    ∀ (rotas : List Rota) (A : List Noh), (∀ r ∈ rotas, r ∈ M.rotas) →
      InvLaco M m id_origem id_destino A F →
      InvLaco M m id_origem id_destino
        (Planejador.expande M m (M.getPonto id_destino) atual F rotas A) F := by
  intro rotas
  induction rotas with
  | nil => intro A _ hI; exact hI
  | cons r rs ih =>
    intro A hsub hI
    unfold Planejador.expande
    rw [List.foldl_cons]
    exact ih _ (fun x hx => hsub x (List.mem_cons_of_mem _ hx))
      (visita_inv M m id_origem id_destino A F atual r hI hat (hsub r (List.mem_cons_self _ _)))

/-- Moving the front of the sorted `Aberto` to the back of `Fechado` keeps the invariant. -/
theorem pop_inv (A F : List Noh) (atual : Noh) (A1 : List Noh)
    (hI : InvLaco M m id_origem id_destino A F) (hord : ordena A = atual :: A1) :
    InvLaco M m id_origem id_destino A1 (F ++ [atual]) := by
  have hperm : (atual :: A1).Perm A := by rw [← hord]; exact ordena_perm A
  have hatA : atual ∈ A := hperm.mem_iff.mp (List.mem_cons_self _ _)
  have hsubA : ∀ n ∈ A1, n ∈ A := fun n hn => hperm.mem_iff.mp (List.mem_cons_of_mem _ hn)
  have hnd : ((atual :: A1).map Noh.id_pt).Nodup :=
    (hperm.map Noh.id_pt).nodup_iff.mpr hI.nodupA
  rw [List.map_cons, List.nodup_cons] at hnd
  have hsubF : ∀ u ∈ F, u ∈ F ++ [atual] := fun u hu => List.mem_append_left _ hu
  refine ⟨?_, hnd.2, ?_, fun n hn => hI.resolveA n (hsubA n hn), ?_, ?_, ?_, ?_,
    fun n hn => hI.hA n (hsubA n hn), ?_, fun n hn => hI.alcancaA n (hsubA n hn), ?_⟩
  · rw [List.map_append, List.nodup_append]
    refine ⟨hI.nodupF, by simp, ?_⟩
    intro a ha hb
    simp only [List.map_cons, List.map_nil, List.mem_singleton] at hb
    subst hb
    obtain ⟨c, hc, hcp⟩ := List.mem_map.mp ha
    exact hI.disj atual hatA c hc hcp.symm
  · intro a ha c hc
    rcases List.mem_append.mp hc with hc | hc
    · exact hI.disj a (hsubA a ha) c hc
    · simp only [List.mem_singleton] at hc
      subst hc
      intro heq
      exact hnd.1 (List.mem_map.mpr ⟨a, ha, heq⟩)
  · intro n hn
    rcases List.mem_append.mp hn with hn | hn
    · exact hI.resolveF n hn
    · simp only [List.mem_singleton] at hn
      subst hn
      exact hI.resolveA n hatA
  · rcases hI.inicio with ⟨hF, hA⟩ | ⟨F1, hF⟩
    · subst hF hA
      rw [ordena_singleton] at hord
      injection hord with h1 h2
      subst h1
      exact Or.inr ⟨[], rfl⟩
    · exact Or.inr ⟨F1 ++ [atual], by rw [hF]; rfl⟩
  · intro n hn
    rcases hI.geradoA n (hsubA n hn) with h | h
    · exact Or.inl h
    · exact Or.inr (h.mono M hsubF)
  · intro l1 n l2 heq
    rcases List.eq_nil_or_concat l2 with rfl | ⟨l3, b, rfl⟩
    · have h2 : F ++ [atual] = l1 ++ [n] := heq
      obtain ⟨h3, h4⟩ := List.append_inj' h2 rfl
      have h5 : atual = n := by simpa using h4
      subst h3 h5
      exact hI.geradoA atual hatA
    · have h2 : F ++ [atual] = (l1 ++ n :: l3) ++ [b] := by
        rw [heq]; simp
      obtain ⟨h3, _⟩ := List.append_inj' h2 rfl
      exact hI.geradoF l1 n l3 h3
  · intro n hn
    rcases List.mem_append.mp hn with hn | hn
    · exact hI.hF n hn
    · simp only [List.mem_singleton] at hn
      subst hn
      exact hI.hA n hatA
  · intro n hn
    rcases List.mem_append.mp hn with hn | hn
    · exact hI.alcancaF n hn
    · simp only [List.mem_singleton] at hn
      subst hn
      exact hI.alcancaA n hatA

/-- One iteration of the main loop that does not reach the destination keeps the invariant. -/
theorem passo_inv (A F : List Noh) (atual : Noh) (A1 : List Noh)
    (hI : InvLaco M m id_origem id_destino A F) (hord : ordena A = atual :: A1) :
    InvLaco M m id_origem id_destino
      (Planejador.expande M m (M.getPonto id_destino) atual (F ++ [atual]) M.rotas A1)
      (F ++ [atual]) :=
  expande_inv M m id_origem id_destino (F ++ [atual]) atual (by simp) M.rotas A1
    (fun _ h => h) (pop_inv M m id_origem id_destino A F atual A1 hI hord)

/-- The invariant holds when the loop is entered. -/
theorem inicio_inv (ho : (M.getPonto id_origem).valid = true) :
    InvLaco M m id_origem id_destino [noInicial M m id_origem id_destino] [] := by
  refine ⟨by simp, by simp, by simp, ?_, by simp, Or.inl ⟨rfl, rfl⟩, ?_, ?_, ?_, by simp, ?_,
    by simp⟩
  · intro n hn
    simp only [List.mem_singleton] at hn
    subst hn
    exact ho
  · intro n hn
    simp only [List.mem_singleton] at hn
    exact Or.inl hn
  · intro l1 n l2 h
    simp at h
  · intro n hn
    simp only [List.mem_singleton] at hn
    subst hn
    rfl
  · intro n hn
    simp only [List.mem_singleton] at hn
    subst hn
    exact ⟨[], rfl, rfl⟩

end Invariante

/-! ## The main loop -/

section Laco

variable (M : Planejador) (m : Libm) (id_origem id_destino : IDPonto)

theorem getPonto_valid_mem (p : IDPonto) (h : (M.getPonto p).valid = true) :
    p ∈ M.pontos.map Ponto.id := by
  unfold Planejador.getPonto at h
  split at h
  · rename_i P hP
    have h1 := List.mem_of_find?_eq_some hP
    have h2 := List.find?_some hP
    exact List.mem_map.mpr ⟨P, h1, by simpa using h2⟩
  · exact absurd h (by decide)

/-- Under the invariant `Fechado` has at most as many nodes as the map has points. -/
theorem InvLaco.length_le {A F : List Noh} (hI : InvLaco M m id_origem id_destino A F) :
    F.length ≤ M.pontos.length := by
  have hsub : F.map Noh.id_pt ⊆ M.pontos.map Ponto.id := by
    intro p hp
    obtain ⟨n, hn, rfl⟩ := List.mem_map.mp hp
    exact getPonto_valid_mem M _ (hI.resolveF n hn)
  have := (List.subperm_of_subset hI.nodupF hsub).length_le
  simpa using this

/-- Rule for the main loop: with an invariant `I` that every iteration keeps and that bounds the
length of `Fechado` by `N`, the loop started with enough fuel ends either with `throw 7` or in
the block `chegada`, entered from a state that satisfies `I`. -/
theorem laco_regra (pt_dest : Ponto) (N : Nat) (I : List Noh → List Noh → Prop)
    (hstep : ∀ A F atual A1, I A F → ordena A = atual :: A1 →
      I (Planejador.expande M m pt_dest atual (F ++ [atual]) M.rotas A1) (F ++ [atual]))
    (hlen : ∀ A F, I A F → F.length ≤ N) :
    ∀ (fuel : Nat) (A F : List Noh), I A F → N + 1 ≤ fuel + F.length →
      Planejador.laco M m id_origem id_destino pt_dest fuel A F = some (Planejador.Fim.excecao 7 [])
      ∨ ∃ A0 F0 atual A1, I A0 F0 ∧ ordena A0 = atual :: A1 ∧ atual.id_pt = id_destino ∧
          Planejador.laco M m id_origem id_destino pt_dest fuel A F =
            Planejador.chegada M id_origem atual A1 (F0 ++ [atual]) := by
  intro fuel
  induction fuel with
  | zero =>
    intro A F hI hf
    have := hlen A F hI
    omega
  | succ fuel ih =>
    intro A F hI hf
    unfold Planejador.laco
    cases hord : ordena A with
    | nil => exact Or.inl rfl
    | cons atual A1 =>
      simp only
      by_cases hd : atual.id_pt = id_destino
      · rw [if_pos hd]
        exact Or.inr ⟨A, F, atual, A1, hI, hord, hd, rfl⟩
      · rw [if_neg hd]
        have hI2 := hstep A F atual A1 hI hord
        have hf2 : N + 1 ≤ fuel + (F ++ [atual]).length := by
          rw [List.length_append, List.length_singleton]; omega
        exact ih _ _ hI2 hf2

end Laco

/-! ## Rebuilding the path -/

section Reconstroi

variable (M : Planejador) (m : Libm) (id_origem id_destino : IDPonto)

theorem find_rota_nodup (r : Rota) : ∀ (l : List Rota), (l.map Rota.id).Nodup → r ∈ l →
    l.find? (fun R => decide (R.id = r.id)) = some r := by
  intro l
  induction l with
  | nil => intro _ h; simp at h
  | cons x xs ih =>
    intro hnd hr
    rw [List.map_cons, List.nodup_cons] at hnd
    rcases List.mem_cons.mp hr with rfl | hr
    · simp
    · have hne : x.id ≠ r.id := by
        intro h
        exact hnd.1 (List.mem_map.mpr ⟨r, hr, h.symm⟩)
      rw [List.find?_cons_of_neg _ (by simpa using hne)]
      exact ih hnd.2 hr

theorem getRota_eq (hM : MapaOk M) (r : Rota) (hr : r ∈ M.rotas) : M.getRota r.id = r := by
  unfold Planejador.getRota
  rw [find_rota_nodup r M.rotas hM.rotas_distintas hr]

theorem find_skip (p : Noh → Bool) (u : Noh) (hu : p u = true) :
    ∀ (a rest : List Noh), (∀ x ∈ a, p x = false) → (a ++ u :: rest).find? p = some u := by
  intro a
  induction a with
  | nil => intro rest _; simp [hu]
  | cons x xs ih =>
    intro rest h
    rw [List.cons_append, List.find?_cons_of_neg _ (by simp [h x (List.mem_cons_self _ _)])]
    exact ih rest (fun y hy => h y (List.mem_cons_of_mem _ hy))

/-- From a node of `Fechado` the loop `reconstroi` ends normally, having put in front of `C` the
steps of a walk from the origin to the node, whose routes sum to the `g` of the node. -/
theorem reconstroi_ok (hM : MapaOk M) (A F : List Noh)
    (hI : InvLaco M m id_origem id_destino A F) :
    ∀ (k : Nat) (l1 : List Noh) (n : Noh) (l2 : List Noh), l1.length ≤ k →
      F = l1 ++ n :: l2 → ∀ (fuel : Nat), l1.length ≤ fuel → ∀ (C : Caminho),
      ∃ pre, M.reconstroi F fuel n C = some (Except.ok (pre ++ C)) ∧
        List.Chain' (PassoOk M) ((IDRota.vazio, id_origem) :: pre) ∧
        (((IDRota.vazio, id_origem) :: pre).getLast?).map Prod.snd = some n.id_pt ∧
        comprimentoCaminho M ((IDRota.vazio, id_origem) :: pre) = n.g ∧
        pre.length ≤ l1.length := by
  intro k
  induction k with
  | zero =>
    intro l1 n l2 hk hF fuel _ C
    have hl1 : l1 = [] := List.length_eq_zero.mp (Nat.le_zero.mp hk)
    subst hl1
    rcases hI.geradoF [] n l2 hF with h | h
    · subst h
      refine ⟨[], ?_, by simp, rfl, rfl, le_refl _⟩
      unfold Planejador.reconstroi
      have hv : (noInicial M m id_origem id_destino).id_rt.valid = false := rfl
      simp [hv]
    · obtain ⟨_, _, u, hu, _⟩ := h
      simp at hu
  | succ k ih =>
    intro l1 n l2 hk hF fuel hfuel C
    rcases hI.geradoF l1 n l2 hF with h | h
    · subst h
      refine ⟨[], ?_, by simp, rfl, rfl, Nat.zero_le _⟩
      unfold Planejador.reconstroi
      have hv : (noInicial M m id_origem id_destino).id_rt.valid = false := rfl
      simp [hv]
    · obtain ⟨r, hr, u, hu, hid, hE, hg⟩ := h
      obtain ⟨a, b, hab⟩ := List.append_of_mem hu
      have hnd := hI.nodupF
      have hFab : F = a ++ u :: (b ++ n :: l2) := by rw [hF, hab]; simp
      have hneq : u.id_pt ≠ n.id_pt := by
        rw [hFab] at hnd
        simp only [List.map_append, List.map_cons] at hnd
        have := (List.nodup_append.mp hnd).2.1
        rw [List.nodup_cons] at this
        intro h
        exact this.1 (by rw [h]; simp)
      have hskip : ∀ x ∈ a, (decide (x.id_pt = r.extremidade0) ||
          decide (x.id_pt = r.extremidade1)) = false := by
        intro x hx
        have hxu : x.id_pt ≠ u.id_pt := by
          rw [hFab] at hnd
          simp only [List.map_append, List.map_cons] at hnd
          have := (List.nodup_append.mp hnd).2.2
          intro h
          exact this (List.mem_map.mpr ⟨x, hx, rfl⟩) (by rw [h]; simp)
        have hxn : x.id_pt ≠ n.id_pt := by
          rw [hFab] at hnd
          simp only [List.map_append, List.map_cons] at hnd
          have := (List.nodup_append.mp hnd).2.2
          intro h
          exact this (List.mem_map.mpr ⟨x, hx, rfl⟩) (by rw [h]; simp)
        rcases hE with ⟨h0, h1⟩ | ⟨h1, h0⟩
        · simp [h0, h1, hxu, hxn]
        · simp [h0, h1, hxu, hxn]
      have hpu : (decide (u.id_pt = r.extremidade0) ||
          decide (u.id_pt = r.extremidade1)) = true := by
        rcases hE with ⟨h0, _⟩ | ⟨h1, _⟩
        · simp [h0]
        · simp [h1]
      have hfind : F.find? (fun noh => decide (noh.id_pt = r.extremidade0) ||
          decide (noh.id_pt = r.extremidade1)) = some u := by
        rw [hFab]
        exact find_skip _ u hpu a _ hskip
      have hlen : l1.length = a.length + 1 + b.length := by
        rw [hab]; simp; omega
      have hvalid : n.id_rt.valid = true := by rw [← hid]; exact hM.rotas_validas r hr
      have hget : M.getRota n.id_rt = r := by rw [← hid]; exact getRota_eq M hM r hr
      obtain ⟨fuel1, rfl⟩ : ∃ f1, fuel = f1 + 1 := ⟨fuel - 1, by omega⟩
      obtain ⟨pre, hrec, hch, hlast, hsum, hpl⟩ :=
        ih a u (b ++ n :: l2) (by omega) hFab fuel1 (by omega) ((n.id_rt, n.id_pt) :: C)
      refine ⟨pre ++ [(n.id_rt, n.id_pt)], ?_, ?_, ?_, ?_, ?_⟩
      · unfold Planejador.reconstroi
        simp only [hvalid, if_true, hget, hfind]
        rw [hrec]
        simp
      · have : (IDRota.vazio, id_origem) :: (pre ++ [(n.id_rt, n.id_pt)]) =
            ((IDRota.vazio, id_origem) :: pre) ++ [(n.id_rt, n.id_pt)] := rfl
        rw [this, List.chain'_append]
        refine ⟨hch, List.chain'_singleton _, ?_⟩
        intro x hx y hy
        simp only [List.head?_cons, Option.mem_def, Option.some.injEq] at hy
        subst hy
        have hx2 : x.2 = u.id_pt := by
          rw [Option.mem_def] at hx
          rw [hx] at hlast
          simpa using hlast
        exact ⟨r, hr, hid, by rw [hx2]; exact hE⟩
      · have : (IDRota.vazio, id_origem) :: (pre ++ [(n.id_rt, n.id_pt)]) =
            ((IDRota.vazio, id_origem) :: pre) ++ [(n.id_rt, n.id_pt)] := rfl
        rw [this, List.getLast?_concat]
        rfl
      · unfold comprimentoCaminho at hsum ⊢
        simp only [List.tail_cons] at hsum ⊢
        rw [List.map_append, List.sum_append, hsum]
        simp [hget, hg]
      · rw [List.length_append, List.length_singleton]; omega

end Reconstroi

/-! ## The whole call -/

section Chamada

variable (M : Planejador) (m : Libm) (id_origem id_destino : IDPonto)

/-- With a non-empty map and origin and destination that resolve, the `try` block ends with
`throw 7` or in the block `chegada`, entered from a state that satisfies the invariant. -/
theorem tenta_casos (hne : M.empty = false) (ho : (M.getPonto id_origem).valid = true)
    (hd : (M.getPonto id_destino).valid = true) :
    M.tenta m id_origem id_destino = some (Planejador.Fim.excecao 7 []) ∨
    ∃ A0 F0 atual A1, InvLaco M m id_origem id_destino A0 F0 ∧ ordena A0 = atual :: A1 ∧
      atual.id_pt = id_destino ∧
      M.tenta m id_origem id_destino = M.chegada id_origem atual A1 (F0 ++ [atual]) := by
  have h := laco_regra M m id_origem id_destino (M.getPonto id_destino) M.pontos.length
    (InvLaco M m id_origem id_destino)
    (fun A F atual A1 hI hord => passo_inv M m id_origem id_destino A F atual A1 hI hord)
    (fun A F hI => hI.length_le M m id_origem id_destino)
    (M.pontos.length + 1) [noInicial M m id_origem id_destino] []
    (inicio_inv M m id_origem id_destino ho) (by simp)
  have ht : M.tenta m id_origem id_destino =
      Planejador.laco M m id_origem id_destino (M.getPonto id_destino) (M.pontos.length + 1)
        [noInicial M m id_origem id_destino] [] := by
    unfold Planejador.tenta
    simp [hne, ho, hd, noInicial]
  rw [ht]
  exact h

/-- The block `chegada`, entered from a state that satisfies the invariant on a map that
satisfies the map invariants, returns the `g` of `atual` and a path that is a walk from the
origin to the point of `atual` whose routes sum to that `g`. -/
theorem chegada_ok (hM : MapaOk M) (A0 F0 : List Noh) (atual : Noh) (A1 : List Noh)
    (hI : InvLaco M m id_origem id_destino A0 F0) (hord : ordena A0 = atual :: A1) :
    ∃ pre, M.chegada id_origem atual A1 (F0 ++ [atual]) =
        some (Planejador.Fim.retorno atual.g ((IDRota.vazio, id_origem) :: pre)
          A1.length (F0 ++ [atual]).length) ∧
      List.Chain' (PassoOk M) ((IDRota.vazio, id_origem) :: pre) ∧
      (((IDRota.vazio, id_origem) :: pre).getLast?).map Prod.snd = some atual.id_pt ∧
      comprimentoCaminho M ((IDRota.vazio, id_origem) :: pre) = atual.g ∧
      pre.length ≤ F0.length := by
  have hI1 := pop_inv M m id_origem id_destino A0 F0 atual A1 hI hord
  obtain ⟨pre, hrec, h1, h2, h3, h4⟩ :=
    reconstroi_ok M m id_origem id_destino hM A1 (F0 ++ [atual]) hI1 F0.length F0 atual []
      (le_refl _) rfl (F0 ++ [atual]).length (by simp) []
  refine ⟨pre, ?_, h1, h2, h3, h4⟩
  unfold Planejador.chegada
  rw [hrec]
  simp

/-- What a call that ends without exception returns, on a map that satisfies the map
invariants. -/
theorem calculaCaminho_sucesso (hM : MapaOk M) (C0 : Caminho) (s : Planejador.Saida)
    (h : M.calculaCaminho m id_origem id_destino C0 = some s) (hs : s.erro = none) :
    ∃ A0 F0 atual A1 pre, InvLaco M m id_origem id_destino A0 F0 ∧ ordena A0 = atual :: A1 ∧
      atual.id_pt = id_destino ∧
      s = ⟨atual.g, (IDRota.vazio, id_origem) :: pre, A1.length, (F0 ++ [atual]).length, none⟩ ∧
      List.Chain' (PassoOk M) ((IDRota.vazio, id_origem) :: pre) ∧
      (((IDRota.vazio, id_origem) :: pre).getLast?).map Prod.snd = some atual.id_pt ∧
      comprimentoCaminho M ((IDRota.vazio, id_origem) :: pre) = atual.g ∧
      pre.length ≤ F0.length := by
  by_cases hne : M.empty = true
  · simp [Planejador.calculaCaminho, Planejador.tenta, hne] at h
    subst h; simp at hs
  by_cases ho : (M.getPonto id_origem).valid = true
  swap
  · simp [Planejador.calculaCaminho, Planejador.tenta, hne, ho] at h
    subst h; simp at hs
  by_cases hd : (M.getPonto id_destino).valid = true
  swap
  · simp [Planejador.calculaCaminho, Planejador.tenta, hne, ho, hd] at h
    subst h; simp at hs
  rcases tenta_casos M m id_origem id_destino (by simpa using hne) ho hd with h7 | h7
  · simp [Planejador.calculaCaminho, h7] at h
    subst h; simp at hs
  · obtain ⟨A0, F0, atual, A1, hI, hord, hdest, ht⟩ := h7
    obtain ⟨pre, hch, h1, h2, h3, h4⟩ :=
      chegada_ok M m id_origem id_destino hM A0 F0 atual A1 hI hord
    refine ⟨A0, F0, atual, A1, pre, hI, hord, hdest, ?_, h1, h2, h3, h4⟩
    unfold Planejador.calculaCaminho at h
    rw [ht, hch] at h
    simp only [Option.some.injEq] at h
    exact h.symm

/-- C1: on a map that satisfies the map invariants, when `calculaCaminho` ends without exception
the path `C` is not empty, its first element is `(IDRota(), origin)`, the point of its last
element is the destination, and for two consecutive elements `(_, p)`, `(r, q)` the id `r` is
that of a route of the map whose two endpoints are `p` and `q`. -/
theorem calculaCaminho_caminho_valido (M : Planejador) (m : Libm)
    (id_origem id_destino : IDPonto) (C0 : Caminho) (s : Planejador.Saida) (hM : MapaOk M)
    (h : M.calculaCaminho m id_origem id_destino C0 = some s) (hs : s.erro = none) :
    s.C ≠ [] ∧ s.C.head? = some (IDRota.vazio, id_origem) ∧
      s.C.getLast?.map Prod.snd = some id_destino ∧ List.Chain' (PassoOk M) s.C := by
  obtain ⟨A0, F0, atual, A1, pre, _, _, hdest, rfl, h1, h2, _, _⟩ :=
    calculaCaminho_sucesso M m id_origem id_destino hM C0 s h hs
  refine ⟨by simp, rfl, ?_, h1⟩
  rw [← hdest]
  exact h2

/-- C2: on a map that satisfies the map invariants, when `calculaCaminho` ends without exception
the returned length equals the sum, over the elements of the path `C` after the first, of the
length of the route that the element names. -/
theorem calculaCaminho_comprimento_soma (M : Planejador) (m : Libm)
    (id_origem id_destino : IDPonto) (C0 : Caminho) (s : Planejador.Saida) (hM : MapaOk M)
    (h : M.calculaCaminho m id_origem id_destino C0 = some s) (hs : s.erro = none) :
    s.comprimento = comprimentoCaminho M s.C := by
  obtain ⟨A0, F0, atual, A1, pre, _, _, _, rfl, _, _, h3, _⟩ :=
    calculaCaminho_sucesso M m id_origem id_destino hM C0 s h hs
  exact h3.symm

end Chamada

/-! ## Optimality under a consistent heuristic -/

section Otimo

variable (M : Planejador) (m : Libm) (id_origem id_destino : IDPonto)

theorem liga_snoc_inv (r : Rota) : ∀ (rs : List Rota) (o x : IDPonto),
    liga M o x (rs ++ [r]) → ∃ y, liga M o y rs ∧ r ∈ M.rotas ∧ Extremos r y x := by
  intro rs
  induction rs with
  | nil =>
    intro o x h
    simp only [List.nil_append, liga] at h
    refine ⟨o, rfl, h.1, ?_⟩
    rcases h.2 with ⟨h0, h1⟩ | ⟨h1, h0⟩
    · exact Or.inl ⟨h0, h1⟩
    · exact Or.inr ⟨h1, h0⟩
  | cons a as ih =>
    intro o x h
    simp only [List.cons_append, liga] at h
    rcases h.2 with ⟨h0, h1⟩ | ⟨h0, h1⟩
    · obtain ⟨y, hy, hr, hE⟩ := ih _ _ h1
      exact ⟨y, ⟨h.1, Or.inl ⟨h0, hy⟩⟩, hr, hE⟩
    · obtain ⟨y, hy, hr, hE⟩ := ih _ _ h1
      exact ⟨y, ⟨h.1, Or.inr ⟨h0, hy⟩⟩, hr, hE⟩

theorem Extremos.unique {r : Rota} {p q1 q2 : IDPonto} (h1 : Extremos r p q1)
    (h2 : Extremos r p q2) : q1 = q2 := by
  rcases h1 with ⟨a, b⟩ | ⟨a, b⟩ <;> rcases h2 with ⟨c, d⟩ | ⟨c, d⟩
  · rw [← b, ← d]
  · rw [← b, ← d, a, c]
  · rw [← b, ← d, a, c]
  · rw [← b, ← d]

theorem Consistente.passo {M : Planejador} {m : Libm} {id_destino : IDPonto}
    (hc : Consistente M m id_destino) {r : Rota} (hr : r ∈ M.rotas) {y x : IDPonto}
    (hE : Extremos r y x) :
    haversine m (M.getPonto y) (M.getPonto id_destino) ≤
      r.comprimento + haversine m (M.getPonto x) (M.getPonto id_destino) := by
  rcases hE with ⟨h0, h1⟩ | ⟨h1, h0⟩
  · rw [← h0, ← h1]; exact (hc r hr).1
  · rw [← h0, ← h1]; exact (hc r hr).2

/-- Under the invariants, for a walk from the origin to a point `x`, either `x` is in `Fechado`
or some node of `Aberto` has `f` at most the length of the walk plus the heuristic of `x`. -/
theorem fronteira (hc : Consistente M m id_destino) (A F : List Noh)
    (hI : InvLaco M m id_origem id_destino A F) (hO : InvOtimo M id_origem A F) :
    ∀ (rs : List Rota) (x : IDPonto), liga M id_origem x rs →
      (∃ c ∈ F, c.id_pt = x) ∨
      (∃ a ∈ A, a.f ≤ somaRotas rs + haversine m (M.getPonto x) (M.getPonto id_destino)) := by
  intro rs
  induction rs using List.reverseRecOn with
  | nil =>
    intro x h
    simp only [liga] at h
    subst h
    rcases hI.inicio with ⟨_, hA⟩ | ⟨F1, hF⟩
    · right
      refine ⟨noInicial M m id_origem id_destino, by rw [hA]; simp, ?_⟩
      simp [Noh.f, noInicial, somaRotas]
    · left
      exact ⟨noInicial M m id_origem id_destino, by rw [hF]; simp, rfl⟩
  | append_singleton rs r ih =>
    intro x h
    obtain ⟨y, hy, hr, hE⟩ := liga_snoc_inv M r rs _ _ h
    have hcons := hc.passo hr hE
    rw [somaRotas_snoc]
    rcases ih y hy with ⟨c, hcF, hcy⟩ | ⟨a, haA, haf⟩
    · have hmin := hO.minimo c hcF rs (by rw [hcy]; exact hy)
      rcases hO.relaxado c hcF r hr x (by rw [hcy]; exact hE) with h2 | ⟨a, haA, hax, hag⟩
      · exact Or.inl h2
      · right
        refine ⟨a, haA, ?_⟩
        have := hI.hA a haA
        rw [hax] at this
        unfold Noh.f
        rw [this]
        linarith
    · right
      exact ⟨a, haA, by linarith⟩

theorem nodup_pt_eq {A : List Noh} (h : (A.map Noh.id_pt).Nodup) {a b : Noh} (ha : a ∈ A)
    (hb : b ∈ A) (hab : a.id_pt = b.id_pt) : a = b :=
  List.inj_on_of_nodup_map h ha hb hab

/-- The function `insereSuc` keeps, for every point of `Aberto`, a node with an `f` that is not greater. -/
theorem insereSuc_mono (F A : List Noh) (suc : Noh) (hnd : (A.map Noh.id_pt).Nodup) :
    ∀ a ∈ A, ∃ b ∈ Planejador.insereSuc F A suc, b.id_pt = a.id_pt ∧ b.f ≤ a.f := by
  intro a ha
  unfold Planejador.insereSuc
  split
  · exact ⟨a, ha, rfl, le_refl _⟩
  · split
    · rename_i n hn
      obtain ⟨hnA, hnp⟩ := find_some_pt A _ n hn
      split
      · exact ⟨a, ha, rfl, le_refl _⟩
      · rename_i hlt
        by_cases hap : a.id_pt = suc.id_pt
        · have : a = n := nodup_pt_eq hnd ha hnA (by rw [hap, hnp])
          subst this
          exact ⟨suc, by simp, hap.symm, le_of_lt (not_le.mp hlt)⟩
        · refine ⟨a, List.mem_append_left _ ?_, rfl, le_refl _⟩
          exact (List.mem_eraseP_of_neg (by simpa using hap)).mpr ha
    · exact ⟨a, List.mem_append_left _ ha, rfl, le_refl _⟩

/-- After `insereSuc` the point of `suc` is in `Fechado`, or in `Aberto` with `f` at most that
of `suc`. -/
theorem insereSuc_relaxa (F A : List Noh) (suc : Noh) :
    (∃ c ∈ F, c.id_pt = suc.id_pt) ∨
    (∃ b ∈ Planejador.insereSuc F A suc, b.id_pt = suc.id_pt ∧ b.f ≤ suc.f) := by
  unfold Planejador.insereSuc
  split
  · rename_i c hc
    obtain ⟨h1, h2⟩ := find_some_pt F _ c hc
    exact Or.inl ⟨c, h1, h2⟩
  · right
    split
    · rename_i n hn
      obtain ⟨hnA, hnp⟩ := find_some_pt A _ n hn
      split
      · rename_i hle
        exact ⟨n, hnA, hnp, hle⟩
      · exact ⟨suc, by simp, rfl, le_refl _⟩
    · exact ⟨suc, by simp, rfl, le_refl _⟩

/-- For a route with `atual` at one end and a resolving point `v` at the other, `visita` is
`insereSuc` of the successor at `v`. -/
theorem visita_extremo (pt_dest : Ponto) (atual : Noh) (F A : List Noh) (rota : Rota)
    (v : IDPonto) (hE : Extremos rota atual.id_pt v) (hv : (M.getPonto v).valid = true) :
    Planejador.visita M m pt_dest atual F A rota =
      Planejador.insereSuc F A
        ⟨v, rota.id, atual.g + rota.comprimento, haversine m (M.getPonto v) pt_dest⟩ := by
  have hext : rota.extremidade0 = atual.id_pt ∨ rota.extremidade1 = atual.id_pt := by
    rcases hE with ⟨h, _⟩ | ⟨h, _⟩
    · exact Or.inl h
    · exact Or.inr h
  have hsuc : (if rota.extremidade0 = atual.id_pt then rota.extremidade1
      else rota.extremidade0) = v := by
    by_cases h0 : rota.extremidade0 = atual.id_pt
    · rw [if_pos h0]
      exact Extremos.unique (Or.inl ⟨h0, rfl⟩) hE
    · rw [if_neg h0]
      rcases hE with ⟨h, _⟩ | ⟨_, h⟩
      · exact absurd h h0
      · exact h
  unfold Planejador.visita
  rw [if_pos hext, hsuc]
  simp [hv]

theorem visita_mono (A F : List Noh) (atual : Noh) (rota : Rota)
    (hI : InvLaco M m id_origem id_destino A F) :
    ∀ a ∈ A, ∃ b ∈ Planejador.visita M m (M.getPonto id_destino) atual F A rota,
      b.id_pt = a.id_pt ∧ b.f ≤ a.f := by
  rcases visita_eq M m (M.getPonto id_destino) atual F A rota with h | ⟨suc, _, h⟩
  · rw [h]; exact fun a ha => ⟨a, ha, rfl, le_refl _⟩
  · rw [h]; exact insereSuc_mono F A suc hI.nodupA

/-- The `for` loop over the routes: every point of `Aberto` keeps a node with an `f` not
greater, and every resolving neighbour of `atual` along a visited route is in `Fechado` or has
in `Aberto` a node with `f` at most the `f` of the successor along that route. -/
theorem expande_otimo (F : List Noh) (atual : Noh) (hat : atual ∈ F) :
    ∀ (rotas : List Rota) (A : List Noh), (∀ r ∈ rotas, r ∈ M.rotas) →
      InvLaco M m id_origem id_destino A F →
      (∀ a ∈ A, ∃ b ∈ Planejador.expande M m (M.getPonto id_destino) atual F rotas A,
        b.id_pt = a.id_pt ∧ b.f ≤ a.f) ∧
      (∀ r ∈ rotas, ∀ v, Extremos r atual.id_pt v → (M.getPonto v).valid = true →
        (∃ c ∈ F, c.id_pt = v) ∨
        (∃ b ∈ Planejador.expande M m (M.getPonto id_destino) atual F rotas A,
          b.id_pt = v ∧ b.f ≤ atual.g + r.comprimento +
            haversine m (M.getPonto v) (M.getPonto id_destino))) := by
  intro rotas
  induction rotas with
  | nil =>
    intro A _ _
    refine ⟨fun a ha => ⟨a, ha, rfl, le_refl _⟩, ?_⟩
    intro r hr
    simp at hr
  | cons r rs ih =>
    intro A hsub hI
    have hI2 := visita_inv M m id_origem id_destino A F atual r hI hat
      (hsub r (List.mem_cons_self _ _))
    obtain ⟨ih1, ih2⟩ := ih (Planejador.visita M m (M.getPonto id_destino) atual F A r)
      (fun x hx => hsub x (List.mem_cons_of_mem _ hx)) hI2
    have hexp : Planejador.expande M m (M.getPonto id_destino) atual F (r :: rs) A =
        Planejador.expande M m (M.getPonto id_destino) atual F rs
          (Planejador.visita M m (M.getPonto id_destino) atual F A r) := rfl
    rw [hexp]
    constructor
    · intro a ha
      obtain ⟨b, hb, hbp, hbf⟩ := visita_mono M m id_origem id_destino A F atual r hI a ha
      obtain ⟨c, hc, hcp, hcf⟩ := ih1 b hb
      exact ⟨c, hc, by rw [hcp, hbp], le_trans hcf hbf⟩
    · intro r2 hr2 v hE hv
      rcases List.mem_cons.mp hr2 with rfl | hr2
      · have hvis := visita_extremo M m (M.getPonto id_destino) atual F A r2 v hE hv
        rcases insereSuc_relaxa F A ⟨v, r2.id, atual.g + r2.comprimento,
          haversine m (M.getPonto v) (M.getPonto id_destino)⟩ with h | ⟨b, hb, hbp, hbf⟩
        · exact Or.inl h
        · right
          rw [← hvis] at hb
          obtain ⟨c, hc, hcp, hcf⟩ := ih1 b hb
          exact ⟨c, hc, by rw [hcp, hbp], le_trans hcf hbf⟩
      · exact ih2 r2 hr2 v hE hv

end Otimo

section OtimoLaco

variable (M : Planejador) (m : Libm) (id_origem id_destino : IDPonto)

/-- Under a consistent heuristic the node taken from the front of the sorted `Aberto` has a `g`
that is at most the length of every walk from the origin to its point. -/
theorem atual_minimo (hc : Consistente M m id_destino) (A F : List Noh) (atual : Noh)
    (A1 : List Noh) (hI : InvLaco M m id_origem id_destino A F)
    (hO : InvOtimo M id_origem A F) (hord : ordena A = atual :: A1) :
    ∀ rs, liga M id_origem atual.id_pt rs → atual.g ≤ somaRotas rs := by
  intro rs hrs
  have hatA : atual ∈ A :=
    (ordena_perm A).mem_iff.mp (by rw [hord]; exact List.mem_cons_self _ _)
  rcases fronteira M m id_origem id_destino hc A F hI hO rs atual.id_pt hrs with
    ⟨c, hcF, hcp⟩ | ⟨a, haA, haf⟩
  · exact absurd hcp.symm (hI.disj atual hatA c hcF)
  · have hmin := ordena_head_min A atual A1 hord a haA
    have hh := hI.hA atual hatA
    unfold Noh.f at hmin haf
    linarith

theorem passo_otimo (hM : MapaOk M) (hc : Consistente M m id_destino) (A F : List Noh)
    (atual : Noh) (A1 : List Noh) (hI : InvLaco M m id_origem id_destino A F)
    (hO : InvOtimo M id_origem A F) (hord : ordena A = atual :: A1) :
    InvOtimo M id_origem
      (Planejador.expande M m (M.getPonto id_destino) atual (F ++ [atual]) M.rotas A1)
      (F ++ [atual]) := by
  have hperm : (atual :: A1).Perm A := by rw [← hord]; exact ordena_perm A
  have hI1 := pop_inv M m id_origem id_destino A F atual A1 hI hord
  have hI2 := passo_inv M m id_origem id_destino A F atual A1 hI hord
  obtain ⟨hmono, hrelax⟩ := expande_otimo M m id_origem id_destino (F ++ [atual]) atual
    (by simp) M.rotas A1 (fun _ h => h) hI1
  constructor
  · intro c hc2 rs hrs
    rcases List.mem_append.mp hc2 with hc2 | hc2
    · exact hO.minimo c hc2 rs hrs
    · simp only [List.mem_singleton] at hc2
      subst hc2
      exact atual_minimo M m id_origem id_destino hc A F c A1 hI hO hord rs hrs
  · intro u hu r hr v hE
    rcases List.mem_append.mp hu with hu | hu
    · rcases hO.relaxado u hu r hr v hE with ⟨c, hcF, hcv⟩ | ⟨a, haA, hav, hag⟩
      · exact Or.inl ⟨c, List.mem_append_left _ hcF, hcv⟩
      · rcases List.mem_cons.mp (hperm.mem_iff.mpr haA) with rfl | haA1
        · exact Or.inl ⟨a, by simp, hav⟩
        · right
          obtain ⟨b, hb, hbp, hbf⟩ := hmono a haA1
          refine ⟨b, hb, by rw [hbp, hav], ?_⟩
          have h1 := hI2.hA b hb
          have h2 := hI.hA a haA
          rw [hbp] at h1
          unfold Noh.f at hbf
          linarith
    · simp only [List.mem_singleton] at hu
      subst hu
      have hv : (M.getPonto v).valid = true := by
        rcases hE with ⟨_, h⟩ | ⟨_, h⟩
        · rw [← h]; exact hM.extremidade1_ok r hr
        · rw [← h]; exact hM.extremidade0_ok r hr
      rcases hrelax r hr v hE hv with h | ⟨b, hb, hbp, hbf⟩
      · exact Or.inl h
      · right
        refine ⟨b, hb, hbp, ?_⟩
        have h1 := hI2.hA b hb
        rw [hbp] at h1
        unfold Noh.f at hbf
        linarith

/-- With a consistent heuristic, the `try` block ends with `throw 7` or in the block `chegada`,
entered from a state that satisfies both invariants. -/
theorem tenta_casos_otimo (hM : MapaOk M) (hc : Consistente M m id_destino)
    (hne : M.empty = false) (ho : (M.getPonto id_origem).valid = true)
    (hd : (M.getPonto id_destino).valid = true) :
    M.tenta m id_origem id_destino = some (Planejador.Fim.excecao 7 []) ∨
    ∃ A0 F0 atual A1, (InvLaco M m id_origem id_destino A0 F0 ∧ InvOtimo M id_origem A0 F0) ∧
      ordena A0 = atual :: A1 ∧ atual.id_pt = id_destino ∧
      M.tenta m id_origem id_destino = M.chegada id_origem atual A1 (F0 ++ [atual]) := by
  have h := laco_regra M m id_origem id_destino (M.getPonto id_destino) M.pontos.length
    (fun A F => InvLaco M m id_origem id_destino A F ∧ InvOtimo M id_origem A F)
    (fun A F atual A1 hI hord =>
      ⟨passo_inv M m id_origem id_destino A F atual A1 hI.1 hord,
       passo_otimo M m id_origem id_destino hM hc A F atual A1 hI.1 hI.2 hord⟩)
    (fun A F hI => hI.1.length_le M m id_origem id_destino)
    (M.pontos.length + 1) [noInicial M m id_origem id_destino] []
    ⟨inicio_inv M m id_origem id_destino ho, ⟨by simp, by simp⟩⟩ (by simp)
  have ht : M.tenta m id_origem id_destino =
      Planejador.laco M m id_origem id_destino (M.getPonto id_destino) (M.pontos.length + 1)
        [noInicial M m id_origem id_destino] [] := by
    unfold Planejador.tenta
    simp [hne, ho, hd, noInicial]
  rw [ht]
  exact h

end OtimoLaco

/-! ## Concrete runs -/

theorem mapaTeste_ok : MapaOk mapaTeste :=
  ⟨by decide, by decide, by decide, by decide, by decide⟩

theorem mapaLongo_ok : MapaOk mapaLongo :=
  ⟨by decide, by decide, by decide, by decide, by decide⟩

theorem mapaLongo_consistente : Consistente mapaLongo libmQ idB := by
  unfold Consistente
  decide!

theorem mapaTeste_A_C :
    mapaTeste.calculaCaminho libmQ idA idC [] =
      some ⟨10, [(IDRota.vazio, idA), (rota1.id, idC)], 1, 2, none⟩ := by
  decide!

theorem mapaLongo_A_B :
    mapaLongo.calculaCaminho libmQ idA idB [] =
      some ⟨20016, [(IDRota.vazio, idA), (rota4.id, idB)], 1, 2, none⟩ := by
  decide!

theorem calculaCaminho_caminho_valido_witness :
    MapaOk mapaTeste ∧
    mapaTeste.calculaCaminho libmQ idA idC [] =
      some ⟨10, [(IDRota.vazio, idA), (rota1.id, idC)], 1, 2, none⟩ ∧
    ([(IDRota.vazio, idA), (rota1.id, idC)] ≠ [] ∧
      [(IDRota.vazio, idA), (rota1.id, idC)].head? = some (IDRota.vazio, idA) ∧
      [(IDRota.vazio, idA), (rota1.id, idC)].getLast?.map Prod.snd = some idC ∧
      List.Chain' (PassoOk mapaTeste) [(IDRota.vazio, idA), (rota1.id, idC)]) :=
  ⟨mapaTeste_ok, mapaTeste_A_C,
    calculaCaminho_caminho_valido mapaTeste libmQ idA idC [] _ mapaTeste_ok mapaTeste_A_C rfl⟩

theorem calculaCaminho_comprimento_soma_witness :
    MapaOk mapaTeste ∧
    mapaTeste.calculaCaminho libmQ idA idC [] =
      some ⟨10, [(IDRota.vazio, idA), (rota1.id, idC)], 1, 2, none⟩ ∧
    (10 : ℚ) = comprimentoCaminho mapaTeste [(IDRota.vazio, idA), (rota1.id, idC)] :=
  ⟨mapaTeste_ok, mapaTeste_A_C,
    calculaCaminho_comprimento_soma mapaTeste libmQ idA idC [] _ mapaTeste_ok mapaTeste_A_C rfl⟩

/-- On `mapaTeste` the call from `#A` to `#C` returns 10 through route `&1` with every math
library for which the distance from `#B` to `#C` is at least 9 km. -/
theorem mapaTeste_A_C_geral (m : Libm)
    (hB : 9 ≤ haversine m (mapaTeste.getPonto idB) (mapaTeste.getPonto idC)) :
    mapaTeste.calculaCaminho m idA idC [] =
      some ⟨10, [(IDRota.vazio, idA), (rota1.id, idC)], 1, 2, none⟩ := by
  have hCC : haversine m (mapaTeste.getPonto idC) (mapaTeste.getPonto idC) = 0 := by
    simp [haversine]
  generalize hx : haversine m (mapaTeste.getPonto idA) (mapaTeste.getPonto idC) = x
  generalize hy : haversine m (mapaTeste.getPonto idB) (mapaTeste.getPonto idC) = y at hB
  have hvA : (mapaTeste.getPonto idA).valid = true := by decide
  have hvB : (mapaTeste.getPonto idB).valid = true := by decide
  have hvC : (mapaTeste.getPonto idC).valid = true := by decide
  have hne : mapaTeste.empty = false := by decide
  have hlen : mapaTeste.pontos.length = 3 := rfl
  have hrot : mapaTeste.rotas = [rota1, rota2, rota3] := rfl
  have hAC : idA ≠ idC := by decide
  have hAB : idA ≠ idB := by decide
  have hBC : idB ≠ idC := by decide
  have hr1 : (IDRota.mk ['&', '1']).valid = true := by decide
  have hv0 : IDRota.vazio.valid = false := by decide
  have hget1 : mapaTeste.getRota ⟨['&', '1']⟩ = rota1 := by decide
  unfold Planejador.calculaCaminho Planejador.tenta
  simp only [hne, hvA, hvC, hlen, hx, Bool.not_true, Bool.false_eq_true, if_false]
  unfold Planejador.laco
  simp only [ordena, insereOrd, hAC, if_false]
  unfold Planejador.expande
  simp only [hrot, List.foldl_cons, List.foldl_nil]
  simp only [Planejador.visita, Planejador.insereSuc, rota1, rota2, rota3,
    true_or, or_true, if_true, hvC, hvB, hCC, hy, hAC, hAC.symm, hAB, hAB.symm, hBC, hBC.symm,
    Bool.not_true, Bool.false_eq_true, if_false, List.find?, List.nil_append, List.cons_append,
    decide_True, decide_False, or_self, decide_eq_true_eq, List.append_nil]
  unfold Planejador.laco
  have hnot2 : ¬ ((0:ℚ) + 1 + y < 0 + 10 + 0) := by linarith
  simp only [ordena, insereOrd, Noh.f, hnot2, if_false, if_true]
  simp only [Planejador.chegada, List.length_append, List.length_singleton, List.length_cons,
    List.length_nil, List.cons_append, List.nil_append]
  unfold Planejador.reconstroi
  simp only [hr1, if_true, hget1, rota1, List.find?, decide_True, Bool.true_or]
  unfold Planejador.reconstroi
  simp [hv0]

/-- C5: on a non-empty map, for an origin and a destination that both resolve, if no sequence of
routes of the map connects origin to destination then `calculaCaminho` returns -1, leaves the
path `C` empty and sets `NA = NF = -1` (exception 7). -/
theorem calculaCaminho_sem_caminho (M : Planejador) (m : Libm) (id_origem id_destino : IDPonto)
    (C0 : Caminho) (hne : M.empty = false) (ho : (M.getPonto id_origem).valid = true)
    (hd : (M.getPonto id_destino).valid = true)
    (hno : ∀ rs, ¬ liga M id_origem id_destino rs) :
    M.calculaCaminho m id_origem id_destino C0 = some ⟨-1, [], -1, -1, some 7⟩ := by
  rcases tenta_casos M m id_origem id_destino hne ho hd with h7 | h7
  · simp [Planejador.calculaCaminho, h7]
  · obtain ⟨A0, F0, atual, A1, hI, hord, hdest, _⟩ := h7
    have hatA : atual ∈ A0 :=
      (ordena_perm A0).mem_iff.mp (by rw [hord]; exact List.mem_cons_self _ _)
    obtain ⟨rs, hrs, _⟩ := hI.alcancaA atual hatA
    rw [hdest] at hrs
    exact absurd hrs (hno rs)

theorem mapaSemRotas_desligado : ∀ rs, ¬ liga mapaSemRotas idA idB rs := by
  intro rs
  cases rs with
  | nil => simp only [liga]; decide
  | cons r rs =>
    simp only [liga]
    intro h
    exact absurd h.1 (by simp [mapaSemRotas])

theorem calculaCaminho_sem_caminho_witness :
    mapaSemRotas.empty = false ∧ (mapaSemRotas.getPonto idA).valid = true ∧
    (mapaSemRotas.getPonto idB).valid = true ∧ (∀ rs, ¬ liga mapaSemRotas idA idB rs) ∧
    mapaSemRotas.calculaCaminho libmQ idA idB [(IDRota.vazio, idC)] =
      some ⟨-1, [], -1, -1, some 7⟩ :=
  ⟨by decide, by decide, by decide, mapaSemRotas_desligado,
    calculaCaminho_sem_caminho mapaSemRotas libmQ idA idB [(IDRota.vazio, idC)]
      (by decide) (by decide) (by decide) mapaSemRotas_desligado⟩

/-! ## Streams -/

theorem separa_length (d : Char) : ∀ (l a b : Texto), separa d l = some (a, b) →
    a.length + b.length + 1 = l.length := by
  intro l
  induction l with
  | nil => intro a b h; simp [separa] at h
  | cons c r ih =>
    intro a b h
    unfold separa at h
    split at h
    · simp only [Option.some.injEq, Prod.mk.injEq] at h
      obtain ⟨rfl, rfl⟩ := h
      simp
    · split at h
      · simp at h
      · rename_i a1 b1 h1
        simp only [Option.some.injEq, Prod.mk.injEq] at h
        obtain ⟨rfl, rfl⟩ := h
        have := ih a1 b1 h1
        simp only [List.length_cons]
        omega

/-- A `getline` that does not set `failbit` consumes at least one character. -/
theorem getline_consome (s : Fluxo) (d : Char) (h : (s.getline d).1.fail = false) :
    (s.getline d).1.buf.length < s.buf.length := by
  unfold Fluxo.getline at h ⊢
  split
  · rename_i hg
    rw [if_pos hg] at h
    simp [Fluxo.fail] at h
  · rename_i hg
    rw [if_neg hg] at h
    split
    · rename_i str resto hs
      have := separa_length d _ _ _ hs
      simp only
      omega
    · rename_i hs
      rw [hs] at h
      simp only [Fluxo.fail, List.isEmpty_eq_true] at h
      simp only [List.length_nil]
      exact List.length_pos.mpr (by simpa using h)

theorem getline_buf_le (s : Fluxo) (d : Char) :
    (s.getline d).1.buf.length ≤ s.buf.length := by
  unfold Fluxo.getline
  split
  · exact le_refl _
  · split
    · rename_i str resto hs
      have := separa_length d _ _ _ hs
      simp only
      omega
    · simp

theorem lerDouble_buf_le (ng : NumGet) (s : Fluxo) :
    (s.lerDouble ng).1.buf.length ≤ s.buf.length := by
  unfold Fluxo.lerDouble
  have hdw : (s.buf.dropWhile isspace).length ≤ s.buf.length :=
    (List.dropWhile_sublist _).length_le
  by_cases hg : (!s.good) = true
  · rw [if_pos hg]
  · rw [if_neg hg]
    simp only
    by_cases he : (s.buf.dropWhile isspace).isEmpty = true
    · rw [if_pos he]; simp
    · rw [if_neg he]
      cases (ng (s.buf.dropWhile isspace)).1 with
      | some v => simp only [List.length_drop]; omega
      | none => simp only [List.length_drop]; omega

theorem ignore1_buf_le (s : Fluxo) : s.ignore1.buf.length ≤ s.buf.length := by
  unfold Fluxo.ignore1
  split
  · exact le_refl _
  · split
    · exact le_refl _
    · rename_i h; rw [h]; simp

theorem ws_buf_le (s : Fluxo) : s.ws.buf.length ≤ s.buf.length := by
  unfold Fluxo.ws
  split
  · exact le_refl _
  · exact (List.dropWhile_sublist _).length_le

/-! ## Loading: termination and what an accepted record satisfies -/

section Ler

variable (ng : NumGet)

/-- What `lerPonto` gives when it ends without exception. -/
theorem lerPonto_ok (s : Fluxo) (P : Ponto) (s1 : Fluxo)
    (h : Planejador.lerPonto ng s = Except.ok (P, s1)) :
    P.id.valid = true ∧ P.id = IDPonto.set (s.getline ';').2 ∧
      s1.buf.length < s.buf.length := by
  unfold Planejador.lerPonto at h
  simp only at h
  split at h
  · simp at h
  · rename_i h1
    split at h
    · simp at h
    · rename_i h2
      split at h
      · simp at h
      · split at h
        · simp at h
        · split at h
          · simp at h
          · simp only [Except.ok.injEq, Prod.mk.injEq] at h
            obtain ⟨rfl, rfl⟩ := h
            refine ⟨by simpa using h2, rfl, ?_⟩
            have c1 := getline_consome s ';' (by simpa using h1)
            have c2 := getline_buf_le (s.getline ';').1 ';'
            have c3 := lerDouble_buf_le ng ((s.getline ';').1.getline ';').1
            have c4 := ignore1_buf_le (((s.getline ';').1.getline ';').1.lerDouble ng).1
            have c5 := lerDouble_buf_le ng (((s.getline ';').1.getline ';').1.lerDouble ng).1.ignore1
            have c6 := ws_buf_le
              ((((s.getline ';').1.getline ';').1.lerDouble ng).1.ignore1.lerDouble ng).1
            omega

theorem lerPontosLaco_total : ∀ (fuel : Nat) (s : Fluxo) (listP : List Ponto),
    s.buf.length < fuel → ∃ r, Planejador.lerPontosLaco ng fuel s listP = some r := by
  intro fuel
  induction fuel with
  | zero => intro s listP h; omega
  | succ fuel ih =>
    intro s listP hf
    unfold Planejador.lerPontosLaco
    split
    · exact ⟨_, rfl⟩
    · rename_i P s1 hP
      obtain ⟨_, _, hlt⟩ := lerPonto_ok ng s P s1 hP
      split
      · exact ⟨_, rfl⟩
      · split
        · exact ⟨_, rfl⟩
        · exact ih s1 _ (by omega)

theorem find_ponto_none (L : List Ponto) (p : IDPonto)
    (h : L.find? (fun Q => decide (Q.id = p)) = none) : p ∉ L.map Ponto.id := by
  intro hp
  obtain ⟨Q, hQ, hQp⟩ := List.mem_map.mp hp
  have := List.find?_eq_none.mp h Q hQ
  simp [hQp] at this

theorem find_ponto_some (L : List Ponto) (p : IDPonto) (Q : Ponto)
    (h : L.find? (fun Q => decide (Q.id = p)) = some Q) : Q ∈ L ∧ Q.id = p := by
  refine ⟨List.mem_of_find?_eq_some h, ?_⟩
  have := List.find?_some h
  simpa using this

/-- The points that the loop accepts have valid and pairwise distinct ids. -/
theorem lerPontosLaco_ok : ∀ (fuel : Nat) (s : Fluxo) (listP L : List Ponto),
    Planejador.lerPontosLaco ng fuel s listP = some (Except.ok L) →
    (∀ P ∈ listP, P.id.valid = true) → (listP.map Ponto.id).Nodup →
    (∀ P ∈ L, P.id.valid = true) ∧ (L.map Ponto.id).Nodup := by
  intro fuel
  induction fuel with
  | zero => intro s listP L h; simp [Planejador.lerPontosLaco] at h
  | succ fuel ih =>
    intro s listP L h hv hnd
    unfold Planejador.lerPontosLaco at h
    split at h
    · simp at h
    · rename_i P s1 hP
      obtain ⟨hPv, _, _⟩ := lerPonto_ok ng s P s1 hP
      split at h
      · simp at h
      · rename_i hfind
        have hv2 : ∀ Q ∈ listP ++ [P], Q.id.valid = true := by
          intro Q hQ
          rcases List.mem_append.mp hQ with hQ | hQ
          · exact hv Q hQ
          · simp only [List.mem_singleton] at hQ; subst hQ; exact hPv
        have hnd2 : ((listP ++ [P]).map Ponto.id).Nodup := by
          rw [List.map_append, List.nodup_append]
          refine ⟨hnd, by simp, ?_⟩
          intro a ha hb
          simp only [List.map_cons, List.map_nil, List.mem_singleton] at hb
          subst hb
          exact find_ponto_none listP _ hfind ha
        split at h
        · simp only [Option.some.injEq, Except.ok.injEq] at h
          subst h
          exact ⟨hv2, hnd2⟩
        · exact ih s1 _ L h hv2 hnd2

end Ler

section Ler2

variable (ng : NumGet)

/-- What `lerRota` gives when it ends without exception. -/
theorem lerRota_ok (listP : List Ponto) (s : Fluxo) (R : Rota) (s1 : Fluxo)
    (h : Planejador.lerRota ng listP s = Except.ok (R, s1)) :
    R.id.valid = true ∧ R.id = IDRota.set (s.getline ';').2 ∧
      R.extremidade0.valid = true ∧ R.extremidade0 ∈ listP.map Ponto.id ∧
      R.extremidade1.valid = true ∧ R.extremidade1 ∈ listP.map Ponto.id ∧
      s1.buf.length < s.buf.length := by
  unfold Planejador.lerRota at h
  simp only at h
  split at h
  · simp at h
  · rename_i h1
    split at h
    · simp at h
    · rename_i h2
      split at h
      · simp at h
      · split at h
        · simp at h
        · split at h
          · simp at h
          · rename_i h7
            split at h
            · simp at h
            · rename_i Q0 hQ0
              split at h
              · simp at h
              · split at h
                · simp at h
                · rename_i h10
                  split at h
                  · simp at h
                  · rename_i Q1 hQ1
                    split at h
                    · simp at h
                    · simp only [Except.ok.injEq, Prod.mk.injEq] at h
                      obtain ⟨rfl, rfl⟩ := h
                      obtain ⟨hq0, hq0id⟩ := find_ponto_some listP _ Q0 hQ0
                      obtain ⟨hq1, hq1id⟩ := find_ponto_some listP _ Q1 hQ1
                      refine ⟨by simpa using h2, rfl, by simpa using h7,
                        List.mem_map.mpr ⟨Q0, hq0, hq0id⟩, by simpa using h10,
                        List.mem_map.mpr ⟨Q1, hq1, hq1id⟩, ?_⟩
                      have c1 := getline_consome s ';' (by simpa using h1)
                      have c2 := getline_buf_le (s.getline ';').1 ';'
                      have c3 := getline_buf_le ((s.getline ';').1.getline ';').1 ';'
                      have c4 := getline_buf_le
                        (((s.getline ';').1.getline ';').1.getline ';').1 ';'
                      have c5 := lerDouble_buf_le ng
                        ((((s.getline ';').1.getline ';').1.getline ';').1.getline ';').1
                      have c6 := ws_buf_le
                        (((((s.getline ';').1.getline ';').1.getline ';').1.getline ';').1.lerDouble
                          ng).1
                      omega

theorem lerRotasLaco_total (listP : List Ponto) : ∀ (fuel : Nat) (s : Fluxo) (listR : List Rota),
    s.buf.length < fuel → ∃ r, Planejador.lerRotasLaco ng listP fuel s listR = some r := by
  intro fuel
  induction fuel with
  | zero => intro s listR h; omega
  | succ fuel ih =>
    intro s listR hf
    unfold Planejador.lerRotasLaco
    split
    · exact ⟨_, rfl⟩
    · rename_i R s1 hR
      have hlt := (lerRota_ok ng listP s R s1 hR).2.2.2.2.2.2
      split
      · exact ⟨_, rfl⟩
      · split
        · exact ⟨_, rfl⟩
        · exact ih s1 _ (by omega)

theorem find_rota_none (L : List Rota) (p : IDRota)
    (h : L.find? (fun Q => decide (Q.id = p)) = none) : p ∉ L.map Rota.id := by
  intro hp
  obtain ⟨Q, hQ, hQp⟩ := List.mem_map.mp hp
  have := List.find?_eq_none.mp h Q hQ
  simp [hQp] at this

/-- The routes that the loop accepts have valid and pairwise distinct ids and valid endpoints
that are ids of points of `listP`. -/
theorem lerRotasLaco_ok (listP : List Ponto) : ∀ (fuel : Nat) (s : Fluxo) (listR L : List Rota),
    Planejador.lerRotasLaco ng listP fuel s listR = some (Except.ok L) →
    (∀ R ∈ listR, RotaAceita listP R) → (listR.map Rota.id).Nodup →
    (∀ R ∈ L, RotaAceita listP R) ∧ (L.map Rota.id).Nodup := by
  intro fuel
  induction fuel with
  | zero => intro s listR L h; simp [Planejador.lerRotasLaco] at h
  | succ fuel ih =>
    intro s listR L h hv hnd
    unfold Planejador.lerRotasLaco at h
    split at h
    · simp at h
    · rename_i R s1 hR
      obtain ⟨a1, _, a2, a3, a4, a5, _⟩ := lerRota_ok ng listP s R s1 hR
      split at h
      · simp at h
      · rename_i hfind
        have hv2 : ∀ Q ∈ listR ++ [R], RotaAceita listP Q := by
          intro Q hQ
          rcases List.mem_append.mp hQ with hQ | hQ
          · exact hv Q hQ
          · simp only [List.mem_singleton] at hQ; subst hQ; exact ⟨a1, a2, a3, a4, a5⟩
        have hnd2 : ((listR ++ [R]).map Rota.id).Nodup := by
          rw [List.map_append, List.nodup_append]
          refine ⟨hnd, by simp, ?_⟩
          intro a ha hb
          simp only [List.map_cons, List.map_nil, List.mem_singleton] at hb
          subst hb
          exact find_rota_none listR _ hfind ha
        split at h
        · simp only [Option.some.injEq, Except.ok.injEq] at h
          subst h
          exact ⟨hv2, hnd2⟩
        · exact ih s1 _ L h hv2 hnd2

theorem lerPontos_total (arq : Option Texto) : ∃ r, Planejador.lerPontos ng arq = some r := by
  unfold Planejador.lerPontos
  split
  · exact ⟨_, rfl⟩
  · simp only
    split
    · exact ⟨_, rfl⟩
    · exact lerPontosLaco_total ng _ _ _ (Nat.lt_succ_self _)

theorem lerRotas_total (listP : List Ponto) (arq : Option Texto) :
    ∃ r, Planejador.lerRotas ng listP arq = some r := by
  unfold Planejador.lerRotas
  split
  · exact ⟨_, rfl⟩
  · simp only
    split
    · exact ⟨_, rfl⟩
    · exact lerRotasLaco_total ng listP _ _ _ (Nat.lt_succ_self _)

theorem lerPontos_ok (arq : Option Texto) (L : List Ponto)
    (h : Planejador.lerPontos ng arq = some (Except.ok L)) :
    (∀ P ∈ L, P.id.valid = true) ∧ (L.map Ponto.id).Nodup := by
  unfold Planejador.lerPontos at h
  split at h
  · simp at h
  · simp only at h
    split at h
    · simp at h
    · exact lerPontosLaco_ok ng _ _ [] L h (by simp) (by simp)

theorem lerRotas_ok (listP : List Ponto) (arq : Option Texto) (L : List Rota)
    (h : Planejador.lerRotas ng listP arq = some (Except.ok L)) :
    (∀ R ∈ L, RotaAceita listP R) ∧ (L.map Rota.id).Nodup := by
  unfold Planejador.lerRotas at h
  split at h
  · simp at h
  · simp only at h
    split at h
    · simp at h
    · exact lerRotasLaco_ok ng listP _ _ [] L h (by simp) (by simp)

theorem getPonto_resolve (M : Planejador) (e : IDPonto) (hv : e.valid = true)
    (hm : e ∈ M.pontos.map Ponto.id) : (M.getPonto e).valid = true := by
  unfold Planejador.getPonto
  split
  · rename_i P hP
    obtain ⟨_, hid⟩ := find_ponto_some M.pontos e P hP
    unfold Ponto.valid
    rw [hid]
    exact hv
  · rename_i hnone
    exact absurd hm (find_ponto_none M.pontos e hnone)

/-- C8: `ler` always returns, and when it returns false the points and the routes of the map
are what they were before the call; the map is replaced only when `ler` returns true. -/
theorem ler_tudo_ou_nada (M : Planejador) (numGet : NumGet)
    (arq_pontos arq_rotas : Option Texto) :
    (∃ r, M.ler numGet arq_pontos arq_rotas = some r) ∧
    (∀ M1, M.ler numGet arq_pontos arq_rotas = some (false, M1) →
      M1.pontos = M.pontos ∧ M1.rotas = M.rotas) ∧
    (∀ b M1, M.ler numGet arq_pontos arq_rotas = some (b, M1) → M1 ≠ M → b = true) := by
  unfold Planejador.ler
  obtain ⟨rp, hrp⟩ := lerPontos_total numGet arq_pontos
  rw [hrp]
  cases rp with
  | error i =>
    refine ⟨⟨_, rfl⟩, ?_, ?_⟩
    · intro M1 h
      simp only [Option.some.injEq, Prod.mk.injEq, true_and] at h
      subst h
      exact ⟨rfl, rfl⟩
    · intro b M1 h hne
      simp only [Option.some.injEq, Prod.mk.injEq] at h
      exact absurd h.2.symm hne
  | ok listP =>
    obtain ⟨rr, hrr⟩ := lerRotas_total numGet listP arq_rotas
    simp only [hrr]
    cases rr with
    | error i =>
      refine ⟨⟨_, rfl⟩, ?_, ?_⟩
      · intro M1 h
        simp only [Option.some.injEq, Prod.mk.injEq, true_and] at h
        subst h
        exact ⟨rfl, rfl⟩
      · intro b M1 h hne
        simp only [Option.some.injEq, Prod.mk.injEq] at h
        exact absurd h.2.symm hne
    | ok listR =>
      refine ⟨⟨_, rfl⟩, ?_, ?_⟩
      · intro M1 h
        simp at h
      · intro b M1 h _
        simp only [Option.some.injEq, Prod.mk.injEq] at h
        exact h.1.symm

/-- C9: when `ler` returns true the new map satisfies the map invariants (point ids pairwise
distinct, route ids valid and pairwise distinct, both endpoints of every route resolve through
`getPonto`) and every point id is valid; the map after `clear` satisfies them too. -/
theorem ler_mapa_ok (M : Planejador) (numGet : NumGet) (arq_pontos arq_rotas : Option Texto) :
    (∀ M1, M.ler numGet arq_pontos arq_rotas = some (true, M1) →
      MapaOk M1 ∧ ∀ P ∈ M1.pontos, P.id.valid = true) ∧
    (MapaOk M.clear ∧ ∀ P ∈ M.clear.pontos, P.id.valid = true) := by
  constructor
  · intro M1 h
    unfold Planejador.ler at h
    split at h
    · simp at h
    · simp at h
    · rename_i listP hP
      split at h
      · simp at h
      · simp at h
      · rename_i listR hR
        simp only [Option.some.injEq, Prod.mk.injEq, true_and] at h
        subst h
        obtain ⟨hpv, hpn⟩ := lerPontos_ok numGet arq_pontos listP hP
        obtain ⟨hrv, hrn⟩ := lerRotas_ok numGet listP arq_rotas listR hR
        refine ⟨⟨hpn, fun r hr => (hrv r hr).1, hrn, ?_, ?_⟩, hpv⟩
        · intro r hr
          exact getPonto_resolve _ _ (hrv r hr).2.1 (hrv r hr).2.2.1
        · intro r hr
          exact getPonto_resolve _ _ (hrv r hr).2.2.2.1 (hrv r hr).2.2.2.2
  · refine ⟨⟨by simp [Planejador.clear], by simp [Planejador.clear],
      by simp [Planejador.clear], by simp [Planejador.clear], by simp [Planejador.clear]⟩, ?_⟩
    simp [Planejador.clear]

end Ler2

section Alinha

variable (ng : NumGet)

theorem separa_append (d : Char) (b : Texto) : ∀ (a : Texto), d ∉ a →
    separa d (a ++ d :: b) = some (a, b) := by
  intro a
  induction a with
  | nil => intro _; simp [separa]
  | cons x xs ih =>
    intro h
    have hx : x ≠ d := fun e => h (by rw [e]; exact List.mem_cons_self _ _)
    have hxs : d ∉ xs := fun e => h (List.mem_cons_of_mem _ e)
    have := ih hxs
    rw [List.cons_append]
    unfold separa
    rw [if_neg hx, this]

theorem getline_campo (a b : Texto) (d : Char) (h : d ∉ a) :
    (Fluxo.abre (a ++ d :: b)).getline d = (Fluxo.abre b, a) := by
  unfold Fluxo.getline
  simp [Fluxo.abre, Fluxo.good, separa_append d b a h]

theorem lerDouble_campo (tok : Texto) (c : Char) (resto : Texto)
    (h : CampoNumerico ng tok c) :
    ((Fluxo.abre (tok ++ c :: resto)).lerDouble ng).1.fail = true ∨
    ((Fluxo.abre (tok ++ c :: resto)).lerDouble ng).1 = Fluxo.abre (c :: resto) := by
  obtain ⟨hne, hsp, hng⟩ := h
  obtain ⟨t0, ts, rfl⟩ := List.exists_cons_of_ne_nil hne
  have ht0 : isspace t0 = false := hsp t0 (by simp)
  have hdw : ((t0 :: ts) ++ c :: resto).dropWhile isspace = (t0 :: ts) ++ c :: resto := by
    rw [List.cons_append, List.dropWhile_cons_of_neg (by simp [ht0])]
  unfold Fluxo.lerDouble
  simp only [Fluxo.abre, Fluxo.good, Bool.not_false, Bool.and_self, Bool.not_true,
    Bool.false_eq_true, if_false, hdw]
  have hnil : ((t0 :: ts) ++ c :: resto).isEmpty = false := rfl
  simp only [hnil, Bool.false_eq_true, if_false]
  cases h1 : (ng ((t0 :: ts) ++ c :: resto)).1 with
  | none => left; rfl
  | some v =>
    right
    rcases hng resto with h2 | h2
    · rw [h1] at h2; simp at h2
    · simp only [h2, List.drop_left, List.isEmpty_cons]

theorem ignore1_abre (c : Char) (r : Texto) : (Fluxo.abre (c :: r)).ignore1 = Fluxo.abre r := rfl

theorem ws_linha (resto : Texto) :
    (Fluxo.abre ('\n' :: resto)).ws =
      ⟨resto.dropWhile isspace, false, (resto.dropWhile isspace).isEmpty⟩ := by
  unfold Fluxo.ws
  have : isspace '\n' = true := by decide
  simp [Fluxo.abre, Fluxo.good, List.dropWhile_cons_of_pos this]

theorem set_valido_ponto (t : Texto) (h : (IDPonto.mk t).valid = true) :
    IDPonto.set t = ⟨t⟩ := by
  unfold IDPonto.set
  rw [if_pos h]

theorem set_valido_rota (t : Texto) (h : (IDRota.mk t).valid = true) :
    IDRota.set t = ⟨t⟩ := by
  unfold IDRota.set
  rw [if_pos h]

/-- What `lerPonto` does when it ends without exception. -/
theorem lerPonto_inv (s : Fluxo) (P : Ponto) (s1 : Fluxo)
    (h : Planejador.lerPonto ng s = Except.ok (P, s1)) :
    (((s.getline ';').1.getline ';').1.lerDouble ng).1.fail = false ∧
    ((((s.getline ';').1.getline ';').1.lerDouble ng).1.ignore1.lerDouble ng).1.fail = false ∧
    P.id = IDPonto.set (s.getline ';').2 ∧
    s1 = ((((s.getline ';').1.getline ';').1.lerDouble ng).1.ignore1.lerDouble ng).1.ws := by
  unfold Planejador.lerPonto at h
  simp only at h
  split at h
  · simp at h
  · split at h
    · simp at h
    · split at h
      · simp at h
      · split at h
        · simp at h
        · rename_i h6
          split at h
          · simp at h
          · rename_i h7
            simp only [Except.ok.injEq, Prod.mk.injEq] at h
            obtain ⟨rfl, rfl⟩ := h
            exact ⟨by simpa using h6, by simpa using h7, rfl, rfl⟩

/-- Reading a well-formed line of points: an exception, or the point with the id of the line is
read and the stream stands after the line and the white space that follows it. -/
theorem lerPonto_linha (r : RegPonto) (hr : r.BemFormado ng) (resto : Texto) :
    (∃ i, Planejador.lerPonto ng (Fluxo.abre (r.texto resto)) = Except.error i) ∨
    (∃ P, P.id = ⟨r.id⟩ ∧ Planejador.lerPonto ng (Fluxo.abre (r.texto resto)) =
      Except.ok (P, ⟨resto.dropWhile isspace, false, (resto.dropWhile isspace).isEmpty⟩)) := by
  cases hres : Planejador.lerPonto ng (Fluxo.abre (r.texto resto)) with
  | error i => exact Or.inl ⟨i, rfl⟩
  | ok ps =>
    right
    obtain ⟨P, s1⟩ := ps
    obtain ⟨h6, h7, hid, hs1⟩ := lerPonto_inv ng _ P s1 hres
    unfold RegPonto.texto at h6 h7 hid hs1
    rw [getline_campo _ _ _ hr.id_sem_sep] at h6 h7 hid hs1
    simp only at h6 h7 hid hs1
    rw [getline_campo _ _ _ hr.nome_sem_sep] at h6 h7 hs1
    simp only at h6 h7 hs1
    rcases lerDouble_campo ng r.lat ';' (r.lon ++ '\n' :: resto) hr.lat_ok with h | h
    · rw [h6] at h; simp at h
    · rw [h, ignore1_abre] at h7 hs1
      rcases lerDouble_campo ng r.lon '\n' resto hr.lon_ok with h2 | h2
      · rw [h7] at h2; simp at h2
      · rw [h2, ws_linha] at hs1
        refine ⟨P, ?_, ?_⟩
        · rw [hid, set_valido_ponto _ hr.id_valido]
        · rw [hs1]

end Alinha

section Duplicados

variable (ng : NumGet)

theorem SemEspaco.dropWhile {t : Texto} (h : SemEspaco t) : t.dropWhile isspace = t := by
  obtain ⟨hne, hsp⟩ := h
  obtain ⟨t0, ts, rfl⟩ := List.exists_cons_of_ne_nil hne
  have ht0 : isspace t0 = false := hsp t0 (by simp)
  rw [List.dropWhile_cons_of_neg (by simp [ht0])]

theorem semEspaco_ponto (t resto : Texto) (h : (IDPonto.mk t).valid = true) :
    SemEspaco (t ++ resto) := by
  unfold IDPonto.valid at h
  simp only [Bool.and_eq_true, decide_eq_true_eq] at h
  cases t with
  | nil => simp at h
  | cons c cs =>
    simp only [List.head?_cons, Option.some.injEq] at h
    refine ⟨by simp, ?_⟩
    intro x hx
    simp only [List.cons_append, List.head?_cons, Option.mem_def, Option.some.injEq] at hx
    rw [← hx, h.2]
    decide

theorem semEspaco_rota (t resto : Texto) (h : (IDRota.mk t).valid = true) :
    SemEspaco (t ++ resto) := by
  unfold IDRota.valid at h
  simp only [Bool.and_eq_true, decide_eq_true_eq] at h
  cases t with
  | nil => simp at h
  | cons c cs =>
    simp only [List.head?_cons, Option.some.injEq] at h
    refine ⟨by simp, ?_⟩
    intro x hx
    simp only [List.cons_append, List.head?_cons, Option.mem_def, Option.some.injEq] at hx
    rw [← hx, h.2]
    decide

theorem textoPontos_semEspaco (rs : List RegPonto) (hbf : ∀ r ∈ rs, r.BemFormado ng)
    (resto : Texto) (hresto : SemEspaco resto) : SemEspaco (textoPontos rs resto) := by
  cases rs with
  | nil => exact hresto
  | cons r rs =>
    exact semEspaco_ponto r.id _ (hbf r (List.mem_cons_self _ _)).id_valido

theorem regPonto_texto_length (r : RegPonto) (resto : Texto) :
    resto.length < (r.texto resto).length := by
  simp only [RegPonto.texto, List.length_append, List.length_cons]
  omega

theorem find_ponto_mem (L : List Ponto) (p : IDPonto) (h : p ∈ L.map Ponto.id) :
    ∃ Q, L.find? (fun Q => decide (Q.id = p)) = some Q := by
  cases hf : L.find? (fun Q => decide (Q.id = p)) with
  | none => exact absurd h (find_ponto_none L p hf)
  | some Q => exact ⟨Q, rfl⟩

theorem lerPontosLaco_succ (f : Nat) (s : Fluxo) (listP : List Ponto) :
    Planejador.lerPontosLaco ng (f + 1) s listP =
      match Planejador.lerPonto ng s with
      | Except.error i => some (Except.error i)
      | Except.ok (P, s1) =>
        match listP.find? (fun Q => decide (Q.id = P.id)) with
        | some _ => some (Except.error 8)
        | none =>
          if s1.eof then some (Except.ok (listP ++ [P]))
          else Planejador.lerPontosLaco ng f s1 (listP ++ [P]) := rfl

/-- Reading well-formed lines of points: an exception, or the loop goes on after them with a
list that holds the points read before and a point for the id of each line. -/
theorem lerPontosLaco_prefixo (resto : Texto) (hresto : SemEspaco resto) :
    ∀ (pre : List RegPonto), (∀ r ∈ pre, r.BemFormado ng) →
    ∀ (listP : List Ponto) (fuel : Nat), (textoPontos pre resto).length < fuel →
    (∃ i, Planejador.lerPontosLaco ng fuel (Fluxo.abre (textoPontos pre resto)) listP =
      some (Except.error i)) ∨
    (∃ fuel1 L1, resto.length < fuel1 ∧
      (∀ r ∈ pre, (⟨r.id⟩ : IDPonto) ∈ L1.map Ponto.id) ∧ (∀ P ∈ listP, P ∈ L1) ∧
      Planejador.lerPontosLaco ng fuel (Fluxo.abre (textoPontos pre resto)) listP =
        Planejador.lerPontosLaco ng fuel1 (Fluxo.abre resto) L1) := by
  intro pre
  induction pre with
  | nil =>
    intro _ listP fuel hf
    exact Or.inr ⟨fuel, listP, hf, by simp, fun P h => h, rfl⟩
  | cons r rs ih =>
    intro hbf listP fuel hf
    have hbf2 : ∀ x ∈ rs, x.BemFormado ng := fun x hx => hbf x (List.mem_cons_of_mem _ hx)
    have hT := textoPontos_semEspaco ng rs hbf2 resto hresto
    have htxt : textoPontos (r :: rs) resto = r.texto (textoPontos rs resto) := rfl
    rw [htxt] at hf ⊢
    have hlen := regPonto_texto_length r (textoPontos rs resto)
    obtain ⟨f, rfl⟩ : ∃ f, fuel = f + 1 := ⟨fuel - 1, by omega⟩
    rw [lerPontosLaco_succ]
    rcases lerPonto_linha ng r (hbf r (List.mem_cons_self _ _)) (textoPontos rs resto) with
      ⟨i, hi⟩ | ⟨P, hPid, hP⟩
    · rw [hi]; exact Or.inl ⟨i, rfl⟩
    · rw [hP, hT.dropWhile]
      simp only
      cases hfind : listP.find? (fun Q => decide (Q.id = P.id)) with
      | some Q => exact Or.inl ⟨8, rfl⟩
      | none =>
        have hne : (textoPontos rs resto).isEmpty = false := by
          cases hx : textoPontos rs resto with
          | nil => exact absurd hx hT.1
          | cons _ _ => rfl
        simp only [Fluxo.eof, hne, Bool.false_eq_true, if_false]
        rcases ih hbf2 (listP ++ [P]) f (by omega) with h | ⟨fuel1, L1, h1, h2, h3, h4⟩
        · exact Or.inl h
        · refine Or.inr ⟨fuel1, L1, h1, ?_, ?_, h4⟩
          · intro x hx
            rcases List.mem_cons.mp hx with rfl | hx
            · rw [← hPid]
              exact List.mem_map.mpr ⟨P, h3 P (by simp), rfl⟩
            · exact h2 x hx
          · intro Q hQ
            exact h3 Q (List.mem_append_left _ hQ)

/-- A line that starts with an id already in the list ends the loop of points with an
exception. -/
theorem lerPontosLaco_duplicado (dup q : Texto) (hv : (IDPonto.mk dup).valid = true)
    (hsep : ';' ∉ dup) (L1 : List Ponto) (hmem : (⟨dup⟩ : IDPonto) ∈ L1.map Ponto.id)
    (fuel : Nat) (hf : 0 < fuel) :
    ∃ i, Planejador.lerPontosLaco ng fuel (Fluxo.abre (dup ++ ';' :: q)) L1 =
      some (Except.error i) := by
  obtain ⟨f, rfl⟩ : ∃ f, fuel = f + 1 := ⟨fuel - 1, by omega⟩
  rw [lerPontosLaco_succ]
  cases hres : Planejador.lerPonto ng (Fluxo.abre (dup ++ ';' :: q)) with
  | error i => exact ⟨i, rfl⟩
  | ok ps =>
    obtain ⟨P, s1⟩ := ps
    obtain ⟨_, _, hid, _⟩ := lerPonto_inv ng _ P s1 hres
    rw [getline_campo _ _ _ hsep, set_valido_ponto _ hv] at hid
    obtain ⟨Q, hQ⟩ := find_ponto_mem L1 ⟨dup⟩ hmem
    simp only [hid, hQ]
    exact ⟨8, rfl⟩

theorem lerPontos_duplicado (pre : List RegPonto) (dup q : Texto)
    (hbf : ∀ r ∈ pre, r.BemFormado ng) (hdup : dup ∈ pre.map RegPonto.id) :
    ∃ i, Planejador.lerPontos ng
      (some (cabecalhoPontos ++ '\n' :: textoPontos pre (dup ++ ';' :: q))) =
      some (Except.error i) := by
  obtain ⟨r0, hr0, hr0id⟩ := List.mem_map.mp hdup
  have hv : (IDPonto.mk dup).valid = true := by rw [← hr0id]; exact (hbf r0 hr0).id_valido
  have hsep : ';' ∉ dup := by rw [← hr0id]; exact (hbf r0 hr0).id_sem_sep
  have hcab : '\n' ∉ cabecalhoPontos := by decide
  unfold Planejador.lerPontos
  simp only [getline_campo _ _ _ hcab]
  have : (((Fluxo.abre (textoPontos pre (dup ++ ';' :: q))).fail ||
      decide (cabecalhoPontos ≠ cabecalhoPontos)) = true) = False := by
    simp [Fluxo.abre, Fluxo.fail]
  simp only [this, if_false]
  rcases lerPontosLaco_prefixo ng (dup ++ ';' :: q) (semEspaco_ponto dup _ hv) pre hbf []
    ((Fluxo.abre (textoPontos pre (dup ++ ';' :: q))).buf.length + 1)
    (Nat.lt_succ_self _) with h | ⟨fuel1, L1, h1, h2, _, h4⟩
  · exact h
  · rw [h4]
    refine lerPontosLaco_duplicado ng dup q hv hsep L1 ?_ fuel1 (by omega)
    have := h2 r0 hr0
    rw [hr0id] at this
    exact this

end Duplicados

section DuplicadosRotas

variable (ng : NumGet)

/-- What `lerRota` does when it ends without exception. -/
theorem lerRota_inv (listP : List Ponto) (s : Fluxo) (R : Rota) (s1 : Fluxo)
    (h : Planejador.lerRota ng listP s = Except.ok (R, s1)) :
    (((((s.getline ';').1.getline ';').1.getline ';').1.getline ';').1.lerDouble ng).1.fail
      = false ∧
    R.id = IDRota.set (s.getline ';').2 ∧
    R.extremidade0 = IDPonto.set (((s.getline ';').1.getline ';').1.getline ';').2 ∧
    R.extremidade1 =
      IDPonto.set ((((s.getline ';').1.getline ';').1.getline ';').1.getline ';').2 ∧
    R.comprimento =
      (((((s.getline ';').1.getline ';').1.getline ';').1.getline ';').1.lerDouble ng).2 ∧
    s1 = (((((s.getline ';').1.getline ';').1.getline ';').1.getline ';').1.lerDouble ng).1.ws
    := by
  unfold Planejador.lerRota at h
  simp only at h
  split at h
  · simp at h
  · split at h
    · simp at h
    · split at h
      · simp at h
      · split at h
        · simp at h
        · split at h
          · simp at h
          · split at h
            · simp at h
            · split at h
              · simp at h
              · split at h
                · simp at h
                · split at h
                  · simp at h
                  · split at h
                    · simp at h
                    · rename_i h12
                      simp only [Except.ok.injEq, Prod.mk.injEq] at h
                      obtain ⟨rfl, rfl⟩ := h
                      exact ⟨by simpa using h12, rfl, rfl, rfl, rfl, rfl⟩

/-- Reading a well-formed line of routes: an exception, or the route with the id of the line is
read and the stream stands after the line and the white space that follows it. -/
theorem lerRota_linha (listP : List Ponto) (r : RegRota) (hr : r.BemFormado ng)
    (resto : Texto) :
    (∃ i, Planejador.lerRota ng listP (Fluxo.abre (r.texto resto)) = Except.error i) ∨
    (∃ R, R.id = ⟨r.id⟩ ∧ Planejador.lerRota ng listP (Fluxo.abre (r.texto resto)) =
      Except.ok (R, ⟨resto.dropWhile isspace, false, (resto.dropWhile isspace).isEmpty⟩)) := by
  cases hres : Planejador.lerRota ng listP (Fluxo.abre (r.texto resto)) with
  | error i => exact Or.inl ⟨i, rfl⟩
  | ok ps =>
    right
    obtain ⟨R, s1⟩ := ps
    obtain ⟨h12, hid, _, _, _, hs1⟩ := lerRota_inv ng listP _ R s1 hres
    unfold RegRota.texto at h12 hid hs1
    rw [getline_campo _ _ _ hr.id_sem_sep] at h12 hid hs1
    simp only at h12 hid hs1
    rw [getline_campo _ _ _ hr.nome_sem_sep] at h12 hs1
    simp only at h12 hs1
    rw [getline_campo _ _ _ hr.ext0_sem_sep] at h12 hs1
    simp only at h12 hs1
    rw [getline_campo _ _ _ hr.ext1_sem_sep] at h12 hs1
    simp only at h12 hs1
    rcases lerDouble_campo ng r.comp '\n' resto hr.comp_ok with h | h
    · rw [h12] at h; simp at h
    · rw [h, ws_linha] at hs1
      refine ⟨R, ?_, ?_⟩
      · rw [hid, set_valido_rota _ hr.id_valido]
      · rw [hs1]

theorem textoRotas_semEspaco (rs : List RegRota) (hbf : ∀ r ∈ rs, r.BemFormado ng)
    (resto : Texto) (hresto : SemEspaco resto) : SemEspaco (textoRotas rs resto) := by
  cases rs with
  | nil => exact hresto
  | cons r rs =>
    exact semEspaco_rota r.id _ (hbf r (List.mem_cons_self _ _)).id_valido

theorem regRota_texto_length (r : RegRota) (resto : Texto) :
    resto.length < (r.texto resto).length := by
  simp only [RegRota.texto, List.length_append, List.length_cons]
  omega

theorem find_rota_mem (L : List Rota) (p : IDRota) (h : p ∈ L.map Rota.id) :
    ∃ Q, L.find? (fun Q => decide (Q.id = p)) = some Q := by
  cases hf : L.find? (fun Q => decide (Q.id = p)) with
  | none => exact absurd h (find_rota_none L p hf)
  | some Q => exact ⟨Q, rfl⟩

theorem lerRotasLaco_succ (listP : List Ponto) (f : Nat) (s : Fluxo) (listR : List Rota) :
    Planejador.lerRotasLaco ng listP (f + 1) s listR =
      match Planejador.lerRota ng listP s with
      | Except.error i => some (Except.error i)
      | Except.ok (R, s1) =>
        match listR.find? (fun Q => decide (Q.id = R.id)) with
        | some _ => some (Except.error 13)
        | none =>
          if s1.eof then some (Except.ok (listR ++ [R]))
          else Planejador.lerRotasLaco ng listP f s1 (listR ++ [R]) := rfl

/-- Reading well-formed lines of routes: an exception, or the loop goes on after them with a
list that holds the routes read before and a route for the id of each line. -/
theorem lerRotasLaco_prefixo (listP : List Ponto) (resto : Texto) (hresto : SemEspaco resto) :
    ∀ (pre : List RegRota), (∀ r ∈ pre, r.BemFormado ng) →
    ∀ (listR : List Rota) (fuel : Nat), (textoRotas pre resto).length < fuel →
    (∃ i, Planejador.lerRotasLaco ng listP fuel (Fluxo.abre (textoRotas pre resto)) listR =
      some (Except.error i)) ∨
    (∃ fuel1 L1, resto.length < fuel1 ∧
      (∀ r ∈ pre, (⟨r.id⟩ : IDRota) ∈ L1.map Rota.id) ∧ (∀ R ∈ listR, R ∈ L1) ∧
      Planejador.lerRotasLaco ng listP fuel (Fluxo.abre (textoRotas pre resto)) listR =
        Planejador.lerRotasLaco ng listP fuel1 (Fluxo.abre resto) L1) := by
  intro pre
  induction pre with
  | nil =>
    intro _ listR fuel hf
    exact Or.inr ⟨fuel, listR, hf, by simp, fun P h => h, rfl⟩
  | cons r rs ih =>
    intro hbf listR fuel hf
    have hbf2 : ∀ x ∈ rs, x.BemFormado ng := fun x hx => hbf x (List.mem_cons_of_mem _ hx)
    have hT := textoRotas_semEspaco ng rs hbf2 resto hresto
    have htxt : textoRotas (r :: rs) resto = r.texto (textoRotas rs resto) := rfl
    rw [htxt] at hf ⊢
    have hlen := regRota_texto_length r (textoRotas rs resto)
    obtain ⟨f, rfl⟩ : ∃ f, fuel = f + 1 := ⟨fuel - 1, by omega⟩
    rw [lerRotasLaco_succ]
    rcases lerRota_linha ng listP r (hbf r (List.mem_cons_self _ _)) (textoRotas rs resto) with
      ⟨i, hi⟩ | ⟨R, hRid, hR⟩
    · rw [hi]; exact Or.inl ⟨i, rfl⟩
    · rw [hR, hT.dropWhile]
      simp only
      cases hfind : listR.find? (fun Q => decide (Q.id = R.id)) with
      | some Q => exact Or.inl ⟨13, rfl⟩
      | none =>
        have hne : (textoRotas rs resto).isEmpty = false := by
          cases hx : textoRotas rs resto with
          | nil => exact absurd hx hT.1
          | cons _ _ => rfl
        simp only [Fluxo.eof, hne, Bool.false_eq_true, if_false]
        rcases ih hbf2 (listR ++ [R]) f (by omega) with h | ⟨fuel1, L1, h1, h2, h3, h4⟩
        · exact Or.inl h
        · refine Or.inr ⟨fuel1, L1, h1, ?_, ?_, h4⟩
          · intro x hx
            rcases List.mem_cons.mp hx with rfl | hx
            · rw [← hRid]
              exact List.mem_map.mpr ⟨R, h3 R (by simp), rfl⟩
            · exact h2 x hx
          · intro Q hQ
            exact h3 Q (List.mem_append_left _ hQ)

/-- A line that starts with an id already in the list ends the loop of routes with an
exception. -/
theorem lerRotasLaco_duplicado (listP : List Ponto) (dup q : Texto)
    (hv : (IDRota.mk dup).valid = true)
    (hsep : ';' ∉ dup) (L1 : List Rota) (hmem : (⟨dup⟩ : IDRota) ∈ L1.map Rota.id)
    (fuel : Nat) (hf : 0 < fuel) :
    ∃ i, Planejador.lerRotasLaco ng listP fuel (Fluxo.abre (dup ++ ';' :: q)) L1 =
      some (Except.error i) := by
  obtain ⟨f, rfl⟩ : ∃ f, fuel = f + 1 := ⟨fuel - 1, by omega⟩
  rw [lerRotasLaco_succ]
  cases hres : Planejador.lerRota ng listP (Fluxo.abre (dup ++ ';' :: q)) with
  | error i => exact ⟨i, rfl⟩
  | ok ps =>
    obtain ⟨R, s1⟩ := ps
    obtain ⟨_, hid, _⟩ := lerRota_inv ng listP _ R s1 hres
    rw [getline_campo _ _ _ hsep, set_valido_rota _ hv] at hid
    obtain ⟨Q, hQ⟩ := find_rota_mem L1 ⟨dup⟩ hmem
    simp only [hid, hQ]
    exact ⟨13, rfl⟩

theorem lerRotas_duplicado (listP : List Ponto) (pre : List RegRota) (dup q : Texto)
    (hbf : ∀ r ∈ pre, r.BemFormado ng) (hdup : dup ∈ pre.map RegRota.id) :
    ∃ i, Planejador.lerRotas ng listP
      (some (cabecalhoRotas ++ '\n' :: textoRotas pre (dup ++ ';' :: q))) =
      some (Except.error i) := by
  obtain ⟨r0, hr0, hr0id⟩ := List.mem_map.mp hdup
  have hv : (IDRota.mk dup).valid = true := by rw [← hr0id]; exact (hbf r0 hr0).id_valido
  have hsep : ';' ∉ dup := by rw [← hr0id]; exact (hbf r0 hr0).id_sem_sep
  have hcab : '\n' ∉ cabecalhoRotas := by decide
  unfold Planejador.lerRotas
  simp only [getline_campo _ _ _ hcab]
  have : (((Fluxo.abre (textoRotas pre (dup ++ ';' :: q))).fail ||
      decide (cabecalhoRotas ≠ cabecalhoRotas)) = true) = False := by
    simp [Fluxo.abre, Fluxo.fail]
  simp only [this, if_false]
  rcases lerRotasLaco_prefixo ng listP (dup ++ ';' :: q) (semEspaco_rota dup _ hv) pre hbf []
    ((Fluxo.abre (textoRotas pre (dup ++ ';' :: q))).buf.length + 1)
    (Nat.lt_succ_self _) with h | ⟨fuel1, L1, h1, h2, _, h4⟩
  · exact h
  · rw [h4]
    refine lerRotasLaco_duplicado ng listP dup q hv hsep L1 ?_ fuel1 (by omega)
    have := h2 r0 hr0
    rw [hr0id] at this
    exact this

end DuplicadosRotas

/-- C10: a file of points made of well-formed lines followed by a line whose id is the id of one
of them, and whatever comes after, makes `ler` return false and leave the map as it was; so
does a file of routes of that shape, whatever the file of points is. -/
theorem ler_rejeita_id_duplicado (M : Planejador) (numGet : NumGet) :
    (∀ (pre : List RegPonto) (dup q : Texto) (arq_rotas : Option Texto),
      (∀ r ∈ pre, r.BemFormado numGet) → dup ∈ pre.map RegPonto.id →
      M.ler numGet (some (cabecalhoPontos ++ '\n' :: textoPontos pre (dup ++ ';' :: q)))
        arq_rotas = some (false, M)) ∧
    (∀ (pre : List RegRota) (dup q : Texto) (arq_pontos : Option Texto),
      (∀ r ∈ pre, r.BemFormado numGet) → dup ∈ pre.map RegRota.id →
      M.ler numGet arq_pontos
        (some (cabecalhoRotas ++ '\n' :: textoRotas pre (dup ++ ';' :: q))) =
        some (false, M)) := by
  constructor
  · intro pre dup q arq_rotas hbf hdup
    obtain ⟨i, hi⟩ := lerPontos_duplicado numGet pre dup q hbf hdup
    unfold Planejador.ler
    rw [hi]
  · intro pre dup q arq_pontos hbf hdup
    unfold Planejador.ler
    obtain ⟨rp, hrp⟩ := lerPontos_total numGet arq_pontos
    rw [hrp]
    cases rp with
    | error i => rfl
    | ok listP =>
      obtain ⟨i, hi⟩ := lerRotas_duplicado numGet listP pre dup q hbf hdup
      simp only [hi]

/-! ## Concrete loads -/

theorem arquivos_lidos :
    mapaSemRotas.ler numGetDec (some arquivoPontos) (some arquivoRotas) = some (true, mapaLido) := by
  decide!

theorem ler_tudo_ou_nada_witness :
    mapaTeste.ler numGetDec (some arquivoPontos) none = some (false, mapaTeste) ∧
    (mapaTeste.pontos = mapaTeste.pontos ∧ mapaTeste.rotas = mapaTeste.rotas) :=
  ⟨by decide!,
    (ler_tudo_ou_nada mapaTeste numGetDec (some arquivoPontos) none).2.1 mapaTeste (by decide!)⟩

theorem ler_mapa_ok_witness :
    mapaSemRotas.ler numGetDec (some arquivoPontos) (some arquivoRotas) = some (true, mapaLido) ∧
    (MapaOk mapaLido ∧ ∀ P ∈ mapaLido.pontos, P.id.valid = true) :=
  ⟨arquivos_lidos,
    (ler_mapa_ok mapaSemRotas numGetDec (some arquivoPontos) (some arquivoRotas)).1 mapaLido
      arquivos_lidos⟩

theorem regPontoA_bemFormado : regPontoA.BemFormado numGetDec :=
  ⟨by decide, by decide, by decide,
    ⟨by decide, by decide, fun _ => Or.inr rfl⟩, ⟨by decide, by decide, fun _ => Or.inr rfl⟩⟩

theorem regRota1_bemFormado : regRota1.BemFormado numGetDec :=
  ⟨by decide, by decide, by decide, by decide, by decide,
    ⟨by decide, by decide, fun _ => Or.inr rfl⟩⟩

/-! ## Unknown endpoint -/

section Extremidade

variable (ng : NumGet)

/-- The file of routes made of the header, well-formed lines and the text `resto`: an exception
while the lines are read, or the loop of routes goes on at `resto`. -/
theorem lerRotas_prefixo (listP : List Ponto) (pre : List RegRota) (resto : Texto)
    (hbf : ∀ r ∈ pre, r.BemFormado ng) (hresto : SemEspaco resto) :
    (∃ i, Planejador.lerRotas ng listP (some (cabecalhoRotas ++ '\n' :: textoRotas pre resto)) =
      some (Except.error i)) ∨
    (∃ fuel1 L1, resto.length < fuel1 ∧ (∀ r ∈ pre, (⟨r.id⟩ : IDRota) ∈ L1.map Rota.id) ∧
      Planejador.lerRotas ng listP (some (cabecalhoRotas ++ '\n' :: textoRotas pre resto)) =
        Planejador.lerRotasLaco ng listP fuel1 (Fluxo.abre resto) L1) := by
  have hcab : '\n' ∉ cabecalhoRotas := by decide
  unfold Planejador.lerRotas
  simp only [getline_campo _ _ _ hcab]
  have : (((Fluxo.abre (textoRotas pre resto)).fail ||
      decide (cabecalhoRotas ≠ cabecalhoRotas)) = true) = False := by
    simp [Fluxo.abre, Fluxo.fail]
  simp only [this, if_false]
  rcases lerRotasLaco_prefixo ng listP resto hresto pre hbf []
    ((Fluxo.abre (textoRotas pre resto)).buf.length + 1)
    (Nat.lt_succ_self _) with h | ⟨fuel1, L1, h1, h2, _, h4⟩
  · exact Or.inl h
  · exact Or.inr ⟨fuel1, L1, h1, h2, h4⟩

theorem set_ponto_valid_inv (t : Texto) (h : (IDPonto.set t).valid = true) :
    IDPonto.set t = ⟨t⟩ := by
  unfold IDPonto.set at h ⊢
  by_cases hv : (IDPonto.mk t).valid = true
  · rw [if_pos hv]
  · rw [if_neg hv] at h
    exact absurd h (by decide)

/-- A line of routes one of whose endpoint fields is not the id of a point of `listP` is
refused by `lerRota`. -/
theorem lerRota_extremidade (listP : List Ponto) (id nome e0 e1 q : Texto)
    (h1 : ';' ∉ id) (h2 : ';' ∉ nome) (h3 : ';' ∉ e0) (h4 : ';' ∉ e1)
    (hext : (⟨e0⟩ : IDPonto) ∉ listP.map Ponto.id ∨ (⟨e1⟩ : IDPonto) ∉ listP.map Ponto.id) :
    ∃ i, Planejador.lerRota ng listP
      (Fluxo.abre (id ++ ';' :: (nome ++ ';' :: (e0 ++ ';' :: (e1 ++ ';' :: q))))) =
      Except.error i := by
  cases hres : Planejador.lerRota ng listP
      (Fluxo.abre (id ++ ';' :: (nome ++ ';' :: (e0 ++ ';' :: (e1 ++ ';' :: q))))) with
  | error i => exact ⟨i, rfl⟩
  | ok ps =>
    exfalso
    obtain ⟨R, s1⟩ := ps
    obtain ⟨_, _, a0, b0, a1, b1, _⟩ := lerRota_ok ng listP _ R s1 hres
    obtain ⟨_, _, c0, c1, _, _⟩ := lerRota_inv ng listP _ R s1 hres
    rw [getline_campo _ _ _ h1] at c0 c1
    simp only at c0 c1
    rw [getline_campo _ _ _ h2] at c0 c1
    simp only at c0 c1
    rw [getline_campo _ _ _ h3] at c0 c1
    simp only at c0 c1
    rw [getline_campo _ _ _ h4] at c1
    simp only at c1
    rw [c0] at a0 b0
    rw [c1] at a1 b1
    rw [set_ponto_valid_inv e0 a0] at b0
    rw [set_ponto_valid_inv e1 a1] at b1
    rcases hext with h | h
    · exact h b0
    · exact h b1

end Extremidade

/-- C11: a file of routes made of well-formed lines followed by a line one of whose two endpoint
fields is not the id of a point accepted from the file of points, and whatever comes after,
makes `ler` return false and leave the map, so also its routes, as it was. -/
theorem ler_rejeita_extremidade_desconhecida (M : Planejador) (numGet : NumGet)
    (arq_pontos : Option Texto) (pre : List RegRota) (id nome e0 e1 q : Texto)
    (hbf : ∀ r ∈ pre, r.BemFormado numGet) (hid : (IDRota.mk id).valid = true)
    (h1 : ';' ∉ id) (h2 : ';' ∉ nome) (h3 : ';' ∉ e0) (h4 : ';' ∉ e1)
    (hext : ∀ listP, Planejador.lerPontos numGet arq_pontos = some (Except.ok listP) →
      (⟨e0⟩ : IDPonto) ∉ listP.map Ponto.id ∨ (⟨e1⟩ : IDPonto) ∉ listP.map Ponto.id) :
    M.ler numGet arq_pontos (some (cabecalhoRotas ++ '\n' :: textoRotas pre
      (id ++ ';' :: (nome ++ ';' :: (e0 ++ ';' :: (e1 ++ ';' :: q)))))) = some (false, M) := by
  unfold Planejador.ler
  obtain ⟨rp, hrp⟩ := lerPontos_total numGet arq_pontos
  rw [hrp]
  cases rp with
  | error i => rfl
  | ok listP =>
    have hr : ∃ i, Planejador.lerRotas numGet listP (some (cabecalhoRotas ++ '\n' ::
        textoRotas pre (id ++ ';' :: (nome ++ ';' :: (e0 ++ ';' :: (e1 ++ ';' :: q)))))) =
        some (Except.error i) := by
      rcases lerRotas_prefixo numGet listP pre _ hbf (semEspaco_rota id _ hid) with
        h | ⟨fuel1, L1, hf, _, heq⟩
      · exact h
      · rw [heq]
        obtain ⟨f, rfl⟩ : ∃ f, fuel1 = f + 1 := ⟨fuel1 - 1, by omega⟩
        rw [lerRotasLaco_succ]
        obtain ⟨i, hi⟩ := lerRota_extremidade numGet listP id nome e0 e1 q h1 h2 h3 h4
          (hext listP hrp)
        rw [hi]
        exact ⟨i, rfl⟩
    obtain ⟨i, hi⟩ := hr
    simp only [hi]

/-! ## Lengths of either sign -/

section Comprimento

variable (ng : NumGet)

theorem lerDouble_lido (tok : Texto) (c : Char) (resto : Texto) (v : ℚ)
    (hini : SemEspaco tok) (h : ng (tok ++ c :: resto) = (some v, tok.length)) :
    (Fluxo.abre (tok ++ c :: resto)).lerDouble ng = (Fluxo.abre (c :: resto), v) := by
  obtain ⟨hne, hsp⟩ := hini
  obtain ⟨t0, ts, rfl⟩ := List.exists_cons_of_ne_nil hne
  have ht0 : isspace t0 = false := hsp t0 (by simp)
  have hdw : ((t0 :: ts) ++ c :: resto).dropWhile isspace = (t0 :: ts) ++ c :: resto := by
    rw [List.cons_append, List.dropWhile_cons_of_neg (by simp [ht0])]
  unfold Fluxo.lerDouble
  simp only [Fluxo.abre, Fluxo.good, Bool.not_false, Bool.and_self, Bool.not_true,
    Bool.false_eq_true, if_false, hdw]
  have hnil : ((t0 :: ts) ++ c :: resto).isEmpty = false := rfl
  simp only [hnil, Bool.false_eq_true, if_false, h, List.drop_left, List.isEmpty_cons]

theorem abre_fail (b : Texto) : (Fluxo.abre b).fail = false := rfl

/-- An accepted line is read by `lerRota` as its route, and the stream stands after the line and
the white space that follows it. -/
theorem lerRota_aceito (listP : List Ponto) (r : RegRota) (v : ℚ)
    (hr : r.Aceito ng listP v) (resto : Texto) :
    Planejador.lerRota ng listP (Fluxo.abre (r.texto resto)) =
      Except.ok (r.rota v,
        ⟨resto.dropWhile isspace, false, (resto.dropWhile isspace).isEmpty⟩) := by
  obtain ⟨Q0, hQ0⟩ := find_ponto_mem listP ⟨r.ext0⟩ hr.ext0_lido
  obtain ⟨Q1, hQ1⟩ := find_ponto_mem listP ⟨r.ext1⟩ hr.ext1_lido
  have hnome : ¬ r.nome.length < 2 := by have := hr.nome_longo; omega
  unfold Planejador.lerRota RegRota.texto
  simp only [getline_campo _ _ _ hr.id_sem_sep, getline_campo _ _ _ hr.nome_sem_sep,
    getline_campo _ _ _ hr.ext0_sem_sep, getline_campo _ _ _ hr.ext1_sem_sep,
    set_valido_rota _ hr.id_valido, set_valido_ponto _ hr.ext0_valido,
    set_valido_ponto _ hr.ext1_valido, hr.id_valido, hr.ext0_valido, hr.ext1_valido,
    hQ0, hQ1, lerDouble_lido ng r.comp '\n' resto v hr.comp_inicio (hr.comp_lido resto),
    ws_linha, abre_fail, hnome, Bool.not_true, Bool.false_eq_true, if_false,
    decide_False, Bool.or_self, RegRota.rota]

theorem textoRotas_nil_iff (rs : List RegRota) (resto : Texto) (h : rs ≠ []) :
    textoRotas rs resto ≠ [] := by
  cases rs with
  | nil => exact absurd rfl h
  | cons r rs =>
    show r.texto (textoRotas rs resto) ≠ []
    have := regRota_texto_length r (textoRotas rs resto)
    intro h0
    rw [h0] at this
    simp at this

/-- The loop of routes on accepted lines with pairwise distinct ids that are not yet in the
list: every line is appended to the list as its route. -/
theorem lerRotasLaco_aceitos (listP : List Ponto) :
    ∀ (rvs : List (RegRota × ℚ)), rvs ≠ [] → (∀ rv ∈ rvs, rv.1.Aceito ng listP rv.2) →
    ∀ (listR : List Rota) (fuel : Nat),
    ((listR.map Rota.id) ++ rvs.map (fun rv => (⟨rv.1.id⟩ : IDRota))).Nodup →
    (textoRotas (rvs.map Prod.fst) []).length < fuel →
    Planejador.lerRotasLaco ng listP fuel (Fluxo.abre (textoRotas (rvs.map Prod.fst) [])) listR =
      some (Except.ok (listR ++ rvs.map (fun rv => rv.1.rota rv.2))) := by
  intro rvs
  induction rvs with
  | nil => intro h; exact absurd rfl h
  | cons rv rest ih =>
    intro _ hac listR fuel hnd hf
    obtain ⟨r, v⟩ := rv
    have hr : r.Aceito ng listP v := hac (r, v) (List.mem_cons_self _ _)
    have hac2 : ∀ x ∈ rest, x.1.Aceito ng listP x.2 :=
      fun x hx => hac x (List.mem_cons_of_mem _ hx)
    have htxt : textoRotas (((r, v) :: rest).map Prod.fst) [] =
        r.texto (textoRotas (rest.map Prod.fst) []) := rfl
    rw [htxt] at hf ⊢
    have hlen := regRota_texto_length r (textoRotas (rest.map Prod.fst) [])
    obtain ⟨f, rfl⟩ : ∃ f, fuel = f + 1 := ⟨fuel - 1, by omega⟩
    rw [lerRotasLaco_succ, lerRota_aceito ng listP r v hr]
    simp only
    have hnotin : (⟨r.id⟩ : IDRota) ∉ listR.map Rota.id := by
      intro hmem
      have := (List.nodup_append.mp hnd).2.2
      exact this hmem (by simp)
    have hfind : listR.find? (fun Q => decide (Q.id = (r.rota v).id)) = none := by
      cases hx : listR.find? (fun Q => decide (Q.id = (r.rota v).id)) with
      | none => rfl
      | some Q =>
        have h1 := List.mem_of_find?_eq_some hx
        have h2 := List.find?_some hx
        exact absurd (List.mem_map.mpr ⟨Q, h1, by simpa using h2⟩) hnotin
    rw [hfind]
    simp only
    cases rest with
    | nil =>
      simp [textoRotas, Fluxo.eof]
    | cons rv2 rest2 =>
      have hT : SemEspaco (textoRotas ((rv2 :: rest2).map Prod.fst) []) :=
        semEspaco_rota rv2.1.id _ (hac2 rv2 (List.mem_cons_self _ _)).id_valido
      rw [hT.dropWhile]
      have hne : (textoRotas ((rv2 :: rest2).map Prod.fst) []).isEmpty = false := by
        cases hx : textoRotas ((rv2 :: rest2).map Prod.fst) [] with
        | nil => exact absurd hx hT.1
        | cons _ _ => rfl
      simp only [Fluxo.eof, hne, Bool.false_eq_true, if_false]
      have hnd2 : (((listR ++ [r.rota v]).map Rota.id) ++
          (rv2 :: rest2).map (fun rv => (⟨rv.1.id⟩ : IDRota))).Nodup := by
        have : ((listR ++ [r.rota v]).map Rota.id) ++
            (rv2 :: rest2).map (fun rv => (⟨rv.1.id⟩ : IDRota)) =
            (listR.map Rota.id) ++ ((r, v) :: rv2 :: rest2).map
              (fun rv => (⟨rv.1.id⟩ : IDRota)) := by
          simp [RegRota.rota]
        rw [this]
        exact hnd
      have := ih (by simp) hac2 (listR ++ [r.rota v]) f hnd2 (by omega)
      rw [show (Fluxo.abre (textoRotas ((rv2 :: rest2).map Prod.fst) [])) =
        ⟨textoRotas ((rv2 :: rest2).map Prod.fst) [], false, false⟩ from rfl] at this
      rw [this]
      simp

end Comprimento

/-- C12, amended: `ler` accepts a line of routes whenever its length field is read as a number,
of either sign. With the points `listP` accepted from the file of points, a file of routes made
of accepted lines with pairwise distinct ids makes `ler` return true, and every route is stored
with the value read from its length field as `comprimento`. -/
theorem ler_aceita_comprimento_lido (M : Planejador) (numGet : NumGet)
    (arq_pontos : Option Texto) (listP : List Ponto) (rvs : List (RegRota × ℚ))
    (hP : Planejador.lerPontos numGet arq_pontos = some (Except.ok listP)) (hne : rvs ≠ [])
    (hac : ∀ rv ∈ rvs, rv.1.Aceito numGet listP rv.2)
    (hnd : (rvs.map (fun rv => rv.1.id)).Nodup) :
    M.ler numGet arq_pontos (some (cabecalhoRotas ++ '\n' :: textoRotas (rvs.map Prod.fst) []))
      = some (true, ⟨listP, rvs.map (fun rv => rv.1.rota rv.2)⟩) := by
  have hcab : '\n' ∉ cabecalhoRotas := by decide
  have hnd2 : (([] : List Rota).map Rota.id ++
      rvs.map (fun rv => (⟨rv.1.id⟩ : IDRota))).Nodup := by
    simp only [List.map_nil, List.nil_append]
    have : rvs.map (fun rv => (⟨rv.1.id⟩ : IDRota)) =
        (rvs.map (fun rv => rv.1.id)).map IDRota.mk := by simp
    rw [this]
    exact hnd.map (fun a b h => by injection h)
  have hR : Planejador.lerRotas numGet listP
      (some (cabecalhoRotas ++ '\n' :: textoRotas (rvs.map Prod.fst) [])) =
      some (Except.ok (rvs.map (fun rv => rv.1.rota rv.2))) := by
    unfold Planejador.lerRotas
    simp only [getline_campo _ _ _ hcab]
    have : (((Fluxo.abre (textoRotas (rvs.map Prod.fst) [])).fail ||
        decide (cabecalhoRotas ≠ cabecalhoRotas)) = true) = False := by
      simp [Fluxo.abre, Fluxo.fail]
    simp only [this, if_false]
    have := lerRotasLaco_aceitos numGet listP rvs hne hac [] _ hnd2 (Nat.lt_succ_self _)
    simpa using this
  unfold Planejador.ler
  rw [hP]
  simp only [hR]

theorem arquivoPontos_lido :
    Planejador.lerPontos numGetDec (some arquivoPontos) = some (Except.ok mapaLido.pontos) := by
  have h := arquivos_lidos
  unfold Planejador.ler at h
  cases hP : Planejador.lerPontos numGetDec (some arquivoPontos) with
  | none => rw [hP] at h; simp at h
  | some r =>
    rw [hP] at h
    cases r with
    | error i => simp at h
    | ok L =>
      simp only at h
      split at h
      · simp at h
      · simp at h
      · simp only [Option.some.injEq, Prod.mk.injEq, true_and] at h
        have hL : L = mapaLido.pontos := congrArg Planejador.pontos h
        rw [hL]

theorem ler_rejeita_extremidade_desconhecida_witness :
    mapaTeste.ler numGetDec (some arquivoPontos)
      (some (cabecalhoRotas ++ '\n' :: textoRotas [regRota1]
        (['&', '9'] ++ ';' :: (['r', '9'] ++ ';' :: (['#', 'A'] ++ ';' ::
          (['#', 'Z'] ++ ';' :: ['5', '\n'])))))) = some (false, mapaTeste) :=
  ler_rejeita_extremidade_desconhecida mapaTeste numGetDec (some arquivoPontos) [regRota1]
    ['&', '9'] ['r', '9'] ['#', 'A'] ['#', 'Z'] ['5', '\n']
    (by simpa using regRota1_bemFormado) (by decide) (by decide) (by decide) (by decide)
    (by decide)
    (fun listP h => by
      rw [arquivoPontos_lido] at h
      simp only [Option.some.injEq, Except.ok.injEq] at h
      subst h
      exact Or.inr (by decide))

/-- C12 as stated fails: the file of routes `arquivoRotasNeg` has a line whose length field is
read as -5, and `ler` returns true and stores the route with `comprimento = -5`. -/
theorem ler_aceita_comprimento_negativo :
    mapaSemRotas.ler numGetDec (some arquivoPontos) (some arquivoRotasNeg) =
      some (true, mapaNeg) ∧
    (numGetDec ['-', '5', '\n']).1 = some (-5) ∧
    ∃ r ∈ mapaNeg.rotas, r.comprimento < 0 := by
  decide!

theorem numGetDec_menos5 (resto : Texto) :
    numGetDec (['-', '5'] ++ '\n' :: resto) = (some (-5), 2) := by
  simp [numGetDec]

theorem regRotaNeg_aceito : regRotaNeg.Aceito numGetDec mapaLido.pontos (-5) :=
  ⟨by decide, by decide, by decide, by decide, by decide, by decide, by decide, by decide,
    by decide, by decide, ⟨by decide, by decide⟩, numGetDec_menos5⟩

theorem ler_aceita_comprimento_lido_witness :
    mapaSemRotas.ler numGetDec (some arquivoPontos)
      (some (cabecalhoRotas ++ '\n' :: textoRotas ([(regRotaNeg, (-5 : ℚ))].map Prod.fst) [])) =
      some (true, ⟨mapaLido.pontos, [(regRotaNeg, (-5 : ℚ))].map (fun rv => rv.1.rota rv.2)⟩) :=
  ler_aceita_comprimento_lido mapaSemRotas numGetDec (some arquivoPontos) mapaLido.pontos
    [(regRotaNeg, -5)] arquivoPontos_lido (by simp)
    (by intro rv h; simp only [List.mem_singleton] at h; subst h; exact regRotaNeg_aceito)
    (by simp)

/-! ## Identifiers and lookup -/

/-- C13: an `IDPonto` holding `s` is valid exactly when `s` has two characters or more and the
first is `#`, an `IDRota` exactly when `s` has two characters or more and the first is `&`; the
default-constructed identifiers are not valid. -/
theorem id_valid_iff (s : Texto) :
    ((IDPonto.mk s).valid = true ↔ (2 ≤ s.length ∧ s.head? = some '#')) ∧
    ((IDRota.mk s).valid = true ↔ (2 ≤ s.length ∧ s.head? = some '&')) ∧
    ((IDPonto.mk s).valid = true ↔ ∃ c r, s = '#' :: c :: r) ∧
    ((IDRota.mk s).valid = true ↔ ∃ c r, s = '&' :: c :: r) ∧
    IDPonto.vazio.valid = false ∧ IDRota.vazio.valid = false := by
  refine ⟨by simp [IDPonto.valid], by simp [IDRota.valid], ?_, ?_, rfl, rfl⟩
  · constructor
    · intro h
      simp only [IDPonto.valid, Bool.and_eq_true, decide_eq_true_eq] at h
      match s, h with
      | [], h => simp at h
      | [_], h => simp at h
      | a :: c :: r, h =>
        simp only [List.head?_cons, Option.some.injEq] at h
        exact ⟨c, r, by rw [h.2]⟩
    · rintro ⟨c, r, rfl⟩
      simp [IDPonto.valid]
  · constructor
    · intro h
      simp only [IDRota.valid, Bool.and_eq_true, decide_eq_true_eq] at h
      match s, h with
      | [], h => simp at h
      | [_], h => simp at h
      | a :: c :: r, h =>
        simp only [List.head?_cons, Option.some.injEq] at h
        exact ⟨c, r, by rw [h.2]⟩
    · rintro ⟨c, r, rfl⟩
      simp [IDRota.valid]

/-- C14: the `set` of `planejador.cpp` does what the claim says (the identifier holds `s` when
`s` is valid and is the default-constructed identifier otherwise, and is valid only when it
holds `s`), but the inline `set` of `planejador.h` keeps the invalid string `abc`: the result is
not the default-constructed identifier. -/
theorem set_cabecalho_nao_limpa :
    (∀ s, (IDPonto.set s = if (IDPonto.mk s).valid then ⟨s⟩ else IDPonto.vazio) ∧
      ((IDPonto.set s).valid = true → (IDPonto.mk s).valid = true)) ∧
    (∀ s, (IDRota.set s = if (IDRota.mk s).valid then ⟨s⟩ else IDRota.vazio) ∧
      ((IDRota.set s).valid = true → (IDRota.mk s).valid = true)) ∧
    (IDPonto.mk ['a', 'b', 'c']).valid = false ∧
    IDPonto.set ['a', 'b', 'c'] = IDPonto.vazio ∧
    IDPonto.setCabecalho ['a', 'b', 'c'] = ⟨['a', 'b', 'c']⟩ ∧
    IDPonto.setCabecalho ['a', 'b', 'c'] ≠ IDPonto.vazio ∧
    IDRota.setCabecalho ['a', 'b', 'c'] ≠ IDRota.vazio := by
  refine ⟨?_, ?_, by decide, by decide, rfl, by decide, by decide⟩
  · intro s
    refine ⟨rfl, ?_⟩
    intro h
    unfold IDPonto.set at h
    by_cases hv : (IDPonto.mk s).valid = true
    · exact hv
    · rw [if_neg hv] at h
      exact absurd h (by decide)
  · intro s
    refine ⟨rfl, ?_⟩
    intro h
    unfold IDRota.set at h
    by_cases hv : (IDRota.mk s).valid = true
    · exact hv
    · rw [if_neg hv] at h
      exact absurd h (by decide)

theorem find_primeiro {α : Type} (p : α → Bool) : ∀ (l : List α) (x : α),
    l.find? p = some x → ∃ l1 l2, l = l1 ++ x :: l2 ∧ p x = true ∧ ∀ y ∈ l1, p y = false := by
  intro l
  induction l with
  | nil => intro x h; simp at h
  | cons a as ih =>
    intro x h
    by_cases ha : p a = true
    · rw [List.find?_cons_of_pos _ ha] at h
      simp only [Option.some.injEq] at h
      subst h
      exact ⟨[], as, rfl, ha, by simp⟩
    · rw [List.find?_cons_of_neg _ ha] at h
      obtain ⟨l1, l2, h1, h2, h3⟩ := ih x h
      refine ⟨a :: l1, l2, by rw [h1]; rfl, h2, ?_⟩
      intro y hy
      rcases List.mem_cons.mp hy with rfl | hy
      · simpa using ha
      · exact h3 y hy

/-- C15: when some point of the map has the id, `getPonto` returns the first such point; when
none has, it returns the default point, which is not valid; on a map whose point ids are all
valid, `getPonto(id)` is valid exactly when `id` is the id of a point of the map. The same holds
of `getRota` and the routes. -/
theorem getPonto_getRota_contrato (M : Planejador) :
    (∀ id, (∃ P ∈ M.pontos, P.id = id) →
      ∃ l1 P l2, M.pontos = l1 ++ P :: l2 ∧ P.id = id ∧ (∀ Q ∈ l1, Q.id ≠ id) ∧
        M.getPonto id = P) ∧
    (∀ id, (∀ P ∈ M.pontos, P.id ≠ id) →
      M.getPonto id = ⟨⟨[]⟩, [], 0, 0⟩ ∧ (M.getPonto id).valid = false) ∧
    ((∀ P ∈ M.pontos, P.id.valid = true) →
      ∀ id, ((M.getPonto id).valid = true ↔ id ∈ M.pontos.map Ponto.id)) ∧
    (∀ id, (∃ R ∈ M.rotas, R.id = id) →
      ∃ l1 R l2, M.rotas = l1 ++ R :: l2 ∧ R.id = id ∧ (∀ Q ∈ l1, Q.id ≠ id) ∧
        M.getRota id = R) ∧
    (∀ id, (∀ R ∈ M.rotas, R.id ≠ id) →
      M.getRota id = ⟨⟨[]⟩, [], ⟨[]⟩, ⟨[]⟩, 0⟩ ∧ (M.getRota id).valid = false) ∧
    ((∀ R ∈ M.rotas, R.id.valid = true) →
      ∀ id, ((M.getRota id).valid = true ↔ id ∈ M.rotas.map Rota.id)) := by
  refine ⟨?_, ?_, ?_, ?_, ?_, ?_⟩
  · rintro id ⟨P, hP, hid⟩
    obtain ⟨Q, hQ⟩ := find_ponto_mem M.pontos id (List.mem_map.mpr ⟨P, hP, hid⟩)
    obtain ⟨l1, l2, h1, h2, h3⟩ := find_primeiro _ _ _ hQ
    refine ⟨l1, Q, l2, h1, by simpa using h2, ?_, ?_⟩
    · intro y hy; simpa using h3 y hy
    · unfold Planejador.getPonto; rw [hQ]
  · intro id h
    have hnone : M.pontos.find? (fun P => decide (P.id = id)) = none := by
      rw [List.find?_eq_none]
      intro P hP
      simpa using h P hP
    unfold Planejador.getPonto
    rw [hnone]
    exact ⟨rfl, rfl⟩
  · intro hv id
    constructor
    · exact getPonto_valid_mem M id
    · intro hmem
      obtain ⟨P, hP, hid⟩ := List.mem_map.mp hmem
      exact getPonto_resolve M id (by rw [← hid]; exact hv P hP) hmem
  · rintro id ⟨R, hR, hid⟩
    obtain ⟨Q, hQ⟩ := find_rota_mem M.rotas id (List.mem_map.mpr ⟨R, hR, hid⟩)
    obtain ⟨l1, l2, h1, h2, h3⟩ := find_primeiro _ _ _ hQ
    refine ⟨l1, Q, l2, h1, by simpa using h2, ?_, ?_⟩
    · intro y hy; simpa using h3 y hy
    · unfold Planejador.getRota; rw [hQ]
  · intro id h
    have hnone : M.rotas.find? (fun R => decide (R.id = id)) = none := by
      rw [List.find?_eq_none]
      intro R hR
      simpa using h R hR
    unfold Planejador.getRota
    rw [hnone]
    exact ⟨rfl, rfl⟩
  · intro hv id
    constructor
    · intro h
      unfold Planejador.getRota at h
      split at h
      · rename_i R hR
        have h1 := List.mem_of_find?_eq_some hR
        have h2 := List.find?_some hR
        exact List.mem_map.mpr ⟨R, h1, by simpa using h2⟩
      · exact absurd h (by decide)
    · intro hmem
      obtain ⟨Q, hQ⟩ := find_rota_mem M.rotas id hmem
      obtain ⟨_, _, _, h2, _⟩ := find_primeiro _ _ _ hQ
      have hQm := List.mem_of_find?_eq_some hQ
      unfold Planejador.getRota
      rw [hQ]
      exact hv Q hQm

theorem getPonto_getRota_contrato_witness :
    (∀ P ∈ mapaTeste.pontos, P.id.valid = true) ∧ idB ∈ mapaTeste.pontos.map Ponto.id ∧
    (mapaTeste.getPonto idB).valid = true :=
  ⟨by decide, by decide,
    ((getPonto_getRota_contrato mapaTeste).2.2.1 (by decide) idB).mpr (by decide)⟩

/-- The `haversine` of `planejador.h` on `pontoA0` and `pontoA180` is not 0 with every math
library that is exact at 0 and 1 and for which `sin (PI / 2) = 1` and `atan2 1 0` is not 0. -/
theorem haversineCabecalho_geral (m : LibmCabecalho) (h1 : m.sin 0 = 0) (h2 : m.cos 0 = 1)
    (h3 : m.sin (PI / 2) = 1) (h4 : m.sqrt 1 = 1) (h5 : m.sqrt 0 = 0) (h6 : m.atan2 1 0 ≠ 0) :
    haversineCabecalho m pontoA0 pontoA180 ≠ 0 := by
  have e1 : (180 : ℚ) * PI / 180 = PI := by ring
  simp only [haversineCabecalho, pontoA0, pontoA180, zero_mul, zero_div, sub_zero, sub_self,
    e1, h1, h2, h3, h4, h5, mul_zero, zero_add, mul_one, EARTH_RADIUS_KM]
  intro h
  rcases mul_eq_zero.mp h with h | h
  · norm_num at h
  · rcases mul_eq_zero.mp h with h | h
    · norm_num at h
    · exact h6 h

/-- C16: the `haversine` of `planejador.cpp` returns 0 for two points with equal ids, whatever
their other fields, so the heuristic of a node at the destination is 0; but the `haversine` of
`planejador.h`, which has no test of the ids, returns 6371 · PI for the points `pontoA0` and
`pontoA180`, which have the same id and different longitudes. -/
theorem haversine_cabecalho_ids_iguais :
    (∀ (m : Libm) (P1 P2 : Ponto), P1.id = P2.id → haversine m P1 P2 = 0) ∧
    (∀ (M : Planejador) (m : Libm) (id_destino : IDPonto),
      haversine m (M.getPonto id_destino) (M.getPonto id_destino) = 0) ∧
    pontoA0.id = pontoA180.id ∧
    haversine libmQ pontoA0 pontoA180 = 0 ∧
    haversineCabecalho libmCabecalhoQ pontoA0 pontoA180 = 6371 * PI ∧
    haversineCabecalho libmCabecalhoQ pontoA0 pontoA180 ≠ 0 := by
  refine ⟨?_, ?_, rfl, by decide!, by decide!, by decide!⟩
  · intro m P1 P2 h
    unfold haversine
    rw [if_pos h]
  · intro M m d
    unfold haversine
    rw [if_pos rfl]

/-! ## Frontier -/

section Fronteira

variable (M : Planejador) (m : Libm) (id_origem id_destino : IDPonto)

/-- The loop invariant holds at the start of every iteration. -/
theorem itera_inv {A F : List Noh} (h : Itera M m id_origem id_destino A F) :
    InvLaco M m id_origem id_destino A F := by
  induction h with
  | inicio _ ho _ => exact inicio_inv M m id_origem id_destino ho
  | passo _ hord _ ih => exact passo_inv M m id_origem id_destino _ _ _ _ ih hord

theorem laco_succ (pt_dest : Ponto) (fuel : Nat) (A F : List Noh) (atual : Noh)
    (A1 : List Noh) (hord : ordena A = atual :: A1) (hd : atual.id_pt ≠ id_destino) :
    Planejador.laco M m id_origem id_destino pt_dest (fuel + 1) A F =
      Planejador.laco M m id_origem id_destino pt_dest fuel
        (Planejador.expande M m pt_dest atual (F ++ [atual]) M.rotas A1) (F ++ [atual]) := by
  conv_lhs => unfold Planejador.laco
  simp only [hord, if_neg hd]

/-- The call goes through every state of `Itera`: the `try` block is the main loop run from
that state, with the fuel that is left. -/
theorem itera_laco {A F : List Noh} (h : Itera M m id_origem id_destino A F) :
    M.tenta m id_origem id_destino =
      Planejador.laco M m id_origem id_destino (M.getPonto id_destino)
        (M.pontos.length + 1 - F.length) A F := by
  induction h with
  | inicio hne ho hd =>
    unfold Planejador.tenta
    simp [hne, ho, hd, noInicial]
  | @passo A F atual A1 hit hord hd ih =>
    have hI := itera_inv M m id_origem id_destino hit
    have hI2 := passo_inv M m id_origem id_destino A F atual A1 hI hord
    have hl := hI2.length_le M m id_origem id_destino
    rw [List.length_append, List.length_singleton] at hl
    rw [ih]
    have e : M.pontos.length + 1 - F.length =
        (M.pontos.length + 1 - (F ++ [atual]).length) + 1 := by
      rw [List.length_append, List.length_singleton]; omega
    rw [e]
    exact laco_succ M m id_origem id_destino _ _ A F atual A1 hord hd

/-- What `insereSuc` does to `Aberto`: nothing, or the node for the point of `suc` is erased, if
there is one, and `suc` is pushed at the back of a list that holds no node for its point. -/
theorem insereSuc_apaga (F A : List Noh) (suc : Noh) (hnd : (A.map Noh.id_pt).Nodup) :
    Planejador.insereSuc F A suc = A ∨
    (Planejador.insereSuc F A suc =
        A.eraseP (fun n => decide (n.id_pt = suc.id_pt)) ++ [suc] ∧
      ∀ n ∈ A.eraseP (fun n => decide (n.id_pt = suc.id_pt)), n.id_pt ≠ suc.id_pt) := by
  unfold Planejador.insereSuc
  split
  · exact Or.inl rfl
  · split
    · split
      · exact Or.inl rfl
      · exact Or.inr ⟨rfl, eraseP_pt_ne suc.id_pt A hnd⟩
    · rename_i hA
      have hno := find_none_pt A _ hA
      have he : A.eraseP (fun n => decide (n.id_pt = suc.id_pt)) = A :=
        List.eraseP_of_forall_not (fun n hn => by simpa using hno n hn)
      right
      rw [he]
      exact ⟨rfl, hno⟩

end Fronteira

/-- C17: at the start of every iteration of the main loop of `calculaCaminho` no point id is in
two nodes of `Aberto`, none is in two nodes of `Fechado`, none is in both; and in the iteration,
when the `for` loop has visited the routes `rs1` and `insereSuc` puts a successor in `Aberto`,
the node of `Aberto` for the same point, if any, has been erased, so that again no point id is
in two nodes. The state is one the call goes through: the `try` block is the loop run from
it. -/
theorem fronteira_sem_repeticao (M : Planejador) (m : Libm) (id_origem id_destino : IDPonto)
    (A F : List Noh) (h : Itera M m id_origem id_destino A F) :
    (A.map Noh.id_pt).Nodup ∧ (F.map Noh.id_pt).Nodup ∧
    (∀ a ∈ A, ∀ c ∈ F, a.id_pt ≠ c.id_pt) ∧
    (∀ atual A1 rs1 rs2 suc, ordena A = atual :: A1 → M.rotas = rs1 ++ rs2 →
      ((Planejador.expande M m (M.getPonto id_destino) atual (F ++ [atual]) rs1 A1).map
        Noh.id_pt).Nodup ∧
      ((Planejador.insereSuc (F ++ [atual])
        (Planejador.expande M m (M.getPonto id_destino) atual (F ++ [atual]) rs1 A1) suc).map
        Noh.id_pt).Nodup ∧
      (Planejador.insereSuc (F ++ [atual])
          (Planejador.expande M m (M.getPonto id_destino) atual (F ++ [atual]) rs1 A1) suc =
          Planejador.expande M m (M.getPonto id_destino) atual (F ++ [atual]) rs1 A1 ∨
        (Planejador.insereSuc (F ++ [atual])
          (Planejador.expande M m (M.getPonto id_destino) atual (F ++ [atual]) rs1 A1) suc =
          (Planejador.expande M m (M.getPonto id_destino) atual (F ++ [atual]) rs1 A1).eraseP
            (fun n => decide (n.id_pt = suc.id_pt)) ++ [suc] ∧
        ∀ n ∈ (Planejador.expande M m (M.getPonto id_destino) atual (F ++ [atual]) rs1
            A1).eraseP (fun n => decide (n.id_pt = suc.id_pt)), n.id_pt ≠ suc.id_pt))) ∧
    M.tenta m id_origem id_destino =
      Planejador.laco M m id_origem id_destino (M.getPonto id_destino)
        (M.pontos.length + 1 - F.length) A F := by
  have hI := itera_inv M m id_origem id_destino h
  refine ⟨hI.nodupA, hI.nodupF, hI.disj, ?_, itera_laco M m id_origem id_destino h⟩
  intro atual A1 rs1 rs2 suc hord hrs
  have hI1 := pop_inv M m id_origem id_destino A F atual A1 hI hord
  have hI2 := expande_inv M m id_origem id_destino (F ++ [atual]) atual (by simp) rs1 A1
    (fun r hr => by rw [hrs]; exact List.mem_append_left _ hr) hI1
  exact ⟨hI2.nodupA, insereSuc_nodup _ _ suc hI2.nodupA, insereSuc_apaga _ _ suc hI2.nodupA⟩

/-! ## Selection of the node to close -/

section Selecao

theorem MesmaOrdem.filter {A G : List Noh} (h : MesmaOrdem A G) (q : Noh → Bool) :
    MesmaOrdem (A.filter q) (G.filter q) := by
  intro k
  rw [List.filter_filter, List.filter_filter]
  have e : ∀ l : List Noh, l.filter (fun a => decide (a.f = k) && q a) =
      (l.filter (fun n => decide (n.f = k))).filter q := by
    intro l
    rw [List.filter_filter]
    congr 1
    funext a
    exact Bool.and_comm _ _
  rw [e A, e G, h k]

theorem MesmaOrdem.snoc {A G : List Noh} (h : MesmaOrdem A G) (x : Noh) :
    MesmaOrdem (A ++ [x]) (G ++ [x]) := by
  intro k
  rw [List.filter_append, List.filter_append, h k]

theorem MesmaOrdem.mem {A G : List Noh} (h : MesmaOrdem A G) (n : Noh) : n ∈ A ↔ n ∈ G := by
  have e : ∀ l : List Noh, n ∈ l ↔ n ∈ l.filter (fun x => decide (x.f = n.f)) := by
    intro l
    simp [List.mem_filter]
  rw [e A, e G, h n.f]

theorem MesmaOrdem.perm {A G : List Noh} (h : MesmaOrdem A G) : A.Perm G := by
  rw [List.perm_iff_count]
  intro a
  have e : ∀ l : List Noh, l.count a = (l.filter (fun x => decide (x.f = a.f))).count a := by
    intro l
    rw [List.count_filter]
    simp
  rw [e A, e G, h a.f]

theorem insereOrd_mesmaOrdem (x : Noh) (l : List Noh) : MesmaOrdem (insereOrd x l) (x :: l) := by
  intro k
  induction l with
  | nil => rfl
  | cons y ys ih =>
    unfold insereOrd
    by_cases hlt : y.f < x.f
    · rw [if_pos hlt]
      by_cases hx : x.f = k
      · have hy : ¬ y.f = k := by rw [← hx]; exact ne_of_lt hlt
        simp only [List.filter_cons, hy, hx, decide_False, decide_True, if_true,
          Bool.false_eq_true, if_false] at ih ⊢
        exact ih
      · simp only [List.filter_cons, hx, decide_False, Bool.false_eq_true, if_false] at ih ⊢
        rw [ih]
    · rw [if_neg hlt]

/-- The sort is stable: nodes with the same `f` keep their order. -/
theorem ordena_mesmaOrdem (l : List Noh) : MesmaOrdem (ordena l) l := by
  induction l with
  | nil => intro k; rfl
  | cons x xs ih =>
    intro k
    unfold ordena
    rw [insereOrd_mesmaOrdem x (ordena xs) k]
    simp only [List.filter_cons]
    rw [ih k]

theorem eraseP_pt_eq_filter (p : IDPonto) : ∀ (A : List Noh), (A.map Noh.id_pt).Nodup →
    A.eraseP (fun n => decide (n.id_pt = p)) = A.filter (fun n => !decide (n.id_pt = p)) := by
  intro A
  induction A with
  | nil => intro _; rfl
  | cons x xs ih =>
    intro hnd
    rw [List.map_cons, List.nodup_cons] at hnd
    by_cases hx : x.id_pt = p
    · rw [List.eraseP_cons_of_pos (by simpa using hx)]
      simp only [List.filter_cons, hx, decide_True, Bool.not_true, Bool.false_eq_true, if_false]
      symm
      rw [List.filter_eq_self]
      intro a ha
      have : a.id_pt ≠ p := by
        intro h
        exact hnd.1 (List.mem_map.mpr ⟨a, ha, by rw [h, hx]⟩)
      simpa using this
    · rw [List.eraseP_cons_of_neg (by simpa using hx)]
      simp only [List.filter_cons, hx, decide_False, Bool.not_false, if_true]
      rw [ih hnd.2]

/-- What `insereSuc` gives, in terms of the nodes that the lists hold. -/
theorem insereSuc_casos (F A : List Noh) (suc : Noh) (hnd : (A.map Noh.id_pt).Nodup) :
    ((∃ c ∈ F, c.id_pt = suc.id_pt) → Planejador.insereSuc F A suc = A) ∧
    ((∃ n ∈ A, n.id_pt = suc.id_pt ∧ n.f ≤ suc.f) → Planejador.insereSuc F A suc = A) ∧
    ((¬ ∃ c ∈ F, c.id_pt = suc.id_pt) → (¬ ∃ n ∈ A, n.id_pt = suc.id_pt ∧ n.f ≤ suc.f) →
      Planejador.insereSuc F A suc =
        A.filter (fun n => !decide (n.id_pt = suc.id_pt)) ++ [suc]) := by
  unfold Planejador.insereSuc
  cases hF : F.find? (fun n => decide (n.id_pt = suc.id_pt)) with
  | some c =>
    obtain ⟨hc1, hc2⟩ := find_some_pt F _ c hF
    exact ⟨fun _ => rfl, fun _ => rfl, fun h => absurd ⟨c, hc1, hc2⟩ h⟩
  | none =>
    have hFn := find_none_pt F _ hF
    cases hA : A.find? (fun n => decide (n.id_pt = suc.id_pt)) with
    | some n =>
      obtain ⟨hn1, hn2⟩ := find_some_pt A _ n hA
      by_cases hle : n.f ≤ suc.f
      · simp only [if_pos hle]
        exact ⟨fun _ => trivial, fun _ => trivial, fun _ h => absurd ⟨n, hn1, hn2, hle⟩ h⟩
      · simp only [if_neg hle]
        refine ⟨fun ⟨c, hc1, hc2⟩ => absurd hc2 (hFn c hc1), ?_, ?_⟩
        · rintro ⟨n2, h1, h2, h3⟩
          have : n2 = n := nodup_pt_eq hnd h1 hn1 (by rw [h2, hn2])
          rw [this] at h3
          exact absurd h3 hle
        · intro _ _
          rw [eraseP_pt_eq_filter suc.id_pt A hnd]
    | none =>
      have hAn := find_none_pt A _ hA
      simp only
      refine ⟨fun ⟨c, hc1, hc2⟩ => absurd hc2 (hFn c hc1),
        fun ⟨n, h1, h2, _⟩ => absurd h2 (hAn n h1), ?_⟩
      intro _ _
      have : A.filter (fun n => !decide (n.id_pt = suc.id_pt)) = A := by
        rw [List.filter_eq_self]
        intro a ha
        simpa using hAn a ha
      rw [this]

theorem insereSuc_mesmaOrdem (F A G : List Noh) (suc : Noh) (h : MesmaOrdem A G)
    (hA : (A.map Noh.id_pt).Nodup) (hG : (G.map Noh.id_pt).Nodup) :
    MesmaOrdem (Planejador.insereSuc F A suc) (Planejador.insereSuc F G suc) := by
  obtain ⟨a1, a2, a3⟩ := insereSuc_casos F A suc hA
  obtain ⟨g1, g2, g3⟩ := insereSuc_casos F G suc hG
  by_cases c1 : ∃ c ∈ F, c.id_pt = suc.id_pt
  · rw [a1 c1, g1 c1]; exact h
  · by_cases c2 : ∃ n ∈ A, n.id_pt = suc.id_pt ∧ n.f ≤ suc.f
    · have c2g : ∃ n ∈ G, n.id_pt = suc.id_pt ∧ n.f ≤ suc.f := by
        obtain ⟨n, h1, h2⟩ := c2
        exact ⟨n, (h.mem n).mp h1, h2⟩
      rw [a2 c2, g2 c2g]; exact h
    · have c2g : ¬ ∃ n ∈ G, n.id_pt = suc.id_pt ∧ n.f ≤ suc.f := by
        rintro ⟨n, h1, h2⟩
        exact c2 ⟨n, (h.mem n).mpr h1, h2⟩
      rw [a3 c1 c2, g3 c1 c2g]
      exact (h.filter _).snoc suc

/-- The body of the `for` loop does nothing or is `insereSuc` of a node that does not depend on
the content of `Aberto`. -/
theorem visita_forma (M : Planejador) (m : Libm) (pt_dest : Ponto) (atual : Noh)
    (F : List Noh) (rota : Rota) :
    (∀ X, Planejador.visita M m pt_dest atual F X rota = X) ∨
    (∃ suc, ∀ X, Planejador.visita M m pt_dest atual F X rota =
      Planejador.insereSuc F X suc) := by
  by_cases hext : rota.extremidade0 = atual.id_pt ∨ rota.extremidade1 = atual.id_pt
  · by_cases hval : (M.getPonto (if rota.extremidade0 = atual.id_pt then rota.extremidade1
        else rota.extremidade0)).valid = true
    · right
      refine ⟨⟨if rota.extremidade0 = atual.id_pt then rota.extremidade1
        else rota.extremidade0, rota.id, atual.g + rota.comprimento,
        haversine m (M.getPonto (if rota.extremidade0 = atual.id_pt then rota.extremidade1
        else rota.extremidade0)) pt_dest⟩, ?_⟩
      intro X
      unfold Planejador.visita
      rw [if_pos hext]
      simp [hval]
    · left
      intro X
      unfold Planejador.visita
      rw [if_pos hext]
      simp [hval]
  · left
    intro X
    unfold Planejador.visita
    rw [if_neg hext]

theorem expande_mesmaOrdem (M : Planejador) (m : Libm) (pt_dest : Ponto) (atual : Noh)
    (F : List Noh) : ∀ (rotas : List Rota) (A G : List Noh), MesmaOrdem A G →
    (A.map Noh.id_pt).Nodup → (G.map Noh.id_pt).Nodup →
    MesmaOrdem (Planejador.expande M m pt_dest atual F rotas A)
      (Planejador.expande M m pt_dest atual F rotas G) ∧
    ((Planejador.expande M m pt_dest atual F rotas A).map Noh.id_pt).Nodup ∧
    ((Planejador.expande M m pt_dest atual F rotas G).map Noh.id_pt).Nodup := by
  intro rotas
  induction rotas with
  | nil => intro A G h hA hG; exact ⟨h, hA, hG⟩
  | cons r rs ih =>
    intro A G h hA hG
    have e : ∀ X, Planejador.expande M m pt_dest atual F (r :: rs) X =
        Planejador.expande M m pt_dest atual F rs (Planejador.visita M m pt_dest atual F X r) :=
      fun _ => rfl
    rw [e A, e G]
    rcases visita_forma M m pt_dest atual F r with hv | ⟨suc, hv⟩
    · rw [hv A, hv G]; exact ih A G h hA hG
    · rw [hv A, hv G]
      exact ih _ _ (insereSuc_mesmaOrdem F A G suc h hA hG) (insereSuc_nodup F A suc hA)
        (insereSuc_nodup F G suc hG)

variable (M : Planejador) (m : Libm) (id_origem id_destino : IDPonto)

theorem iteraOrdem_itera {A G F : List Noh} (h : IteraOrdem M m id_origem id_destino A G F) :
    Itera M m id_origem id_destino A F := by
  induction h with
  | inicio h1 h2 h3 => exact Itera.inicio h1 h2 h3
  | passo _ hord hd ih => exact Itera.passo ih hord hd

theorem itera_iteraOrdem {A F : List Noh} (h : Itera M m id_origem id_destino A F) :
    ∃ G, IteraOrdem M m id_origem id_destino A G F := by
  induction h with
  | inicio h1 h2 h3 => exact ⟨_, IteraOrdem.inicio h1 h2 h3⟩
  | passo _ hord hd ih =>
    obtain ⟨G, hG⟩ := ih
    exact ⟨_, IteraOrdem.passo hG hord hd⟩

/-- At the start of every iteration `Aberto` and the list in push order hold the same nodes,
with those of equal `f` in the same order. -/
theorem iteraOrdem_inv {A G F : List Noh} (h : IteraOrdem M m id_origem id_destino A G F) :
    MesmaOrdem A G ∧ (A.map Noh.id_pt).Nodup ∧ (G.map Noh.id_pt).Nodup := by
  induction h with
  | inicio _ _ _ => exact ⟨fun _ => rfl, by simp, by simp⟩
  | @passo A G F atual A1 _ hord _ ih =>
    obtain ⟨hAG, hA, hG⟩ := ih
    have hperm : (atual :: A1).Perm A := by rw [← hord]; exact ordena_perm A
    have hAnd : A.Nodup := List.Nodup.of_map _ hA
    have hGnd : G.Nodup := List.Nodup.of_map _ hG
    have hOnd : (atual :: A1).Nodup := hperm.nodup_iff.mpr hAnd
    have hA1 : (A1.map Noh.id_pt).Nodup := by
      have := (hperm.map Noh.id_pt).nodup_iff.mpr hA
      rw [List.map_cons, List.nodup_cons] at this
      exact this.2
    have hG1 : ((G.erase atual).map Noh.id_pt).Nodup :=
      ((List.erase_sublist atual G).map Noh.id_pt).nodup hG
    have hOG : MesmaOrdem (atual :: A1) G := by
      intro k
      rw [← hord, ordena_mesmaOrdem A k, hAG k]
    have hE : MesmaOrdem A1 (G.erase atual) := by
      have e1 : A1 = (atual :: A1).filter (fun x => x != atual) := by
        rw [← List.Nodup.erase_eq_filter hOnd atual]
        simp
      rw [e1, List.Nodup.erase_eq_filter hGnd atual]
      exact hOG.filter _
    exact expande_mesmaOrdem M m _ atual _ M.rotas A1 (G.erase atual) hE hA1 hG1

end Selecao

/-! ## Closed is final -/

section Final

variable (M : Planejador) (m : Libm) (id_origem id_destino : IDPonto)

theorem itera_otimo (hM : MapaOk M) (hc : Consistente M m id_destino) {A F : List Noh}
    (h : Itera M m id_origem id_destino A F) : InvOtimo M id_origem A F := by
  induction h with
  | inicio _ _ _ => exact ⟨by simp, by simp⟩
  | @passo A F atual A1 hit hord _ ih =>
    exact passo_otimo M m id_origem id_destino hM hc A F atual A1
      (itera_inv M m id_origem id_destino hit) ih hord

end Final

/-! ## Completeness -/

section Completo

variable (M : Planejador) (m : Libm) (id_origem id_destino : IDPonto)

/-- Rule for the main loop that names the state in which it ends: with an invariant `I` kept by
every iteration that does not reach the destination, the loop ends with `throw 7` from a state
with an empty `Aberto`, or in the block `chegada`. -/
theorem laco_regra_fim (pt_dest : Ponto) (N : Nat) (I : List Noh → List Noh → Prop)
    (hstep : ∀ A F atual A1, I A F → ordena A = atual :: A1 → atual.id_pt ≠ id_destino →
      I (Planejador.expande M m pt_dest atual (F ++ [atual]) M.rotas A1) (F ++ [atual]))
    (hlen : ∀ A F, I A F → F.length ≤ N) :
    ∀ (fuel : Nat) (A F : List Noh), I A F → N + 1 ≤ fuel + F.length →
      (∃ F0, I [] F0 ∧ Planejador.laco M m id_origem id_destino pt_dest fuel A F =
        some (Planejador.Fim.excecao 7 []))
      ∨ ∃ A0 F0 atual A1, I A0 F0 ∧ ordena A0 = atual :: A1 ∧ atual.id_pt = id_destino ∧
          Planejador.laco M m id_origem id_destino pt_dest fuel A F =
            Planejador.chegada M id_origem atual A1 (F0 ++ [atual]) := by
  intro fuel
  induction fuel with
  | zero =>
    intro A F hI hf
    have := hlen A F hI
    omega
  | succ fuel ih =>
    intro A F hI hf
    cases hord : ordena A with
    | nil =>
      have hA : A = [] := by
        have hp := ordena_perm A
        rw [hord] at hp
        exact hp.symm.eq_nil
      subst hA
      left
      refine ⟨F, hI, ?_⟩
      unfold Planejador.laco
      rfl
    | cons atual A1 =>
      by_cases hd : atual.id_pt = id_destino
      · refine Or.inr ⟨A, F, atual, A1, hI, hord, hd, ?_⟩
        unfold Planejador.laco
        simp only [hord, if_pos hd]
      · rw [laco_succ M m id_origem id_destino pt_dest fuel A F atual A1 hord hd]
        have hI2 := hstep A F atual A1 hI hord hd
        have hf2 : N + 1 ≤ fuel + (F ++ [atual]).length := by
          rw [List.length_append, List.length_singleton]; omega
        exact ih _ _ hI2 hf2

theorem passo_completo (hM : MapaOk M) (A F : List Noh) (atual : Noh) (A1 : List Noh)
    (hI : InvLaco M m id_origem id_destino A F) (hC : InvCompleto M id_destino A F)
    (hord : ordena A = atual :: A1) (hd : atual.id_pt ≠ id_destino) :
    InvCompleto M id_destino
      (Planejador.expande M m (M.getPonto id_destino) atual (F ++ [atual]) M.rotas A1)
      (F ++ [atual]) := by
  have hperm : (atual :: A1).Perm A := by rw [← hord]; exact ordena_perm A
  have hI1 := pop_inv M m id_origem id_destino A F atual A1 hI hord
  obtain ⟨hmono, hrelax⟩ := expande_otimo M m id_origem id_destino (F ++ [atual]) atual
    (by simp) M.rotas A1 (fun _ h => h) hI1
  constructor
  · intro c hc
    rcases List.mem_append.mp hc with hc | hc
    · exact hC.naoDestino c hc
    · simp only [List.mem_singleton] at hc
      subst hc
      exact hd
  · intro u hu r hr v hE
    rcases List.mem_append.mp hu with hu | hu
    · rcases hC.vizinhos u hu r hr v hE with ⟨c, hcF, hcv⟩ | ⟨a, haA, hav⟩
      · exact Or.inl ⟨c, List.mem_append_left _ hcF, hcv⟩
      · rcases List.mem_cons.mp (hperm.mem_iff.mpr haA) with rfl | haA1
        · exact Or.inl ⟨a, by simp, hav⟩
        · obtain ⟨b, hb, hbp, _⟩ := hmono a haA1
          exact Or.inr ⟨b, hb, by rw [hbp, hav]⟩
    · simp only [List.mem_singleton] at hu
      subst hu
      have hv : (M.getPonto v).valid = true := by
        rcases hE with ⟨_, h⟩ | ⟨_, h⟩
        · rw [← h]; exact hM.extremidade1_ok r hr
        · rw [← h]; exact hM.extremidade0_ok r hr
      rcases hrelax r hr v hE hv with h | ⟨b, hb, hbp, _⟩
      · exact Or.inl h
      · exact Or.inr ⟨b, hb, hbp⟩

/-- When `Aberto` is empty, every point that a walk from the origin leads to has a node in
`Fechado`. -/
theorem alcancados (F : List Noh) (hI : InvLaco M m id_origem id_destino [] F)
    (hC : InvCompleto M id_destino [] F) :
    ∀ (rs : List Rota) (x : IDPonto), liga M id_origem x rs → ∃ c ∈ F, c.id_pt = x := by
  intro rs
  induction rs using List.reverseRecOn with
  | nil =>
    intro x h
    simp only [liga] at h
    subst h
    rcases hI.inicio with ⟨_, hA⟩ | ⟨F1, hF⟩
    · simp at hA
    · exact ⟨noInicial M m id_origem id_destino, by rw [hF]; simp, rfl⟩
  | append_singleton rs r ih =>
    intro x h
    obtain ⟨y, hy, hr, hE⟩ := liga_snoc_inv M r rs _ _ h
    obtain ⟨c, hcF, hcy⟩ := ih y hy
    rcases hC.vizinhos c hcF r hr x (by rw [hcy]; exact hE) with h2 | ⟨a, haA, _⟩
    · exact h2
    · simp at haA

theorem getPonto_valid_naoVazio (p : IDPonto) (h : (M.getPonto p).valid = true) :
    M.empty = false := by
  have hm := getPonto_valid_mem M p h
  unfold Planejador.empty
  cases hp : M.pontos with
  | nil => rw [hp] at hm; simp at hm
  | cons _ _ => rfl

end Completo

/-- C20: on a map that satisfies the map invariants, for an origin and a destination that
resolve, if some sequence of routes of the map leads from origin to destination then
`calculaCaminho` ends without exception (neither `throw 7` nor `throw 6`): an iteration takes
from `Aberto` a node `atual` at the destination, and the call returns the `g` of `atual`, a path
that is not empty, and the sizes of `Aberto` and `Fechado`. -/
theorem calculaCaminho_completo (M : Planejador) (m : Libm) (id_origem id_destino : IDPonto)
    (C0 : Caminho) (hM : MapaOk M) (ho : (M.getPonto id_origem).valid = true)
    (hd : (M.getPonto id_destino).valid = true)
    (hliga : ∃ rs, liga M id_origem id_destino rs) :
    ∃ (A F : List Noh) (atual : Noh) (A1 : List Noh) (C : Caminho),
      Itera M m id_origem id_destino A F ∧ ordena A = atual :: A1 ∧
      atual.id_pt = id_destino ∧ C ≠ [] ∧
      M.calculaCaminho m id_origem id_destino C0 =
        some ⟨atual.g, C, A1.length, (F ++ [atual]).length, none⟩ := by
  have hne := getPonto_valid_naoVazio M id_origem ho
  have h := laco_regra_fim M m id_origem id_destino (M.getPonto id_destino) M.pontos.length
    (fun A F => Itera M m id_origem id_destino A F ∧ InvCompleto M id_destino A F)
    (fun A F atual A1 hI hord hd =>
      ⟨Itera.passo hI.1 hord hd,
       passo_completo M m id_origem id_destino hM A F atual A1
        (itera_inv M m id_origem id_destino hI.1) hI.2 hord hd⟩)
    (fun A F hI => (itera_inv M m id_origem id_destino hI.1).length_le M m id_origem id_destino)
    (M.pontos.length + 1) [noInicial M m id_origem id_destino] []
    ⟨Itera.inicio hne ho hd, ⟨by simp, by simp⟩⟩ (by simp)
  have ht : M.tenta m id_origem id_destino =
      Planejador.laco M m id_origem id_destino (M.getPonto id_destino) (M.pontos.length + 1)
        [noInicial M m id_origem id_destino] [] := by
    unfold Planejador.tenta
    simp [hne, ho, hd, noInicial]
  rw [← ht] at h
  rcases h with ⟨F0, ⟨hI, hC⟩, _⟩ | ⟨A0, F0, atual, A1, ⟨hI, _⟩, hord, hdest, hch⟩
  · exfalso
    obtain ⟨rs, hrs⟩ := hliga
    obtain ⟨c, hcF, hcd⟩ := alcancados M m id_origem id_destino F0
      (itera_inv M m id_origem id_destino hI) hC rs id_destino hrs
    exact hC.naoDestino c hcF hcd
  · obtain ⟨pre, hpre, _⟩ := chegada_ok M m id_origem id_destino hM A0 F0 atual A1
      (itera_inv M m id_origem id_destino hI) hord
    refine ⟨A0, F0, atual, A1, (IDRota.vazio, id_origem) :: pre, hI, hord, hdest,
      by simp, ?_⟩
    unfold Planejador.calculaCaminho
    rw [hch, hpre]

theorem calculaCaminho_completo_witness :
    MapaOk mapaTeste ∧ (mapaTeste.getPonto idA).valid = true ∧
    (mapaTeste.getPonto idC).valid = true ∧ liga mapaTeste idA idC [rota2, rota3] ∧
    ∃ (A F : List Noh) (atual : Noh) (A1 : List Noh) (C : Caminho),
      Itera mapaTeste libmQ idA idC A F ∧ ordena A = atual :: A1 ∧
      atual.id_pt = idC ∧ C ≠ [] ∧
      mapaTeste.calculaCaminho libmQ idA idC [] =
        some ⟨atual.g, C, A1.length, (F ++ [atual]).length, none⟩ :=
  have hl : liga mapaTeste idA idC [rota2, rota3] := by
    simp only [liga]
    decide
  ⟨mapaTeste_ok, by decide, by decide, hl,
    calculaCaminho_completo mapaTeste libmQ idA idC [] mapaTeste_ok (by decide) (by decide)
      ⟨_, hl⟩⟩

/-- The state of the loop on `mapaTeste` from `#A` to `#B` after the first iteration. -/
theorem mapaTeste_segundo_estado :
    Planejador.expande mapaTeste libmQ (mapaTeste.getPonto idB)
      (noInicial mapaTeste libmQ idA idB) ([] ++ [noInicial mapaTeste libmQ idA idB])
      mapaTeste.rotas [] =
      [⟨idC, rota1.id, 10, R_EARTH * MY_PI⟩, ⟨idB, rota2.id, 1, 0⟩] := by
  decide!

theorem mapaTeste_itera :
    IteraOrdem mapaTeste libmQ idA idB
      [⟨idC, rota1.id, 10, R_EARTH * MY_PI⟩, ⟨idB, rota2.id, 1, 0⟩]
      [⟨idC, rota1.id, 10, R_EARTH * MY_PI⟩, ⟨idB, rota2.id, 1, 0⟩]
      [noInicial mapaTeste libmQ idA idB] := by
  have h := IteraOrdem.passo (IteraOrdem.inicio (by decide) (by decide) (by decide) :
    IteraOrdem mapaTeste libmQ idA idB _ _ _)
    (ordena_singleton (noInicial mapaTeste libmQ idA idB)) (by decide)
  have e : [noInicial mapaTeste libmQ idA idB].erase (noInicial mapaTeste libmQ idA idB) = [] := by
    simp
  rw [e, mapaTeste_segundo_estado] at h
  exact h

theorem fronteira_sem_repeticao_witness :
    Itera mapaTeste libmQ idA idB
      [⟨idC, rota1.id, 10, R_EARTH * MY_PI⟩, ⟨idB, rota2.id, 1, 0⟩]
      [noInicial mapaTeste libmQ idA idB] ∧
    (([⟨idC, rota1.id, 10, R_EARTH * MY_PI⟩, ⟨idB, rota2.id, 1, 0⟩] : List Noh).map
      Noh.id_pt).Nodup ∧
    (([noInicial mapaTeste libmQ idA idB].map Noh.id_pt).Nodup) :=
  have hit := iteraOrdem_itera mapaTeste libmQ idA idB mapaTeste_itera
  have h := fronteira_sem_repeticao mapaTeste libmQ idA idB _ _ hit
  ⟨hit, h.1, h.2.1⟩

theorem mapaTeste_ordenado :
    ordena [(⟨idC, rota1.id, 10, R_EARTH * MY_PI⟩ : Noh), ⟨idB, rota2.id, 1, 0⟩] =
      ⟨idB, rota2.id, 1, 0⟩ :: [⟨idC, rota1.id, 10, R_EARTH * MY_PI⟩] := by
  decide!

/-! ## Termination -/

section Termina

variable (M : Planejador) (m : Libm) (id_origem id_destino : IDPonto)

/-- Under the invariant `Aberto` and `Fechado` together have at most as many nodes as the map
has points. -/
theorem InvLaco.length_soma_le {A F : List Noh} (hI : InvLaco M m id_origem id_destino A F) :
    A.length + F.length ≤ M.pontos.length := by
  have hnd : ((A ++ F).map Noh.id_pt).Nodup := by
    rw [List.map_append, List.nodup_append]
    refine ⟨hI.nodupA, hI.nodupF, ?_⟩
    intro p ha hf
    obtain ⟨a, haA, hap⟩ := List.mem_map.mp ha
    obtain ⟨c, hcF, hcp⟩ := List.mem_map.mp hf
    exact hI.disj a haA c hcF (hap.trans hcp.symm)
  have hsub : (A ++ F).map Noh.id_pt ⊆ M.pontos.map Ponto.id := by
    intro p hp
    obtain ⟨n, hn, rfl⟩ := List.mem_map.mp hp
    rcases List.mem_append.mp hn with hn | hn
    · exact getPonto_valid_mem M _ (hI.resolveA n hn)
    · exact getPonto_valid_mem M _ (hI.resolveF n hn)
  have := (List.subperm_of_subset hnd hsub).length_le
  simpa using this

/-- The search `find_if` of the loop that rebuilds the path, run from a node of `Fechado` with a
valid `id_rt`, finds a node that stands in `Fechado` before that node. -/
theorem find_anterior (hM : MapaOk M) (A F : List Noh)
    (hI : InvLaco M m id_origem id_destino A F) (l1 : List Noh) (n : Noh) (l2 : List Noh)
    (hF : F = l1 ++ n :: l2) (hv : n.id_rt.valid = true) :
    ∃ a u b, l1 = a ++ u :: b ∧
      F.find? (fun noh => decide (noh.id_pt = (M.getRota n.id_rt).extremidade0) ||
        decide (noh.id_pt = (M.getRota n.id_rt).extremidade1)) = some u := by
  rcases hI.geradoF l1 n l2 hF with h | h
  · subst h
    have hv2 : (noInicial M m id_origem id_destino).id_rt.valid = false := rfl
    rw [hv2] at hv
    exact absurd hv (by decide)
  · obtain ⟨r, hr, u, hu, hid, hE, _⟩ := h
    obtain ⟨a, b, hab⟩ := List.append_of_mem hu
    have hnd := hI.nodupF
    have hFab : F = a ++ u :: (b ++ n :: l2) := by rw [hF, hab]; simp
    have hskip : ∀ x ∈ a, (decide (x.id_pt = r.extremidade0) ||
        decide (x.id_pt = r.extremidade1)) = false := by
      intro x hx
      have hxu : x.id_pt ≠ u.id_pt := by
        rw [hFab] at hnd
        simp only [List.map_append, List.map_cons] at hnd
        have := (List.nodup_append.mp hnd).2.2
        intro h
        exact this (List.mem_map.mpr ⟨x, hx, rfl⟩) (by rw [h]; simp)
      have hxn : x.id_pt ≠ n.id_pt := by
        rw [hFab] at hnd
        simp only [List.map_append, List.map_cons] at hnd
        have := (List.nodup_append.mp hnd).2.2
        intro h
        exact this (List.mem_map.mpr ⟨x, hx, rfl⟩) (by rw [h]; simp)
      rcases hE with ⟨h0, h1⟩ | ⟨h1, h0⟩
      · simp [h0, h1, hxu, hxn]
      · simp [h0, h1, hxu, hxn]
    have hpu : (decide (u.id_pt = r.extremidade0) ||
        decide (u.id_pt = r.extremidade1)) = true := by
      rcases hE with ⟨h0, _⟩ | ⟨h1, _⟩
      · simp [h0]
      · simp [h1]
    have hget : M.getRota n.id_rt = r := by rw [← hid]; exact getRota_eq M hM r hr
    refine ⟨a, u, b, hab, ?_⟩
    rw [hget, hFab]
    exact find_skip _ u hpu a _ hskip

/-- From a node of `Fechado` the loop `reconstroi` ends normally after as many steps as it puts
elements in front of `C`, and the points of these elements, after the origin, are points of
nodes of `Fechado` up to that node, in the order of `Fechado`. -/
theorem reconstroi_passos (hM : MapaOk M) (A F : List Noh)
    (hI : InvLaco M m id_origem id_destino A F) :
    ∀ (k : Nat) (l1 : List Noh) (n : Noh) (l2 : List Noh), l1.length ≤ k →
      F = l1 ++ n :: l2 →
      ∃ pre : Caminho,
        (∀ (fuel : Nat) (C : Caminho), pre.length ≤ fuel →
          M.reconstroi F fuel n C = some (Except.ok (pre ++ C))) ∧
        List.Sublist (id_origem :: pre.map Prod.snd) ((l1 ++ [n]).map Noh.id_pt) := by
  intro k
  induction k with
  | zero =>
    intro l1 n l2 hk hF
    have hl1 : l1 = [] := List.length_eq_zero.mp (Nat.le_zero.mp hk)
    subst hl1
    rcases hI.geradoF [] n l2 hF with h | h
    · subst h
      refine ⟨[], ?_, ?_⟩
      · intro fuel C _
        unfold Planejador.reconstroi
        have hv : (noInicial M m id_origem id_destino).id_rt.valid = false := rfl
        simp [hv]
      · exact List.Sublist.refl _
    · obtain ⟨_, _, u, hu, _⟩ := h
      simp at hu
  | succ k ih =>
    intro l1 n l2 hk hF
    rcases hI.geradoF l1 n l2 hF with h | h
    · subst h
      refine ⟨[], ?_, ?_⟩
      · intro fuel C _
        unfold Planejador.reconstroi
        have hv : (noInicial M m id_origem id_destino).id_rt.valid = false := rfl
        simp [hv]
      · rw [List.map_append]
        exact List.sublist_append_right _ _
    · have hvalid : n.id_rt.valid = true := by
        obtain ⟨r, hr, _, _, hid, _, _⟩ := h
        rw [← hid]; exact hM.rotas_validas r hr
      obtain ⟨a, u, b, hab, hfind⟩ :=
        find_anterior M m id_origem id_destino hM A F hI l1 n l2 hF hvalid
      have hFab : F = a ++ u :: (b ++ n :: l2) := by rw [hF, hab]; simp
      have hlen : l1.length = a.length + 1 + b.length := by
        rw [hab]; simp; omega
      obtain ⟨pre, hrec, hsub⟩ := ih a u (b ++ n :: l2) (by omega) hFab
      refine ⟨pre ++ [(n.id_rt, n.id_pt)], ?_, ?_⟩
      · intro fuel C hfuel
        rw [List.length_append, List.length_singleton] at hfuel
        obtain ⟨fuel1, rfl⟩ : ∃ f1, fuel = f1 + 1 := ⟨fuel - 1, by omega⟩
        unfold Planejador.reconstroi
        simp only [hvalid, if_true, hfind]
        rw [hrec fuel1 _ (by omega)]
        simp
      · have e1 : id_origem :: (pre ++ [(n.id_rt, n.id_pt)]).map Prod.snd =
            (id_origem :: pre.map Prod.snd) ++ [n.id_pt] := by simp
        have e2 : (l1 ++ [n]).map Noh.id_pt =
            (a ++ [u]).map Noh.id_pt ++ (b.map Noh.id_pt ++ [n.id_pt]) := by
          rw [hab]; simp
        rw [e1, e2]
        exact List.Sublist.append hsub (List.sublist_append_right _ _)

/-- The block `chegada`, entered from a state that satisfies the invariant on a map that
satisfies the map invariants: the loop `reconstroi` ends after as many steps as the path has
elements after the first, and the points of the path are points of nodes of `Fechado`, in the
order of `Fechado`. -/
theorem chegada_passos (hM : MapaOk M) (A0 F0 : List Noh) (atual : Noh) (A1 : List Noh)
    (hI : InvLaco M m id_origem id_destino A0 F0) (hord : ordena A0 = atual :: A1) :
    ∃ pre : Caminho,
      M.reconstroi (F0 ++ [atual]) pre.length atual [] = some (Except.ok pre) ∧
      M.chegada id_origem atual A1 (F0 ++ [atual]) =
        some (Planejador.Fim.retorno atual.g ((IDRota.vazio, id_origem) :: pre)
          A1.length (F0 ++ [atual]).length) ∧
      List.Sublist (((IDRota.vazio, id_origem) :: pre).map Prod.snd)
        ((F0 ++ [atual]).map Noh.id_pt) := by
  have hI1 := pop_inv M m id_origem id_destino A0 F0 atual A1 hI hord
  obtain ⟨pre, hrec, hsub⟩ :=
    reconstroi_passos M m id_origem id_destino hM A1 (F0 ++ [atual]) hI1 F0.length F0 atual []
      (le_refl _) rfl
  have hlen : pre.length ≤ F0.length := by
    have := hsub.length_le
    simp only [List.length_cons, List.length_map, List.length_append, List.length_nil]
      at this
    omega
  refine ⟨pre, ?_, ?_, hsub⟩
  · have := hrec pre.length [] (le_refl _)
    rw [List.append_nil] at this
    exact this
  · unfold Planejador.chegada
    rw [hrec (F0 ++ [atual]).length [] (by
      rw [List.length_append, List.length_singleton]; omega)]
    simp

end Termina

/-- C21: on a map that satisfies the map invariants `calculaCaminho` ends, for every origin and
destination. Every iteration of the main loop takes from `Aberto` a node whose point has no
node in `Fechado` and pushes it on `Fechado`, which then has at most as many nodes as the
map has points; the call is the loop run from that state with the fuel that is left.
In the iteration that reaches the destination, from every node of `Fechado` with a valid
`id_rt` the search of the loop that rebuilds the path finds a node that stands before it in
`Fechado`; the loop ends after a number of steps less than the number of nodes of `Fechado`,
and the call returns the path that it built. When the call ends without exception,
`1 <= NF <= pontos.size()`, `NA >= 0`, also `NA + NF <= pontos.size()`, the path has at most
`NF` elements and no two of its elements have the same point. -/
theorem calculaCaminho_termina (M : Planejador) (m : Libm) (id_origem id_destino : IDPonto)
    (C0 : Caminho) (hM : MapaOk M) :
    (∃ s, M.calculaCaminho m id_origem id_destino C0 = some s) ∧
    (∀ (A F : List Noh) (atual : Noh) (A1 : List Noh),
      Itera M m id_origem id_destino A F → ordena A = atual :: A1 →
      (∀ c ∈ F, c.id_pt ≠ atual.id_pt) ∧
      (F ++ [atual]).length ≤ M.pontos.length ∧
      M.tenta m id_origem id_destino =
        Planejador.laco M m id_origem id_destino (M.getPonto id_destino)
          (M.pontos.length + 1 - F.length) A F) ∧
    (∀ (A F : List Noh) (atual : Noh) (A1 : List Noh),
      Itera M m id_origem id_destino A F → ordena A = atual :: A1 →
      atual.id_pt = id_destino →
      (∀ l1 n l2, F ++ [atual] = l1 ++ n :: l2 → n.id_rt.valid = true →
        ∃ u ∈ l1, (F ++ [atual]).find? (fun noh =>
          decide (noh.id_pt = (M.getRota n.id_rt).extremidade0) ||
          decide (noh.id_pt = (M.getRota n.id_rt).extremidade1)) = some u) ∧
      ∃ pre : Caminho, pre.length < (F ++ [atual]).length ∧
        M.reconstroi (F ++ [atual]) pre.length atual [] = some (Except.ok pre) ∧
        M.calculaCaminho m id_origem id_destino C0 =
          some ⟨atual.g, (IDRota.vazio, id_origem) :: pre, A1.length,
            (F ++ [atual]).length, none⟩) ∧
    (∀ s, M.calculaCaminho m id_origem id_destino C0 = some s → s.erro = none →
      1 ≤ s.NF ∧ s.NF ≤ M.pontos.length ∧ 0 ≤ s.NA ∧ s.NA + s.NF ≤ M.pontos.length ∧
      (s.C.length : Int) ≤ s.NF ∧ (s.C.map Prod.snd).Nodup) := by
  have hestado : ∀ (A F : List Noh) (atual : Noh) (A1 : List Noh),
      Itera M m id_origem id_destino A F → ordena A = atual :: A1 →
      (F ++ [atual]).length ≤ M.pontos.length ∧
      M.tenta m id_origem id_destino =
        Planejador.laco M m id_origem id_destino (M.getPonto id_destino)
          (M.pontos.length + 1 - F.length) A F := by
    intro A F atual A1 hit hord
    have hI := itera_inv M m id_origem id_destino hit
    have hI1 := pop_inv M m id_origem id_destino A F atual A1 hI hord
    exact ⟨hI1.length_le M m id_origem id_destino, itera_laco M m id_origem id_destino hit⟩
  refine ⟨?_, ?_, ?_, ?_⟩
  · by_cases hne : M.empty = true
    · exact ⟨_, by simp [Planejador.calculaCaminho, Planejador.tenta, hne]; rfl⟩
    by_cases ho : (M.getPonto id_origem).valid = true
    swap
    · exact ⟨_, by simp [Planejador.calculaCaminho, Planejador.tenta, hne, ho]; rfl⟩
    by_cases hd : (M.getPonto id_destino).valid = true
    swap
    · exact ⟨_, by simp [Planejador.calculaCaminho, Planejador.tenta, hne, ho, hd]; rfl⟩
    rcases tenta_casos M m id_origem id_destino (by simpa using hne) ho hd with h7 | h7
    · exact ⟨_, by simp [Planejador.calculaCaminho, h7]; rfl⟩
    · obtain ⟨A0, F0, atual, A1, hI, hord, _, ht⟩ := h7
      obtain ⟨pre, _, hch, _⟩ := chegada_passos M m id_origem id_destino hM A0 F0 atual A1 hI hord
      refine ⟨⟨atual.g, (IDRota.vazio, id_origem) :: pre, A1.length, (F0 ++ [atual]).length,
        none⟩, ?_⟩
      unfold Planejador.calculaCaminho
      rw [ht, hch]
  · intro A F atual A1 hit hord
    have hI := itera_inv M m id_origem id_destino hit
    have hperm : (atual :: A1).Perm A := by rw [← hord]; exact ordena_perm A
    have hatA : atual ∈ A := hperm.mem_iff.mp (List.mem_cons_self _ _)
    obtain ⟨hl, ht⟩ := hestado A F atual A1 hit hord
    exact ⟨fun c hc h => hI.disj atual hatA c hc h.symm, hl, ht⟩
  · intro A F atual A1 hit hord hdest
    have hI := itera_inv M m id_origem id_destino hit
    have hI1 := pop_inv M m id_origem id_destino A F atual A1 hI hord
    obtain ⟨hl, ht⟩ := hestado A F atual A1 hit hord
    obtain ⟨pre, hrec, hch, hsub⟩ :=
      chegada_passos M m id_origem id_destino hM A F atual A1 hI hord
    refine ⟨?_, pre, ?_, hrec, ?_⟩
    · intro l1 n l2 hF hv
      obtain ⟨a, u, b, hab, hfind⟩ :=
        find_anterior M m id_origem id_destino hM A1 (F ++ [atual]) hI1 l1 n l2 hF hv
      exact ⟨u, by rw [hab]; simp, hfind⟩
    · have := hsub.length_le
      simp only [List.length_cons, List.length_map] at this
      omega
    · unfold Planejador.calculaCaminho
      obtain ⟨fuel, hfuel⟩ : ∃ fuel, M.pontos.length + 1 - F.length = fuel + 1 := by
        rw [List.length_append, List.length_singleton] at hl
        exact ⟨M.pontos.length - F.length, by omega⟩
      rw [ht, hfuel]
      unfold Planejador.laco
      simp only [hord, if_pos hdest]
      rw [hch]
  · intro s h hs
    by_cases hne : M.empty = true
    · simp [Planejador.calculaCaminho, Planejador.tenta, hne] at h
      subst h; simp at hs
    by_cases ho : (M.getPonto id_origem).valid = true
    swap
    · simp [Planejador.calculaCaminho, Planejador.tenta, hne, ho] at h
      subst h; simp at hs
    by_cases hd : (M.getPonto id_destino).valid = true
    swap
    · simp [Planejador.calculaCaminho, Planejador.tenta, hne, ho, hd] at h
      subst h; simp at hs
    rcases tenta_casos M m id_origem id_destino (by simpa using hne) ho hd with h7 | h7
    · simp [Planejador.calculaCaminho, h7] at h
      subst h; simp at hs
    · obtain ⟨A0, F0, atual, A1, hI, hord, _, ht⟩ := h7
      have hI1 := pop_inv M m id_origem id_destino A0 F0 atual A1 hI hord
      have hl := hI1.length_le M m id_origem id_destino
      have hs2 := hI1.length_soma_le M m id_origem id_destino
      obtain ⟨pre, _, hch, hsub⟩ :=
        chegada_passos M m id_origem id_destino hM A0 F0 atual A1 hI hord
      unfold Planejador.calculaCaminho at h
      rw [ht, hch] at h
      simp only [Option.some.injEq] at h
      subst h
      have hlen := hsub.length_le
      simp only [List.length_map] at hlen
      rw [List.length_append, List.length_singleton] at hl hlen hs2
      refine ⟨?_, ?_, ?_, ?_, ?_, hsub.nodup hI1.nodupF⟩
      · show (1 : Int) ≤ ((F0 ++ [atual]).length : Int)
        rw [List.length_append, List.length_singleton]
        omega
      · show ((F0 ++ [atual]).length : Int) ≤ (M.pontos.length : Int)
        rw [List.length_append, List.length_singleton]
        omega
      · show (0 : Int) ≤ (A1.length : Int)
        omega
      · show (A1.length : Int) + ((F0 ++ [atual]).length : Int) ≤ (M.pontos.length : Int)
        rw [List.length_append, List.length_singleton]
        omega
      · show ((((IDRota.vazio, id_origem) :: pre) : Caminho).length : Int) ≤
          ((F0 ++ [atual]).length : Int)
        rw [List.length_append, List.length_singleton]
        omega

theorem calculaCaminho_termina_witness :
    MapaOk mapaTeste ∧
    (∃ s, mapaTeste.calculaCaminho libmQ idA idB [] = some s) ∧
    mapaTeste.calculaCaminho libmQ idA idC [] =
      some ⟨10, [(IDRota.vazio, idA), (rota1.id, idC)], 1, 2, none⟩ ∧
    ((1 : Int) ≤ 2 ∧ (2 : Int) ≤ mapaTeste.pontos.length ∧ (0 : Int) ≤ 1 ∧
      (1 : Int) + 2 ≤ mapaTeste.pontos.length ∧
      (([(IDRota.vazio, idA), (rota1.id, idC)] : Caminho).length : Int) ≤ 2 ∧
      (([(IDRota.vazio, idA), (rota1.id, idC)] : Caminho).map Prod.snd).Nodup) :=
  ⟨mapaTeste_ok, (calculaCaminho_termina mapaTeste libmQ idA idB [] mapaTeste_ok).1,
    mapaTeste_A_C,
    (calculaCaminho_termina mapaTeste libmQ idA idC [] mapaTeste_ok).2.2.2 _ mapaTeste_A_C rfl⟩

/-! ## No path on a loaded map -/

theorem mapaDesligado_lido :
    Planejador.ler ⟨[], []⟩ numGetDec (some arquivoPontosABC) (some arquivoRotasAB) =
      some (true, mapaDesligado) := by
  decide!

theorem mapaDesligado_desligado : ∀ rs, ¬ liga mapaDesligado idA idC rs := by
  have hB : ∀ rs, ¬ liga mapaDesligado idB idC rs ∧ ¬ liga mapaDesligado idA idC rs := by
    intro rs
    induction rs with
    | nil => simp only [liga]; decide
    | cons r rs ih =>
      simp only [liga]
      constructor
      · rintro ⟨hr, h⟩
        have hr2 : r = rota2 := by simpa [mapaDesligado] using hr
        subst hr2
        rcases h with ⟨h0, h1⟩ | ⟨h0, h1⟩
        · exact absurd h0 (by decide)
        · exact ih.2 h1
      · rintro ⟨hr, h⟩
        have hr2 : r = rota2 := by simpa [mapaDesligado] using hr
        subst hr2
        rcases h with ⟨h0, h1⟩ | ⟨h0, h1⟩
        · exact ih.1 h1
        · exact absurd h0 (by decide)
  exact fun rs => (hB rs).2

theorem mapaDesligado_estado1 :
    Planejador.expande mapaDesligado libmQ (mapaDesligado.getPonto idC)
      (noInicial mapaDesligado libmQ idA idC) ([] ++ [noInicial mapaDesligado libmQ idA idC])
      mapaDesligado.rotas [] = [⟨idB, rota2.id, 1, R_EARTH * MY_PI⟩] := by
  decide!

theorem mapaDesligado_estado2 :
    Planejador.expande mapaDesligado libmQ (mapaDesligado.getPonto idC)
      ⟨idB, rota2.id, 1, R_EARTH * MY_PI⟩
      ([] ++ [noInicial mapaDesligado libmQ idA idC] ++ [⟨idB, rota2.id, 1, R_EARTH * MY_PI⟩])
      mapaDesligado.rotas [] = [] := by
  decide!

theorem mapaDesligado_fim :
    Itera mapaDesligado libmQ idA idC []
      [noInicial mapaDesligado libmQ idA idC, ⟨idB, rota2.id, 1, R_EARTH * MY_PI⟩] := by
  have h1 := Itera.passo (Itera.inicio (by decide) (by decide) (by decide) :
    Itera mapaDesligado libmQ idA idC _ _)
    (ordena_singleton (noInicial mapaDesligado libmQ idA idC)) (by decide)
  rw [mapaDesligado_estado1] at h1
  have h2 := Itera.passo h1 (ordena_singleton _) (by decide)
  rw [mapaDesligado_estado2] at h2
  exact h2

/-- C7: the map `mapaDesligado` is one that `ler` builds from two files; it is not empty, `#A`
and `#C` resolve and no sequence of routes leads from `#A` to `#C`. The search from `#A` to `#C`
ends with `Aberto` empty and two nodes in `Fechado`, and the call sets `NA = NF = -1`
(exception 7), with every math library; whereas the comment of `calculaCaminho` says that `NA`
and `NF` are negative only for invalid parameters and positive when no path exists. -/
theorem calculaCaminho_sem_caminho_contagens :
    Planejador.ler ⟨[], []⟩ numGetDec (some arquivoPontosABC) (some arquivoRotasAB) =
      some (true, mapaDesligado) ∧
    mapaDesligado.empty = false ∧ (mapaDesligado.getPonto idA).valid = true ∧
    (mapaDesligado.getPonto idC).valid = true ∧
    (∀ rs, ¬ liga mapaDesligado idA idC rs) ∧
    (∃ F : List Noh, Itera mapaDesligado libmQ idA idC [] F ∧ F.length = 2 ∧
      mapaDesligado.tenta libmQ idA idC =
        Planejador.laco mapaDesligado libmQ idA idC (mapaDesligado.getPonto idC)
          (mapaDesligado.pontos.length + 1 - F.length) [] F) ∧
    (∀ m : Libm, mapaDesligado.calculaCaminho m idA idC [] = some ⟨-1, [], -1, -1, some 7⟩) := by
  refine ⟨mapaDesligado_lido, by decide, by decide, by decide, mapaDesligado_desligado,
    ⟨_, mapaDesligado_fim, rfl, itera_laco _ _ _ _ mapaDesligado_fim⟩, ?_⟩
  intro m
  rcases tenta_casos mapaDesligado m idA idC (by decide) (by decide) (by decide) with h7 | h7
  · simp [Planejador.calculaCaminho, h7]
  · obtain ⟨A0, F0, atual, A1, hI, hord, hdest, _⟩ := h7
    have hatA : atual ∈ A0 :=
      (ordena_perm A0).mem_iff.mp (by rw [hord]; exact List.mem_cons_self _ _)
    obtain ⟨rs, hrs, _⟩ := hI.alcancaA atual hatA
    rw [hdest] at hrs
    exact absurd hrs (mapaDesligado_desligado rs)

/-! ## Duplicate ids in concrete files -/

theorem duplicado_excecao_8 :
    Planejador.lerPontos numGetDec
      (some (cabecalhoPontos ++ '\n' :: textoPontos [regPontoA]
        (['#', 'A'] ++ ';' :: "Aa;0;0\n".toList))) = some (Except.error 8) := by
  have h : (match Planejador.lerPontos numGetDec
      (some (cabecalhoPontos ++ '\n' :: textoPontos [regPontoA]
        (['#', 'A'] ++ ';' :: "Aa;0;0\n".toList))) with
      | some (Except.error i) => i == 8
      | _ => false) = true := by decide!
  revert h
  cases Planejador.lerPontos numGetDec
      (some (cabecalhoPontos ++ '\n' :: textoPontos [regPontoA]
        (['#', 'A'] ++ ';' :: "Aa;0;0\n".toList))) with
  | none => simp
  | some r =>
    cases r with
    | error i => simp
    | ok _ => simp

theorem duplicado_excecao_13 :
    Planejador.lerRotas numGetDec mapaLido.pontos
      (some (cabecalhoRotas ++ '\n' :: textoRotas [regRota1]
        (['&', '1'] ++ ';' :: "r1;#A;#C;10\n".toList))) = some (Except.error 13) := by
  have h : (match Planejador.lerRotas numGetDec mapaLido.pontos
      (some (cabecalhoRotas ++ '\n' :: textoRotas [regRota1]
        (['&', '1'] ++ ';' :: "r1;#A;#C;10\n".toList))) with
      | some (Except.error i) => i == 13
      | _ => false) = true := by decide!
  revert h
  cases Planejador.lerRotas numGetDec mapaLido.pontos
      (some (cabecalhoRotas ++ '\n' :: textoRotas [regRota1]
        (['&', '1'] ++ ';' :: "r1;#A;#C;10\n".toList))) with
  | none => simp
  | some r =>
    cases r with
    | error i => simp
    | ok _ => simp

theorem ler_rejeita_id_duplicado_witness :
    (cabecalhoPontos ++ '\n' :: textoPontos [regPontoA]
        (['#', 'A'] ++ ';' :: "Aa;0;0\n".toList) =
      "ID;Nome;Latitude;Longitude\n#A;Aa;0;0\n#A;Aa;0;0\n".toList ∧
     Planejador.lerPontos numGetDec (some "ID;Nome;Latitude;Longitude\n#A;Aa;0;0\n#A;Aa;0;0\n".toList) =
      some (Except.error 8) ∧
     mapaTeste.ler numGetDec (some "ID;Nome;Latitude;Longitude\n#A;Aa;0;0\n#A;Aa;0;0\n".toList)
      (some arquivoRotas) = some (false, mapaTeste)) ∧
    (cabecalhoRotas ++ '\n' :: textoRotas [regRota1]
        (['&', '1'] ++ ';' :: "r1;#A;#C;10\n".toList) =
      "ID;Nome;Extremidade 1;Extremidade 2;Comprimento\n&1;r1;#A;#C;10\n&1;r1;#A;#C;10\n".toList ∧
     Planejador.lerPontos numGetDec (some arquivoPontos) = some (Except.ok mapaLido.pontos) ∧
     Planejador.lerRotas numGetDec mapaLido.pontos
      (some "ID;Nome;Extremidade 1;Extremidade 2;Comprimento\n&1;r1;#A;#C;10\n&1;r1;#A;#C;10\n".toList) =
      some (Except.error 13) ∧
     mapaTeste.ler numGetDec (some arquivoPontos)
      (some "ID;Nome;Extremidade 1;Extremidade 2;Comprimento\n&1;r1;#A;#C;10\n&1;r1;#A;#C;10\n".toList) =
      some (false, mapaTeste)) :=
  ⟨⟨by decide, duplicado_excecao_8,
    (ler_rejeita_id_duplicado mapaTeste numGetDec).1 [regPontoA] ['#', 'A'] "Aa;0;0\n".toList
      (some arquivoRotas) (by simpa using regPontoA_bemFormado) (by decide)⟩,
   ⟨by decide, arquivoPontos_lido, duplicado_excecao_13,
    (ler_rejeita_id_duplicado mapaTeste numGetDec).2 [regRota1] ['&', '1']
      "r1;#A;#C;10\n".toList
      (some arquivoPontos) (by simpa using regRota1_bemFormado) (by decide)⟩⟩

/-! ## Order of `double` -/

theorem arred64_ne_nan (q : ℚ) : arred64 q ≠ Dbl.nan := by
  unfold arred64
  split_ifs
  · simp
  · cases arredPos q <;> simp
  · cases arredPos (-q) <;> simp

theorem dbl_soma_fin_ne_nan (a : Dbl) (q : ℚ) (ha : a ≠ Dbl.nan) :
    Dbl.soma a (Dbl.fin q) ≠ Dbl.nan := by
  cases a with
  | fin x => exact arred64_ne_nan _
  | inf => simp [Dbl.soma]
  | ninf => simp [Dbl.soma]
  | nan => exact absurd rfl ha

theorem dbl_lt_ne {a b : Dbl} (h : Dbl.lt a b = true) : a ≠ b := by
  intro hab
  subst hab
  cases a <;> simp [Dbl.lt] at h

theorem dbl_le_refl {a : Dbl} (ha : a ≠ Dbl.nan) : Dbl.le a a = true := by
  simp [Dbl.le, ha]

theorem dbl_le_of_lt {a b : Dbl} (h : Dbl.lt a b = true) : Dbl.le a b = true := by
  simp [Dbl.le, h]

theorem dbl_le_ne_nan {a b : Dbl} (h : Dbl.le a b = true) : a ≠ Dbl.nan ∧ b ≠ Dbl.nan := by
  cases a <;> cases b <;> simp [Dbl.le, Dbl.lt] at h ⊢

theorem dbl_le_of_not_lt {a b : Dbl} (ha : a ≠ Dbl.nan) (hb : b ≠ Dbl.nan)
    (h : Dbl.lt a b = false) : Dbl.le b a = true := by
  cases a <;> cases b <;> simp [Dbl.le, Dbl.lt] at h ha hb ⊢
  rename_i x y
  rcases lt_or_eq_of_le h with h1 | h1
  · exact Or.inl h1
  · exact Or.inr h1

theorem dbl_le_trans {a b c : Dbl} (h1 : Dbl.le a b = true) (h2 : Dbl.le b c = true) :
    Dbl.le a c = true := by
  cases a <;> cases b <;> cases c <;> simp [Dbl.le, Dbl.lt] at h1 h2 ⊢
  rename_i x y z
  have hxy : x ≤ y := by
    rcases h1 with h | h
    · exact le_of_lt h
    · exact le_of_eq h
  have hyz : y ≤ z := by
    rcases h2 with h | h
    · exact le_of_lt h
    · exact le_of_eq h
  exact lt_or_eq_of_le (le_trans hxy hyz)

theorem dbl_lt_of_le_of_ne {a b : Dbl} (h : Dbl.le a b = true) (hne : a ≠ b) :
    Dbl.lt a b = true := by
  cases a <;> cases b <;> simp [Dbl.le, Dbl.lt] at h hne ⊢
  rename_i x y
  rcases h with h | h
  · exact h
  · exact absurd h hne

theorem dbl_lt_fin {x y : ℚ} : Dbl.lt (Dbl.fin x) (Dbl.fin y) = true ↔ x < y := by
  simp [Dbl.lt]

/-! ## Sorting with the order of `double` -/

section OrdenaIEEE

theorem insereOrd_perm_ieee (x : IEEE.Noh) (l : List IEEE.Noh) :
    (IEEE.insereOrd x l).Perm (x :: l) := by
  induction l with
  | nil => simp [IEEE.insereOrd]
  | cons y ys ih =>
    unfold IEEE.insereOrd
    split
    · exact (List.Perm.cons y ih).trans (List.Perm.swap x y ys)
    · exact List.Perm.refl _

theorem ordena_perm_ieee (l : List IEEE.Noh) : (IEEE.ordena l).Perm l := by
  induction l with
  | nil => simp [IEEE.ordena]
  | cons x xs ih =>
    unfold IEEE.ordena
    exact (insereOrd_perm_ieee x (IEEE.ordena xs)).trans (List.Perm.cons x ih)

theorem insereOrd_sorted_ieee (x : IEEE.Noh) (l : List IEEE.Noh) (hx : x.f ≠ Dbl.nan)
    (hl : ∀ n ∈ l, n.f ≠ Dbl.nan)
    (h : l.Pairwise (fun a b => Dbl.le a.f b.f = true)) :
    (IEEE.insereOrd x l).Pairwise (fun a b => Dbl.le a.f b.f = true) := by
  induction l with
  | nil => simp [IEEE.insereOrd]
  | cons y ys ih =>
    unfold IEEE.insereOrd
    rw [List.pairwise_cons] at h
    by_cases hlt : Dbl.lt y.f x.f = true
    · rw [if_pos hlt, List.pairwise_cons]
      refine ⟨?_, ih (fun n hn => hl n (List.mem_cons_of_mem _ hn)) h.2⟩
      intro b hb
      rcases List.mem_cons.mp ((insereOrd_perm_ieee x ys).mem_iff.mp hb) with rfl | hb
      · exact dbl_le_of_lt hlt
      · exact h.1 b hb
    · rw [if_neg hlt]
      have hxy : Dbl.le x.f y.f = true :=
        dbl_le_of_not_lt (hl y (List.mem_cons_self _ _)) hx (by simpa using hlt)
      rw [List.pairwise_cons]
      refine ⟨?_, List.pairwise_cons.mpr h⟩
      intro b hb
      rcases List.mem_cons.mp hb with rfl | hb
      · exact hxy
      · exact dbl_le_trans hxy (h.1 b hb)

theorem ordena_sorted_ieee (l : List IEEE.Noh) (hl : ∀ n ∈ l, n.f ≠ Dbl.nan) :
    (IEEE.ordena l).Pairwise (fun a b => Dbl.le a.f b.f = true) := by
  induction l with
  | nil => simp [IEEE.ordena]
  | cons x xs ih =>
    unfold IEEE.ordena
    refine insereOrd_sorted_ieee x _ (hl x (List.mem_cons_self _ _)) ?_
      (ih (fun n hn => hl n (List.mem_cons_of_mem _ hn)))
    intro n hn
    exact hl n (List.mem_cons_of_mem _ ((ordena_perm_ieee xs).mem_iff.mp hn))

/-- When no `f` is a NaN, the front of the sorted list has the least `f` of the list. -/
theorem ordena_head_min_ieee (l : List IEEE.Noh) (hl : ∀ n ∈ l, n.f ≠ Dbl.nan) (a : IEEE.Noh)
    (r : List IEEE.Noh) (h : IEEE.ordena l = a :: r) : ∀ n ∈ l, Dbl.le a.f n.f = true := by
  intro n hn
  have hs := ordena_sorted_ieee l hl
  rw [h] at hs
  have hn2 : n ∈ a :: r := by rw [← h]; exact (ordena_perm_ieee l).mem_iff.mpr hn
  rcases List.mem_cons.mp hn2 with rfl | hn2
  · exact dbl_le_refl (hl n hn)
  · exact (List.pairwise_cons.mp hs).1 n hn2

theorem ordena_singleton_ieee (x : IEEE.Noh) : IEEE.ordena [x] = [x] := rfl

end OrdenaIEEE

/-! ## Successor generation with the order of `double` -/

section VisitaIEEE

theorem find_none_pt_ieee (L : List IEEE.Noh) (p : IDPonto)
    (h : L.find? (fun n => decide (n.id_pt = p)) = none) : ∀ c ∈ L, c.id_pt ≠ p := by
  intro c hc
  have := List.find?_eq_none.mp h c hc
  simpa using this

theorem find_some_pt_ieee (L : List IEEE.Noh) (p : IDPonto) (n : IEEE.Noh)
    (h : L.find? (fun n => decide (n.id_pt = p)) = some n) : n ∈ L ∧ n.id_pt = p := by
  refine ⟨List.mem_of_find?_eq_some h, ?_⟩
  have := List.find?_some h
  simpa using this

theorem insereSuc_mem_ieee (Fechado A : List IEEE.Noh) (suc n : IEEE.Noh)
    (hn : n ∈ IEEE.insereSuc Fechado A suc) :
    n ∈ A ∨ (n = suc ∧ ∀ c ∈ Fechado, c.id_pt ≠ suc.id_pt) := by
  unfold IEEE.insereSuc at hn
  split at hn
  · exact Or.inl hn
  · rename_i hF
    have hF2 := find_none_pt_ieee Fechado _ hF
    split at hn
    · split at hn
      · exact Or.inl hn
      · rcases List.mem_append.mp hn with h | h
        · exact Or.inl (List.mem_of_mem_eraseP h)
        · exact Or.inr ⟨by simpa using h, hF2⟩
    · rcases List.mem_append.mp hn with h | h
      · exact Or.inl h
      · exact Or.inr ⟨by simpa using h, hF2⟩

theorem eraseP_pt_ne_ieee (p : IDPonto) : ∀ (A : List IEEE.Noh),
    (A.map IEEE.Noh.id_pt).Nodup →
    ∀ y ∈ A.eraseP (fun n => decide (n.id_pt = p)), y.id_pt ≠ p := by
  intro A
  induction A with
  | nil => intro _ y hy; simp at hy
  | cons x xs ih =>
    intro hnd y hy
    rw [List.map_cons, List.nodup_cons] at hnd
    by_cases hx : x.id_pt = p
    · rw [List.eraseP_cons_of_pos (by simpa using hx)] at hy
      intro hyp
      exact hnd.1 (List.mem_map.mpr ⟨y, hy, by rw [hyp, hx]⟩)
    · rw [List.eraseP_cons_of_neg (by simpa using hx)] at hy
      rcases List.mem_cons.mp hy with rfl | hy
      · exact hx
      · exact ih hnd.2 y hy

theorem insereSuc_nodup_ieee (F A : List IEEE.Noh) (suc : IEEE.Noh)
    (h : (A.map IEEE.Noh.id_pt).Nodup) :
    ((IEEE.insereSuc F A suc).map IEEE.Noh.id_pt).Nodup := by
  unfold IEEE.insereSuc
  split
  · exact h
  · split
    · split
      · exact h
      · rw [List.map_append, List.nodup_append]
        refine ⟨(List.eraseP_sublist A).map IEEE.Noh.id_pt |>.nodup h, by simp, ?_⟩
        intro a ha hb
        simp only [List.map_cons, List.map_nil, List.mem_singleton] at hb
        subst hb
        obtain ⟨y, hy, hyp⟩ := List.mem_map.mp ha
        exact eraseP_pt_ne_ieee suc.id_pt A h y hy hyp
    · rename_i hA
      rw [List.map_append, List.nodup_append]
      refine ⟨h, by simp, ?_⟩
      intro a ha hb
      simp only [List.map_cons, List.map_nil, List.mem_singleton] at hb
      subst hb
      obtain ⟨y, hy, hyp⟩ := List.mem_map.mp ha
      exact find_none_pt_ieee A _ hA y hy hyp

theorem insereSuc_forall_ieee (P : IEEE.Noh → Prop) (F A : List IEEE.Noh) (suc : IEEE.Noh)
    (hA : ∀ n ∈ A, P n) (hs : (∀ c ∈ F, c.id_pt ≠ suc.id_pt) → P suc) :
    ∀ n ∈ IEEE.insereSuc F A suc, P n := by
  intro n hn
  rcases insereSuc_mem_ieee F A suc n hn with h | ⟨rfl, h⟩
  · exact hA n h
  · exact hs h

theorem nodup_pt_eq_ieee {A : List IEEE.Noh} (h : (A.map IEEE.Noh.id_pt).Nodup)
    {a b : IEEE.Noh} (ha : a ∈ A) (hb : b ∈ A) (hab : a.id_pt = b.id_pt) : a = b :=
  List.inj_on_of_nodup_map h ha hb hab

/-- What `visita` does: nothing, or `insereSuc` of the successor along the route, whose point
resolves. -/
theorem visita_eq_ieee (M : Planejador) (m : IEEE.Libm) (pt_dest : Ponto) (atual : IEEE.Noh)
    (Fechado A : List IEEE.Noh) (rota : Rota) :
    IEEE.visita M m pt_dest atual Fechado A rota = A ∨
    ∃ v, Extremos rota atual.id_pt v ∧ (M.getPonto v).valid = true ∧
      IEEE.visita M m pt_dest atual Fechado A rota =
        IEEE.insereSuc Fechado A ⟨v, rota.id, Dbl.soma atual.g (Dbl.fin rota.comprimento),
          IEEE.haversine m (M.getPonto v) pt_dest⟩ := by
  unfold IEEE.visita
  by_cases hext : rota.extremidade0 = atual.id_pt ∨ rota.extremidade1 = atual.id_pt
  · rw [if_pos hext]
    have hE : Extremos rota atual.id_pt
        (if rota.extremidade0 = atual.id_pt then rota.extremidade1 else rota.extremidade0) := by
      by_cases h0 : rota.extremidade0 = atual.id_pt
      · rw [if_pos h0]; exact Or.inl ⟨h0, rfl⟩
      · rw [if_neg h0]
        rcases hext with h | h
        · exact absurd h h0
        · exact Or.inr ⟨h, rfl⟩
    generalize (if rota.extremidade0 = atual.id_pt then rota.extremidade1
      else rota.extremidade0) = id_suc at hE ⊢
    by_cases hval : (M.getPonto id_suc).valid = true
    · right
      refine ⟨id_suc, hE, hval, ?_⟩
      simp [hval]
    · left
      simp [hval]
  · rw [if_neg hext]
    exact Or.inl rfl

end VisitaIEEE

/-! ## The loop invariant with the arithmetic of `double` -/

section InvarianteIEEE

variable (M : Planejador) (m : IEEE.Libm) (id_origem id_destino : IDPonto)

theorem insereSuc_inv_ieee (A F : List IEEE.Noh) (atual : IEEE.Noh) (rota : Rota)
    (v : IDPonto) (hI : IEEE.InvLaco M m id_destino A F) (hat : atual ∈ F)
    (hv : (M.getPonto v).valid = true) :
    IEEE.InvLaco M m id_destino
      (IEEE.insereSuc F A ⟨v, rota.id, Dbl.soma atual.g (Dbl.fin rota.comprimento),
        IEEE.haversine m (M.getPonto v) (M.getPonto id_destino)⟩) F := by
  refine ⟨hI.nodupF, insereSuc_nodup_ieee F A _ hI.nodupA, ?_, ?_, hI.resolveF, ?_, hI.gF, ?_,
    hI.hF⟩
  · exact insereSuc_forall_ieee (fun a => ∀ c ∈ F, a.id_pt ≠ c.id_pt) F A _ hI.disj
      (fun h c hc => (h c hc).symm)
  · exact insereSuc_forall_ieee _ F A _ hI.resolveA (fun _ => hv)
  · exact insereSuc_forall_ieee _ F A _ hI.gA
      (fun _ => dbl_soma_fin_ne_nan _ _ (hI.gF atual hat))
  · exact insereSuc_forall_ieee _ F A _ hI.hA (fun _ => rfl)

theorem visita_inv_ieee (A F : List IEEE.Noh) (atual : IEEE.Noh) (rota : Rota)
    (hI : IEEE.InvLaco M m id_destino A F) (hat : atual ∈ F) :
    IEEE.InvLaco M m id_destino
      (IEEE.visita M m (M.getPonto id_destino) atual F A rota) F := by
  rcases visita_eq_ieee M m (M.getPonto id_destino) atual F A rota with h | ⟨v, _, hv, h⟩
  · rw [h]; exact hI
  · rw [h]; exact insereSuc_inv_ieee M m id_destino A F atual rota v hI hat hv

theorem expande_inv_ieee (F : List IEEE.Noh) (atual : IEEE.Noh) (hat : atual ∈ F) :
    ∀ (rotas : List Rota) (A : List IEEE.Noh), IEEE.InvLaco M m id_destino A F →
      IEEE.InvLaco M m id_destino
        (IEEE.expande M m (M.getPonto id_destino) atual F rotas A) F := by
  intro rotas
  induction rotas with
  | nil => intro A hI; exact hI
  | cons r rs ih =>
    intro A hI
    unfold IEEE.expande
    rw [List.foldl_cons]
    exact ih _ (visita_inv_ieee M m id_destino A F atual r hI hat)

theorem pop_inv_ieee (A F : List IEEE.Noh) (atual : IEEE.Noh) (A1 : List IEEE.Noh)
    (hI : IEEE.InvLaco M m id_destino A F) (hord : IEEE.ordena A = atual :: A1) :
    IEEE.InvLaco M m id_destino A1 (F ++ [atual]) := by
  have hperm : (atual :: A1).Perm A := by rw [← hord]; exact ordena_perm_ieee A
  have hatA : atual ∈ A := hperm.mem_iff.mp (List.mem_cons_self _ _)
  have hsubA : ∀ n ∈ A1, n ∈ A := fun n hn => hperm.mem_iff.mp (List.mem_cons_of_mem _ hn)
  have hnd : ((atual :: A1).map IEEE.Noh.id_pt).Nodup :=
    (hperm.map IEEE.Noh.id_pt).nodup_iff.mpr hI.nodupA
  rw [List.map_cons, List.nodup_cons] at hnd
  refine ⟨?_, hnd.2, ?_, fun n hn => hI.resolveA n (hsubA n hn), ?_,
    fun n hn => hI.gA n (hsubA n hn), ?_, fun n hn => hI.hA n (hsubA n hn), ?_⟩
  · rw [List.map_append, List.nodup_append]
    refine ⟨hI.nodupF, by simp, ?_⟩
    intro a ha hb
    simp only [List.map_cons, List.map_nil, List.mem_singleton] at hb
    subst hb
    obtain ⟨c, hc, hcp⟩ := List.mem_map.mp ha
    exact hI.disj atual hatA c hc hcp.symm
  · intro a ha c hc
    rcases List.mem_append.mp hc with hc | hc
    · exact hI.disj a (hsubA a ha) c hc
    · simp only [List.mem_singleton] at hc
      subst hc
      intro heq
      exact hnd.1 (List.mem_map.mpr ⟨a, ha, heq⟩)
  · intro n hn
    rcases List.mem_append.mp hn with hn | hn
    · exact hI.resolveF n hn
    · simp only [List.mem_singleton] at hn
      subst hn
      exact hI.resolveA n hatA
  · intro n hn
    rcases List.mem_append.mp hn with hn | hn
    · exact hI.gF n hn
    · simp only [List.mem_singleton] at hn
      subst hn
      exact hI.gA n hatA
  · intro n hn
    rcases List.mem_append.mp hn with hn | hn
    · exact hI.hF n hn
    · simp only [List.mem_singleton] at hn
      subst hn
      exact hI.hA n hatA

theorem passo_inv_ieee (A F : List IEEE.Noh) (atual : IEEE.Noh) (A1 : List IEEE.Noh)
    (hI : IEEE.InvLaco M m id_destino A F) (hord : IEEE.ordena A = atual :: A1) :
    IEEE.InvLaco M m id_destino
      (IEEE.expande M m (M.getPonto id_destino) atual (F ++ [atual]) M.rotas A1)
      (F ++ [atual]) :=
  expande_inv_ieee M m id_destino (F ++ [atual]) atual (by simp) M.rotas A1
    (pop_inv_ieee M m id_destino A F atual A1 hI hord)

theorem inicio_inv_ieee (ho : (M.getPonto id_origem).valid = true) :
    IEEE.InvLaco M m id_destino [IEEE.noInicial M m id_origem id_destino] [] := by
  refine ⟨by simp, by simp, by simp, ?_, by simp, ?_, by simp, ?_, by simp⟩
  · intro n hn
    simp only [List.mem_singleton] at hn
    subst hn
    exact ho
  · intro n hn
    simp only [List.mem_singleton] at hn
    subst hn
    simp [IEEE.noInicial]
  · intro n hn
    simp only [List.mem_singleton] at hn
    subst hn
    rfl

theorem itera_inv_ieee {A F : List IEEE.Noh} (h : IEEE.Itera M m id_origem id_destino A F) :
    IEEE.InvLaco M m id_destino A F := by
  induction h with
  | inicio _ ho _ => exact inicio_inv_ieee M m id_origem id_destino ho
  | passo _ hord _ ih => exact passo_inv_ieee M m id_destino _ _ _ _ ih hord

theorem getPonto_mem (p : IDPonto) (h : (M.getPonto p).valid = true) :
    M.getPonto p ∈ M.pontos := by
  unfold Planejador.getPonto at h ⊢
  split at h
  · rename_i P hP
    exact List.mem_of_find?_eq_some hP
  · exact absurd h (by decide)

/-- When the distance to the destination is finite for every point of the map, no node of
`Aberto` has an `f` that is a NaN. -/
theorem InvLaco_f_ne_nan {A F : List IEEE.Noh} (hI : IEEE.InvLaco M m id_destino A F)
    (hfin : ∀ P ∈ M.pontos, ∃ q, IEEE.haversine m P (M.getPonto id_destino) = Dbl.fin q) :
    ∀ n ∈ A, n.f ≠ Dbl.nan := by
  intro n hn
  obtain ⟨q, hq⟩ := hfin _ (getPonto_mem M n.id_pt (hI.resolveA n hn))
  unfold IEEE.Noh.f
  rw [hI.hA n hn, hq]
  exact dbl_soma_fin_ne_nan _ _ (hI.gA n hn)

end InvarianteIEEE

/-! ## Selection of the node to close, with the order of `double` -/

section SelecaoIEEE

theorem MesmaOrdem_filter_ieee {A G : List IEEE.Noh} (h : IEEE.MesmaOrdem A G)
    (q : IEEE.Noh → Bool) : IEEE.MesmaOrdem (A.filter q) (G.filter q) := by
  intro k
  rw [List.filter_filter, List.filter_filter]
  have e : ∀ l : List IEEE.Noh, l.filter (fun a => decide (a.f = k) && q a) =
      (l.filter (fun n => decide (n.f = k))).filter q := by
    intro l
    rw [List.filter_filter]
    congr 1
    funext a
    exact Bool.and_comm _ _
  rw [e A, e G, h k]

theorem MesmaOrdem_snoc_ieee {A G : List IEEE.Noh} (h : IEEE.MesmaOrdem A G) (x : IEEE.Noh) :
    IEEE.MesmaOrdem (A ++ [x]) (G ++ [x]) := by
  intro k
  rw [List.filter_append, List.filter_append, h k]

theorem MesmaOrdem_mem_ieee {A G : List IEEE.Noh} (h : IEEE.MesmaOrdem A G) (n : IEEE.Noh) :
    n ∈ A ↔ n ∈ G := by
  have e : ∀ l : List IEEE.Noh, n ∈ l ↔ n ∈ l.filter (fun x => decide (x.f = n.f)) := by
    intro l
    simp [List.mem_filter]
  rw [e A, e G, h n.f]

theorem MesmaOrdem_perm_ieee {A G : List IEEE.Noh} (h : IEEE.MesmaOrdem A G) : A.Perm G := by
  rw [List.perm_iff_count]
  intro a
  have e : ∀ l : List IEEE.Noh,
      l.count a = (l.filter (fun x => decide (x.f = a.f))).count a := by
    intro l
    rw [List.count_filter]
    simp
  rw [e A, e G, h a.f]

theorem insereOrd_mesmaOrdem_ieee (x : IEEE.Noh) (l : List IEEE.Noh) :
    IEEE.MesmaOrdem (IEEE.insereOrd x l) (x :: l) := by
  intro k
  induction l with
  | nil => rfl
  | cons y ys ih =>
    unfold IEEE.insereOrd
    by_cases hlt : Dbl.lt y.f x.f = true
    · rw [if_pos hlt]
      by_cases hx : x.f = k
      · have hy : ¬ y.f = k := by rw [← hx]; exact dbl_lt_ne hlt
        simp only [List.filter_cons, hy, hx, decide_False, decide_True, if_true,
          Bool.false_eq_true, if_false] at ih ⊢
        exact ih
      · simp only [List.filter_cons, hx, decide_False, Bool.false_eq_true, if_false] at ih ⊢
        rw [ih]
    · rw [if_neg hlt]

/-- The sort is stable: nodes with the same `f` keep their order. -/
theorem ordena_mesmaOrdem_ieee (l : List IEEE.Noh) : IEEE.MesmaOrdem (IEEE.ordena l) l := by
  induction l with
  | nil => intro k; rfl
  | cons x xs ih =>
    intro k
    unfold IEEE.ordena
    rw [insereOrd_mesmaOrdem_ieee x (IEEE.ordena xs) k]
    simp only [List.filter_cons]
    rw [ih k]

theorem eraseP_pt_eq_filter_ieee (p : IDPonto) : ∀ (A : List IEEE.Noh),
    (A.map IEEE.Noh.id_pt).Nodup →
    A.eraseP (fun n => decide (n.id_pt = p)) = A.filter (fun n => !decide (n.id_pt = p)) := by
  intro A
  induction A with
  | nil => intro _; rfl
  | cons x xs ih =>
    intro hnd
    rw [List.map_cons, List.nodup_cons] at hnd
    by_cases hx : x.id_pt = p
    · rw [List.eraseP_cons_of_pos (by simpa using hx)]
      simp only [List.filter_cons, hx, decide_True, Bool.not_true, Bool.false_eq_true, if_false]
      symm
      rw [List.filter_eq_self]
      intro a ha
      have : a.id_pt ≠ p := by
        intro h
        exact hnd.1 (List.mem_map.mpr ⟨a, ha, by rw [h, hx]⟩)
      simpa using this
    · rw [List.eraseP_cons_of_neg (by simpa using hx)]
      simp only [List.filter_cons, hx, decide_False, Bool.not_false, if_true]
      rw [ih hnd.2]

/-- What `insereSuc` gives, in terms of the nodes that the lists hold. -/
theorem insereSuc_casos_ieee (F A : List IEEE.Noh) (suc : IEEE.Noh)
    (hnd : (A.map IEEE.Noh.id_pt).Nodup) :
    ((∃ c ∈ F, c.id_pt = suc.id_pt) → IEEE.insereSuc F A suc = A) ∧
    ((∃ n ∈ A, n.id_pt = suc.id_pt ∧ Dbl.le n.f suc.f = true) →
      IEEE.insereSuc F A suc = A) ∧
    ((¬ ∃ c ∈ F, c.id_pt = suc.id_pt) →
      (¬ ∃ n ∈ A, n.id_pt = suc.id_pt ∧ Dbl.le n.f suc.f = true) →
      IEEE.insereSuc F A suc =
        A.filter (fun n => !decide (n.id_pt = suc.id_pt)) ++ [suc]) := by
  unfold IEEE.insereSuc
  cases hF : F.find? (fun n => decide (n.id_pt = suc.id_pt)) with
  | some c =>
    obtain ⟨hc1, hc2⟩ := find_some_pt_ieee F _ c hF
    exact ⟨fun _ => rfl, fun _ => rfl, fun h => absurd ⟨c, hc1, hc2⟩ h⟩
  | none =>
    have hFn := find_none_pt_ieee F _ hF
    cases hA : A.find? (fun n => decide (n.id_pt = suc.id_pt)) with
    | some n =>
      obtain ⟨hn1, hn2⟩ := find_some_pt_ieee A _ n hA
      by_cases hle : Dbl.le n.f suc.f = true
      · simp only [if_pos hle]
        exact ⟨fun _ => trivial, fun _ => trivial, fun _ h => absurd ⟨n, hn1, hn2, hle⟩ h⟩
      · simp only [if_neg hle]
        refine ⟨fun ⟨c, hc1, hc2⟩ => absurd hc2 (hFn c hc1), ?_, ?_⟩
        · rintro ⟨n2, h1, h2, h3⟩
          have : n2 = n := nodup_pt_eq_ieee hnd h1 hn1 (by rw [h2, hn2])
          rw [this] at h3
          exact absurd h3 hle
        · intro _ _
          rw [eraseP_pt_eq_filter_ieee suc.id_pt A hnd]
    | none =>
      have hAn := find_none_pt_ieee A _ hA
      simp only
      refine ⟨fun ⟨c, hc1, hc2⟩ => absurd hc2 (hFn c hc1),
        fun ⟨n, h1, h2, _⟩ => absurd h2 (hAn n h1), ?_⟩
      intro _ _
      have : A.filter (fun n => !decide (n.id_pt = suc.id_pt)) = A := by
        rw [List.filter_eq_self]
        intro a ha
        simpa using hAn a ha
      rw [this]

theorem insereSuc_mesmaOrdem_ieee (F A G : List IEEE.Noh) (suc : IEEE.Noh)
    (h : IEEE.MesmaOrdem A G) (hA : (A.map IEEE.Noh.id_pt).Nodup)
    (hG : (G.map IEEE.Noh.id_pt).Nodup) :
    IEEE.MesmaOrdem (IEEE.insereSuc F A suc) (IEEE.insereSuc F G suc) := by
  obtain ⟨a1, a2, a3⟩ := insereSuc_casos_ieee F A suc hA
  obtain ⟨g1, g2, g3⟩ := insereSuc_casos_ieee F G suc hG
  by_cases c1 : ∃ c ∈ F, c.id_pt = suc.id_pt
  · rw [a1 c1, g1 c1]; exact h
  · by_cases c2 : ∃ n ∈ A, n.id_pt = suc.id_pt ∧ Dbl.le n.f suc.f = true
    · have c2g : ∃ n ∈ G, n.id_pt = suc.id_pt ∧ Dbl.le n.f suc.f = true := by
        obtain ⟨n, h1, h2⟩ := c2
        exact ⟨n, (MesmaOrdem_mem_ieee h n).mp h1, h2⟩
      rw [a2 c2, g2 c2g]; exact h
    · have c2g : ¬ ∃ n ∈ G, n.id_pt = suc.id_pt ∧ Dbl.le n.f suc.f = true := by
        rintro ⟨n, h1, h2⟩
        exact c2 ⟨n, (MesmaOrdem_mem_ieee h n).mpr h1, h2⟩
      rw [a3 c1 c2, g3 c1 c2g]
      exact MesmaOrdem_snoc_ieee (MesmaOrdem_filter_ieee h _) suc

theorem visita_forma_ieee (M : Planejador) (m : IEEE.Libm) (pt_dest : Ponto)
    (atual : IEEE.Noh) (F : List IEEE.Noh) (rota : Rota) :
    (∀ X, IEEE.visita M m pt_dest atual F X rota = X) ∨
    (∃ suc, ∀ X, IEEE.visita M m pt_dest atual F X rota = IEEE.insereSuc F X suc) := by
  by_cases hext : rota.extremidade0 = atual.id_pt ∨ rota.extremidade1 = atual.id_pt
  · by_cases hval : (M.getPonto (if rota.extremidade0 = atual.id_pt then rota.extremidade1
        else rota.extremidade0)).valid = true
    · right
      refine ⟨⟨if rota.extremidade0 = atual.id_pt then rota.extremidade1
        else rota.extremidade0, rota.id, Dbl.soma atual.g (Dbl.fin rota.comprimento),
        IEEE.haversine m (M.getPonto (if rota.extremidade0 = atual.id_pt
          then rota.extremidade1 else rota.extremidade0)) pt_dest⟩, ?_⟩
      intro X
      unfold IEEE.visita
      rw [if_pos hext]
      simp [hval]
    · left
      intro X
      unfold IEEE.visita
      rw [if_pos hext]
      simp [hval]
  · left
    intro X
    unfold IEEE.visita
    rw [if_neg hext]

theorem expande_mesmaOrdem_ieee (M : Planejador) (m : IEEE.Libm) (pt_dest : Ponto)
    (atual : IEEE.Noh) (F : List IEEE.Noh) :
    ∀ (rotas : List Rota) (A G : List IEEE.Noh), IEEE.MesmaOrdem A G →
    (A.map IEEE.Noh.id_pt).Nodup → (G.map IEEE.Noh.id_pt).Nodup →
    IEEE.MesmaOrdem (IEEE.expande M m pt_dest atual F rotas A)
      (IEEE.expande M m pt_dest atual F rotas G) ∧
    ((IEEE.expande M m pt_dest atual F rotas A).map IEEE.Noh.id_pt).Nodup ∧
    ((IEEE.expande M m pt_dest atual F rotas G).map IEEE.Noh.id_pt).Nodup := by
  intro rotas
  induction rotas with
  | nil => intro A G h hA hG; exact ⟨h, hA, hG⟩
  | cons r rs ih =>
    intro A G h hA hG
    have e : ∀ X, IEEE.expande M m pt_dest atual F (r :: rs) X =
        IEEE.expande M m pt_dest atual F rs (IEEE.visita M m pt_dest atual F X r) :=
      fun _ => rfl
    rw [e A, e G]
    rcases visita_forma_ieee M m pt_dest atual F r with hv | ⟨suc, hv⟩
    · rw [hv A, hv G]; exact ih A G h hA hG
    · rw [hv A, hv G]
      exact ih _ _ (insereSuc_mesmaOrdem_ieee F A G suc h hA hG)
        (insereSuc_nodup_ieee F A suc hA) (insereSuc_nodup_ieee F G suc hG)

variable (M : Planejador) (m : IEEE.Libm) (id_origem id_destino : IDPonto)

theorem iteraOrdem_itera_ieee {A G F : List IEEE.Noh}
    (h : IEEE.IteraOrdem M m id_origem id_destino A G F) :
    IEEE.Itera M m id_origem id_destino A F := by
  induction h with
  | inicio h1 h2 h3 => exact IEEE.Itera.inicio h1 h2 h3
  | passo _ hord hd ih => exact IEEE.Itera.passo ih hord hd

theorem itera_iteraOrdem_ieee {A F : List IEEE.Noh}
    (h : IEEE.Itera M m id_origem id_destino A F) :
    ∃ G, IEEE.IteraOrdem M m id_origem id_destino A G F := by
  induction h with
  | inicio h1 h2 h3 => exact ⟨_, IEEE.IteraOrdem.inicio h1 h2 h3⟩
  | passo _ hord hd ih =>
    obtain ⟨G, hG⟩ := ih
    exact ⟨_, IEEE.IteraOrdem.passo hG hord hd⟩

/-- At the start of every iteration `Aberto` and the list in push order hold the same nodes,
with those of equal `f` in the same order. -/
theorem iteraOrdem_inv_ieee {A G F : List IEEE.Noh}
    (h : IEEE.IteraOrdem M m id_origem id_destino A G F) :
    IEEE.MesmaOrdem A G ∧ (A.map IEEE.Noh.id_pt).Nodup ∧ (G.map IEEE.Noh.id_pt).Nodup := by
  induction h with
  | inicio _ _ _ => exact ⟨fun _ => rfl, by simp, by simp⟩
  | @passo A G F atual A1 _ hord _ ih =>
    obtain ⟨hAG, hA, hG⟩ := ih
    have hperm : (atual :: A1).Perm A := by rw [← hord]; exact ordena_perm_ieee A
    have hAnd : A.Nodup := List.Nodup.of_map _ hA
    have hGnd : G.Nodup := List.Nodup.of_map _ hG
    have hOnd : (atual :: A1).Nodup := hperm.nodup_iff.mpr hAnd
    have hA1 : (A1.map IEEE.Noh.id_pt).Nodup := by
      have := (hperm.map IEEE.Noh.id_pt).nodup_iff.mpr hA
      rw [List.map_cons, List.nodup_cons] at this
      exact this.2
    have hG1 : ((G.erase atual).map IEEE.Noh.id_pt).Nodup :=
      ((List.erase_sublist atual G).map IEEE.Noh.id_pt).nodup hG
    have hOG : IEEE.MesmaOrdem (atual :: A1) G := by
      intro k
      rw [← hord, ordena_mesmaOrdem_ieee A k, hAG k]
    have hE : IEEE.MesmaOrdem A1 (G.erase atual) := by
      have e1 : A1 = (atual :: A1).filter (fun x => x != atual) := by
        rw [← List.Nodup.erase_eq_filter hOnd atual]
        simp
      rw [e1, List.Nodup.erase_eq_filter hGnd atual]
      exact MesmaOrdem_filter_ieee hOG _
    exact expande_mesmaOrdem_ieee M m _ atual _ M.rotas A1 (G.erase atual) hE hA1 hG1

/-- Under the invariant `Fechado` has at most as many nodes as the map has points. -/
theorem length_le_ieee {A F : List IEEE.Noh} (hI : IEEE.InvLaco M m id_destino A F) :
    A.length + F.length ≤ M.pontos.length := by
  have hnd : ((A ++ F).map IEEE.Noh.id_pt).Nodup := by
    rw [List.map_append, List.nodup_append]
    refine ⟨hI.nodupA, hI.nodupF, ?_⟩
    intro p ha hf
    obtain ⟨a, haA, hap⟩ := List.mem_map.mp ha
    obtain ⟨c, hcF, hcp⟩ := List.mem_map.mp hf
    exact hI.disj a haA c hcF (hap.trans hcp.symm)
  have hsub : (A ++ F).map IEEE.Noh.id_pt ⊆ M.pontos.map Ponto.id := by
    intro p hp
    obtain ⟨n, hn, rfl⟩ := List.mem_map.mp hp
    rcases List.mem_append.mp hn with hn | hn
    · exact getPonto_valid_mem M _ (hI.resolveA n hn)
    · exact getPonto_valid_mem M _ (hI.resolveF n hn)
  have := (List.subperm_of_subset hnd hsub).length_le
  simpa using this

theorem laco_succ_ieee (pt_dest : Ponto) (fuel : Nat) (A F : List IEEE.Noh)
    (atual : IEEE.Noh) (A1 : List IEEE.Noh) (hord : IEEE.ordena A = atual :: A1)
    (hd : atual.id_pt ≠ id_destino) :
    IEEE.laco M m id_origem id_destino pt_dest (fuel + 1) A F =
      IEEE.laco M m id_origem id_destino pt_dest fuel
        (IEEE.expande M m pt_dest atual (F ++ [atual]) M.rotas A1) (F ++ [atual]) := by
  conv_lhs => unfold IEEE.laco
  simp only [hord, if_neg hd]

/-- The call goes through every state of `Itera`: the `try` block is the main loop run from
that state, with the fuel that is left. -/
theorem itera_laco_ieee {A F : List IEEE.Noh} (h : IEEE.Itera M m id_origem id_destino A F) :
    IEEE.tenta M m id_origem id_destino =
      IEEE.laco M m id_origem id_destino (M.getPonto id_destino)
        (M.pontos.length + 1 - F.length) A F := by
  induction h with
  | inicio hne ho hd =>
    unfold IEEE.tenta
    simp [hne, ho, hd, IEEE.noInicial]
  | @passo A F atual A1 hit hord hd ih =>
    have hI := itera_inv_ieee M m id_origem id_destino hit
    have hI2 := passo_inv_ieee M m id_destino A F atual A1 hI hord
    have hl := length_le_ieee M m id_destino hI2
    rw [List.length_append, List.length_singleton] at hl
    rw [ih]
    have e : M.pontos.length + 1 - F.length =
        (M.pontos.length + 1 - (F ++ [atual]).length) + 1 := by
      rw [List.length_append, List.length_singleton]; omega
    rw [e]
    exact laco_succ_ieee M m id_origem id_destino _ _ A F atual A1 hord hd

end SelecaoIEEE

/-- C18, amended: when the distance to the destination is a finite number for every point of
the map (none is a NaN), in every iteration of the main loop of `calculaCaminho`, with the
arithmetic of `double`, no `f` in `Aberto` is a NaN and the node `atual` moved from `Aberto`
to `Fechado` has the least `f` of the nodes of `Aberto`; with `G` the nodes of `Aberto` in the
order in which they were pushed, every node pushed before `atual` has an `f` strictly greater,
so `atual` is the first pushed of the nodes of least `f`. The state is one the call goes
through: the `try` block is the loop run from it. -/
theorem seleciona_minimo_sem_nan (M : Planejador) (m : IEEE.Libm)
    (id_origem id_destino : IDPonto) (A G F : List IEEE.Noh) (atual : IEEE.Noh)
    (A1 : List IEEE.Noh)
    (hfin : ∀ P ∈ M.pontos, ∃ q, IEEE.haversine m P (M.getPonto id_destino) = Dbl.fin q)
    (h : IEEE.IteraOrdem M m id_origem id_destino A G F)
    (hord : IEEE.ordena A = atual :: A1) :
    IEEE.Itera M m id_origem id_destino A F ∧
    IEEE.tenta M m id_origem id_destino =
      IEEE.laco M m id_origem id_destino (M.getPonto id_destino)
        (M.pontos.length + 1 - F.length) A F ∧
    A.Perm G ∧ atual ∈ A ∧ (∀ n ∈ A, n.f ≠ Dbl.nan) ∧
    (∀ n ∈ A, Dbl.le atual.f n.f = true) ∧
    (∃ resto, G.filter (fun n => decide (n.f = atual.f)) = atual :: resto) ∧
    (∀ l1 l2, G = l1 ++ atual :: l2 → ∀ n ∈ l1, Dbl.lt atual.f n.f = true) := by
  obtain ⟨hAG, hA, hG⟩ := iteraOrdem_inv_ieee M m id_origem id_destino h
  have hit := iteraOrdem_itera_ieee M m id_origem id_destino h
  have hI := itera_inv_ieee M m id_origem id_destino hit
  have hnan := InvLaco_f_ne_nan M m id_destino hI hfin
  have hmin := ordena_head_min_ieee A hnan atual A1 hord
  have hatA : atual ∈ A :=
    (ordena_perm_ieee A).mem_iff.mp (by rw [hord]; exact List.mem_cons_self _ _)
  have hcls : G.filter (fun n => decide (n.f = atual.f)) =
      atual :: A1.filter (fun n => decide (n.f = atual.f)) := by
    rw [← hAG atual.f, ← ordena_mesmaOrdem_ieee A atual.f, hord]
    simp [List.filter_cons]
  refine ⟨hit, itera_laco_ieee M m id_origem id_destino hit, MesmaOrdem_perm_ieee hAG, hatA,
    hnan, hmin, ⟨_, hcls⟩, ?_⟩
  intro l1 l2 hGeq n hn
  have hnG : n ∈ G := by rw [hGeq]; exact List.mem_append_left _ hn
  have hle := hmin n ((MesmaOrdem_mem_ieee hAG n).mpr hnG)
  by_cases heq : atual.f = n.f
  · exfalso
    have hGnd : G.Nodup := List.Nodup.of_map _ hG
    rw [hGeq, List.filter_append] at hcls
    have hn1 : n ∈ l1.filter (fun x => decide (x.f = atual.f)) := by
      simp [List.mem_filter, hn, heq.symm]
    cases hl : l1.filter (fun x => decide (x.f = atual.f)) with
    | nil => rw [hl] at hn1; simp at hn1
    | cons x xs =>
      rw [hl] at hcls
      simp only [List.cons_append, List.cons.injEq] at hcls
      have hx : x ∈ l1 := by
        have : x ∈ l1.filter (fun x => decide (x.f = atual.f)) := by rw [hl]; simp
        exact (List.mem_filter.mp this).1
      rw [hcls.1] at hx
      rw [hGeq] at hGnd
      have := (List.nodup_append.mp hGnd).2.2
      exact this hx (by simp)
  · exact dbl_lt_of_le_of_ne hle heq

/-! ## Concrete runs with the arithmetic of `double` -/

theorem mapaNaN_lido :
    Planejador.ler ⟨[], []⟩ numGetDec (some arquivoPontosNaN) (some arquivoRotasNaN) =
      some (true, mapaNaN) := by
  decide!

theorem mapaNaN_estado :
    IEEE.expande mapaNaN libmD (mapaNaN.getPonto idC) (IEEE.noInicial mapaNaN libmD idA idC)
      ([] ++ [IEEE.noInicial mapaNaN libmD idA idC]) mapaNaN.rotas [] = [nohNaN, nohUm] := by
  decide!

theorem mapaNaN_itera :
    IEEE.IteraOrdem mapaNaN libmD idA idC [nohNaN, nohUm] [nohNaN, nohUm]
      [IEEE.noInicial mapaNaN libmD idA idC] := by
  have h := IEEE.IteraOrdem.passo (IEEE.IteraOrdem.inicio (by decide) (by decide) (by decide) :
    IEEE.IteraOrdem mapaNaN libmD idA idC _ _ _)
    (ordena_singleton_ieee (IEEE.noInicial mapaNaN libmD idA idC)) (by decide)
  have e : [IEEE.noInicial mapaNaN libmD idA idC].erase (IEEE.noInicial mapaNaN libmD idA idC)
      = [] := by simp
  rw [e, mapaNaN_estado] at h
  exact h

/-- C18, as stated, fails: on the map `mapaNaN`, which `ler` builds from two files, the search
from `#A` to `#C` reaches an iteration with the nodes of `#B` and of `#C` in `Aberto`; the `f`
of the node of `#B` is a NaN (the latitude `1e308` times `MY_PI` overflows and the sine of an
infinity is a NaN), that of the node of `#C` is 1; no comparison with a NaN holds, the sort
leaves the node of `#B` in front, and it is moved to `Fechado` although its `f` is not less
than or equal to that of the node of `#C`. -/
theorem seleciona_com_nan :
    Planejador.ler ⟨[], []⟩ numGetDec (some arquivoPontosNaN) (some arquivoRotasNaN) =
      some (true, mapaNaN) ∧
    IEEE.IteraOrdem mapaNaN libmD idA idC [nohNaN, nohUm] [nohNaN, nohUm]
      [IEEE.noInicial mapaNaN libmD idA idC] ∧
    IEEE.ordena [nohNaN, nohUm] = nohNaN :: [nohUm] ∧
    nohNaN.f = Dbl.nan ∧ nohUm.f = Dbl.fin 1 ∧
    ¬ (∀ n ∈ [nohNaN, nohUm], Dbl.le nohNaN.f n.f = true) :=
  ⟨mapaNaN_lido, mapaNaN_itera, by decide!, by decide!, by decide!, by decide!⟩

theorem mapaTeste_finito :
    ∀ P ∈ mapaTeste.pontos, ∃ q, IEEE.haversine libmD P (mapaTeste.getPonto idB) = Dbl.fin q := by
  intro P hP
  simp only [mapaTeste, List.mem_cons, List.mem_singleton, List.not_mem_nil, or_false] at hP
  rcases hP with rfl | rfl | rfl
  · exact ⟨distLonga, by decide!⟩
  · exact ⟨0, by decide!⟩
  · exact ⟨distLonga, by decide!⟩

theorem mapaTeste_estado_ieee :
    IEEE.expande mapaTeste libmD (mapaTeste.getPonto idB)
      (IEEE.noInicial mapaTeste libmD idA idB) ([] ++ [IEEE.noInicial mapaTeste libmD idA idB])
      mapaTeste.rotas [] =
      [⟨idC, rota1.id, Dbl.fin 10, Dbl.fin distLonga⟩, ⟨idB, rota2.id, Dbl.fin 1, Dbl.fin 0⟩] := by
  decide!

theorem mapaTeste_itera_ieee :
    IEEE.IteraOrdem mapaTeste libmD idA idB
      [⟨idC, rota1.id, Dbl.fin 10, Dbl.fin distLonga⟩, ⟨idB, rota2.id, Dbl.fin 1, Dbl.fin 0⟩]
      [⟨idC, rota1.id, Dbl.fin 10, Dbl.fin distLonga⟩, ⟨idB, rota2.id, Dbl.fin 1, Dbl.fin 0⟩]
      [IEEE.noInicial mapaTeste libmD idA idB] := by
  have h := IEEE.IteraOrdem.passo (IEEE.IteraOrdem.inicio (by decide) (by decide) (by decide) :
    IEEE.IteraOrdem mapaTeste libmD idA idB _ _ _)
    (ordena_singleton_ieee (IEEE.noInicial mapaTeste libmD idA idB)) (by decide)
  have e : [IEEE.noInicial mapaTeste libmD idA idB].erase
      (IEEE.noInicial mapaTeste libmD idA idB) = [] := by simp
  rw [e, mapaTeste_estado_ieee] at h
  exact h

theorem mapaTeste_ordenado_ieee :
    IEEE.ordena [(⟨idC, rota1.id, Dbl.fin 10, Dbl.fin distLonga⟩ : IEEE.Noh),
        ⟨idB, rota2.id, Dbl.fin 1, Dbl.fin 0⟩] =
      ⟨idB, rota2.id, Dbl.fin 1, Dbl.fin 0⟩ :: [⟨idC, rota1.id, Dbl.fin 10, Dbl.fin distLonga⟩] := by
  decide!

theorem seleciona_minimo_sem_nan_witness :
    (∀ P ∈ mapaTeste.pontos,
      ∃ q, IEEE.haversine libmD P (mapaTeste.getPonto idB) = Dbl.fin q) ∧
    IEEE.IteraOrdem mapaTeste libmD idA idB
      [⟨idC, rota1.id, Dbl.fin 10, Dbl.fin distLonga⟩, ⟨idB, rota2.id, Dbl.fin 1, Dbl.fin 0⟩]
      [⟨idC, rota1.id, Dbl.fin 10, Dbl.fin distLonga⟩, ⟨idB, rota2.id, Dbl.fin 1, Dbl.fin 0⟩]
      [IEEE.noInicial mapaTeste libmD idA idB] ∧
    IEEE.ordena [(⟨idC, rota1.id, Dbl.fin 10, Dbl.fin distLonga⟩ : IEEE.Noh),
        ⟨idB, rota2.id, Dbl.fin 1, Dbl.fin 0⟩] =
      ⟨idB, rota2.id, Dbl.fin 1, Dbl.fin 0⟩ :: [⟨idC, rota1.id, Dbl.fin 10, Dbl.fin distLonga⟩] ∧
    (∀ n ∈ [(⟨idC, rota1.id, Dbl.fin 10, Dbl.fin distLonga⟩ : IEEE.Noh),
        ⟨idB, rota2.id, Dbl.fin 1, Dbl.fin 0⟩],
      Dbl.le (⟨idB, rota2.id, Dbl.fin 1, Dbl.fin 0⟩ : IEEE.Noh).f n.f = true) :=
  ⟨mapaTeste_finito, mapaTeste_itera_ieee, mapaTeste_ordenado_ieee,
    (seleciona_minimo_sem_nan mapaTeste libmD idA idB _ _ _ _ _ mapaTeste_finito
      mapaTeste_itera_ieee mapaTeste_ordenado_ieee).2.2.2.2.2.1⟩

/-! ## Optimality when no sum is rounded -/

section OtimoIEEE

variable (M : Planejador) (m : IEEE.Libm) (id_origem id_destino : IDPonto)

end OtimoIEEE

section OtimoLacoIEEE

variable (M : Planejador) (m : IEEE.Libm) (id_origem id_destino : IDPonto)

end OtimoLacoIEEE

section FinalIEEE

variable (M : Planejador) (m : IEEE.Libm) (id_origem id_destino : IDPonto)

end FinalIEEE

/-- Values of `arred64`: numbers of the format are not changed; `1/3`, `1/10` and the literal of
`MY_PI` go to the nearest value; a number half way between two values goes to the one with the
even significand; below `2 ^ (-1022)` the spacing is `2 ^ (-1074)`; from `2 ^ 1024 - 2 ^ 970` on
the result is an infinity. -/
theorem arred64_valores :
    arred64 1 = Dbl.fin 1 ∧ arred64 (-20016) = Dbl.fin (-20016) ∧
    arred64 (1 / 3) = Dbl.fin (6004799503160661 / 18014398509481984) ∧
    arred64 (1 / 10) = Dbl.fin (3602879701896397 / 36028797018963968) ∧
    IEEE.MY_PI = Dbl.fin (884279719003555 / 281474976710656) ∧
    arred64 (10 ^ 308) = Dbl.fin lat1e308 ∧
    arred64 (1 + 1 / 2 ^ 53) = Dbl.fin 1 ∧
    arred64 (1 + 3 / 2 ^ 53) = Dbl.fin (1 + 1 / 2 ^ 51) ∧
    arred64 (1 + 3 / 2 ^ 54) = Dbl.fin (1 + 1 / 2 ^ 52) ∧
    arred64 (1 / 2 ^ 1074) = Dbl.fin (1 / 2 ^ 1074) ∧
    arred64 (1 / 2 ^ 1075) = Dbl.fin 0 ∧
    arred64 (3 / 2 ^ 1075) = Dbl.fin (2 / 2 ^ 1074) ∧
    arred64 (2 ^ 1024 - 2 ^ 971) = Dbl.fin (2 ^ 1024 - 2 ^ 971) ∧
    arred64 (2 ^ 1024 - 2 ^ 970 - 1) = Dbl.fin (2 ^ 1024 - 2 ^ 971) ∧
    arred64 (2 ^ 1024 - 2 ^ 970) = Dbl.inf ∧
    arred64 (-(2 ^ 1024)) = Dbl.ninf ∧
    Dbl.mult IEEE.MY_PI (Dbl.fin lat1e308) = Dbl.inf := by
  decide!

/-- With the arithmetic of `double` too, on `mapaTeste` the call from `#A` to `#C` returns 10
through the route `&1` although the routes `&2` and `&3` lead from `#A` to `#C` with the total
length 2: the distance from `#B` to `#C` is more than the length of the route between them. -/
theorem mapaTeste_retorno_ieee :
    IEEE.calculaCaminho mapaTeste libmD idA idC [] =
      some ⟨Dbl.fin 10, [(IDRota.vazio, idA), (rota1.id, idC)], 1, 2, none⟩ ∧
    liga mapaTeste idA idC [rota2, rota3] ∧ somaRotas [rota2, rota3] = 2 ∧
    ¬ IEEE.Consistente mapaTeste libmD idC := by
  refine ⟨by decide!, by simp only [liga]; decide, by unfold somaRotas; decide!, ?_⟩
  intro h
  have h2 := (h.2 rota3 (by decide)).1
  revert h2
  unfold IEEE.heur
  decide!
